import Mathlib

/-!
Shallow embedding of the core matching engine of the OrderBook repository
(src/types, src/orderbook, src/engine) and proofs about it.

Modelling conventions:
* The `u64` fixed-point raw integers inside `Price` (scale 10^6) and
  `Quantity` (scale 10^8) are modelled as `Nat`.
* `Uuid` identifiers are modelled as `Nat`; the fresh ids produced by
  `Uuid::new_v4()` for orders are modelled by a counter threaded through the
  engine state.  A trade's own `id` is never read by the engine, so
  `Trade::new` fixes it to `0`.
* The `f64` balances are modelled as exact rationals `ℚ`: each balance
  operation of the source (`+`, `-`, `*`, `<`, `>=` on `f64`) is mapped to
  the corresponding exact rational operation.  The one claim that is about
  binary floating point itself is settled through a representability
  argument about the exact value, independent of this map.
* `BTreeMap` (bids descending via `Reverse<Price>`, asks ascending) is
  modelled as an association list sorted in iteration order, `HashMap` as an
  unsorted association list, `VecDeque` as a `List`.
* `DateTime` timestamps are dropped: the engine never reads them (time
  priority is queue order, not the timestamp).
* The Rust `while` matching loops are modelled with an explicit fuel
  parameter; the entry points supply fuel strictly larger than the loop
  variant (taker remaining + book side size), which provably never runs out.
-/

/-- `OrderSide` from src/types/order.rs. -/
inductive OrderSide
  | Buy
  | Sell
deriving DecidableEq, Repr

/-- `OrderType` from src/types/order.rs. -/
inductive OrderType
  | Limit
  | Market
deriving DecidableEq, Repr

/-- `OrderStatus` from src/types/order.rs. -/
inductive OrderStatus
  | Open
  | PartiallyFilled
  | Filled
  | Cancelled
deriving DecidableEq, Repr

/-- `Order` from src/types/order.rs.  `price`/`quantity` hold raw fixed-point
integers (`Price` at scale 10^6, `Quantity` at scale 10^8); the timestamp is
omitted (never read by the engine). -/
structure Order where
  id : Nat
  user_id : Nat
  side : OrderSide
  order_type : OrderType
  price : Option Nat
  original_quantity : Nat
  remaining_quantity : Nat
  status : OrderStatus
deriving DecidableEq, Repr

/-- `Order::new_limit` (the fresh uuid is passed in as `id`). -/
def Order.new_limit (id user_id : Nat) (side : OrderSide) (price quantity : Nat) : Order :=
  { id := id, user_id := user_id, side := side, order_type := .Limit,
    price := some price, original_quantity := quantity,
    remaining_quantity := quantity, status := .Open }

/-- `Order::new_market` (the fresh uuid is passed in as `id`). -/
def Order.new_market (id user_id : Nat) (side : OrderSide) (quantity : Nat) : Order :=
  { id := id, user_id := user_id, side := side, order_type := .Market,
    price := none, original_quantity := quantity,
    remaining_quantity := quantity, status := .Open }

/-- `Order::is_fully_filled` (via `Quantity::is_zero`). -/
def Order.is_fully_filled (o : Order) : Bool :=
  o.remaining_quantity == 0

/-- `Order::fill`: subtract from `remaining_quantity`, then set the status.
All call sites subtract at most the current remainder, matching the checked
`u64` subtraction. -/
def Order.fill (o : Order) (quantity : Nat) : Order :=
  let r := o.remaining_quantity - quantity
  { o with remaining_quantity := r,
           status := if r == 0 then .Filled else .PartiallyFilled }

/-- `Trade` from src/types/trade.rs (timestamp omitted, never read). -/
structure Trade where
  id : Nat
  maker_order_id : Nat
  taker_order_id : Nat
  maker_user_id : Nat
  taker_user_id : Nat
  price : Nat
  quantity : Nat
deriving DecidableEq, Repr

/-- `Trade::new`; the random uuid `id` is fixed to 0 (never read). -/
def Trade.new (maker_order_id taker_order_id maker_user_id taker_user_id : Nat)
    (price quantity : Nat) : Trade :=
  { id := 0, maker_order_id := maker_order_id, taker_order_id := taker_order_id,
    maker_user_id := maker_user_id, taker_user_id := taker_user_id,
    price := price, quantity := quantity }

/-- `PriceLevel` from src/orderbook/price_level.rs: FIFO queue (head = oldest)
plus the cached total volume. -/
structure PriceLevel where
  price : Nat
  orders : List Order
  total_volume : Nat
deriving DecidableEq, Repr

/-- `PriceLevel::new`. -/
def PriceLevel.new (price : Nat) : PriceLevel :=
  { price := price, orders := [], total_volume := 0 }

/-- `PriceLevel::enqueue_order` (a.k.a. `add_order` at the call sites in
src/orderbook/orderbook.rs): append to the tail, add the remainder to the
cached volume. -/
def PriceLevel.enqueue_order (L : PriceLevel) (o : Order) : PriceLevel :=
  { L with total_volume := L.total_volume + o.remaining_quantity,
           orders := L.orders ++ [o] }

/-- `PriceLevel::dequeue_order_by_id` (a.k.a. `remove_order` at the call
sites): remove the order with the given id, decrement the volume by its
remainder.  Returns the new level and the removed order. -/
def PriceLevel.dequeue_order_by_id (L : PriceLevel) (order_id : Nat) :
    PriceLevel × Option Order :=
  match L.orders.find? (fun o => o.id == order_id) with
  | none => (L, none)
  | some o =>
      ({ L with orders := L.orders.eraseP (fun o => o.id == order_id),
                total_volume := L.total_volume - o.remaining_quantity },
       some o)

/-- `PriceLevel::update_volume`: decrement the cached volume by the filled
amount (the matched order's own remainder is mutated separately). -/
def PriceLevel.update_volume (L : PriceLevel) (quantity_filled : Nat) : PriceLevel :=
  { L with total_volume := L.total_volume - quantity_filled }

/-- `PriceLevel::is_empty`. -/
def PriceLevel.is_empty (L : PriceLevel) : Bool :=
  L.orders.isEmpty

/-- `PriceLevel::front`. -/
def PriceLevel.front (L : PriceLevel) : Option Order :=
  L.orders.head?

/-- `PriceLevel::pop_if_filled`: pop the head order if it is fully filled. -/
def PriceLevel.pop_if_filled (L : PriceLevel) : PriceLevel × Option Order :=
  match L.orders with
  | [] => (L, none)
  | o :: rest =>
      if o.is_fully_filled then ({ L with orders := rest }, some o)
      else (L, none)

/-- `UserBalance` from src/types/user.rs: currency code → `f64` balance,
modelled as `String → ℚ` through an association list. -/
structure UserBalance where
  user_id : Nat
  balances : List (String × ℚ)
deriving DecidableEq, Repr

/-- Association-list lookup (models `HashMap::get`). -/
def assocGetS : List (String × ℚ) → String → Option ℚ
  | [], _ => none
  | (k, v) :: rest, c => if k = c then some v else assocGetS rest c

/-- Association-list insert-or-update (models `HashMap::insert` and the
`entry(..).or_insert(..)` pattern). -/
def assocSetS : List (String × ℚ) → String → ℚ → List (String × ℚ)
  | [], c, v => [(c, v)]
  | (k, w) :: rest, c, v =>
      if k = c then (k, v) :: rest else (k, w) :: assocSetS rest c v

/-- `UserBalance::new`: both currencies start at 0. -/
def UserBalance.new (user_id : Nat) : UserBalance :=
  { user_id := user_id, balances := [("USD", 0), ("BTC", 0)] }

/-- `UserBalance::add_balance`: `entry(currency).or_insert(0) += amount`. -/
def UserBalance.add_balance (b : UserBalance) (currency : String) (amount : ℚ) : UserBalance :=
  let old := (assocGetS b.balances currency).getD 0
  { b with balances := assocSetS b.balances currency (old + amount) }

/-- `UserBalance::subtract_balance`: fails if the currency is absent or the
balance is below the amount; on failure nothing is mutated. -/
def UserBalance.subtract_balance (b : UserBalance) (currency : String) (amount : ℚ) :
    UserBalance × Option String :=
  match assocGetS b.balances currency with
  | none => (b, some "Currency not found")
  | some v =>
      if v < amount then (b, some "Insufficient balance")
      else ({ b with balances := assocSetS b.balances currency (v - amount) }, none)

/-- `UserBalance::get_balance`: lookup with default 0. -/
def UserBalance.get_balance (b : UserBalance) (currency : String) : ℚ :=
  (assocGetS b.balances currency).getD 0

/-- Association-list lookup for `Nat` keys (models `HashMap::get` /
`BTreeMap::get`). -/
def assocGet {α : Type} : List (Nat × α) → Nat → Option α
  | [], _ => none
  | (k, v) :: rest, key => if k = key then some v else assocGet rest key

/-- Association-list insert-or-update for `Nat` keys (models
`HashMap::insert`; a fresh key is appended). -/
def assocSet {α : Type} : List (Nat × α) → Nat → α → List (Nat × α)
  | [], key, v => [(key, v)]
  | (k, w) :: rest, key, v =>
      if k = key then (k, v) :: rest else (k, w) :: assocSet rest key v

/-- Association-list removal for `Nat` keys (models `HashMap::remove` /
`BTreeMap::remove`). -/
def assocRemove {α : Type} : List (Nat × α) → Nat → List (Nat × α)
  | [], _ => []
  | (k, w) :: rest, key =>
      if k = key then rest else (k, w) :: assocRemove rest key

/-- `Price::to_f64`: `raw / 10^6`, modelled as the exact rational value. -/
def priceToRat (p : Nat) : ℚ :=
  (p : ℚ) / 1000000

/-- `Quantity::to_f64`: `raw / 10^8`, modelled as the exact rational value. -/
def qtyToRat (q : Nat) : ℚ :=
  (q : ℚ) / 100000000

/-- `OrderBook` from src/orderbook/orderbook.rs.
`bids` is kept in descending key order (the `Reverse<Price>` BTreeMap
iteration order), `asks` in ascending key order. -/
structure OrderBook where
  bids : List (Nat × PriceLevel)
  asks : List (Nat × PriceLevel)
  orders : List (Nat × Order)
  user_balances : List (Nat × UserBalance)
deriving DecidableEq, Repr

/-- `OrderBook::new`. -/
def OrderBook.new : OrderBook :=
  { bids := [], asks := [], orders := [], user_balances := [] }

/-- `OrderBook::best_bid`: first key of the descending bid map. -/
def OrderBook.best_bid (b : OrderBook) : Option Nat :=
  b.bids.head?.map (·.1)

/-- `OrderBook::best_ask`: first key of the ascending ask map. -/
def OrderBook.best_ask (b : OrderBook) : Option Nat :=
  b.asks.head?.map (·.1)

/-- Sorted-map `entry(price).or_insert_with(PriceLevel::new).add_order(o)`
for the ascending ask map. -/
def asksEnqueue : List (Nat × PriceLevel) → Nat → Order → List (Nat × PriceLevel)
  | [], p, o => [(p, (PriceLevel.new p).enqueue_order o)]
  | (k, L) :: rest, p, o =>
      if p < k then (p, (PriceLevel.new p).enqueue_order o) :: (k, L) :: rest
      else if p = k then (k, L.enqueue_order o) :: rest
      else (k, L) :: asksEnqueue rest p o

/-- Sorted-map `entry(Reverse(price)).or_insert_with(PriceLevel::new)
.add_order(o)` for the descending bid map. -/
def bidsEnqueue : List (Nat × PriceLevel) → Nat → Order → List (Nat × PriceLevel)
  | [], p, o => [(p, (PriceLevel.new p).enqueue_order o)]
  | (k, L) :: rest, p, o =>
      if k < p then (p, (PriceLevel.new p).enqueue_order o) :: (k, L) :: rest
      else if p = k then (k, L.enqueue_order o) :: rest
      else (k, L) :: bidsEnqueue rest p o

/-- `OrderBook::add_order`: route a limit order to its side's level (created
on demand) and index it by id.  The `expect("Limit order must have price")`
panic is unreachable at every call site (only limit orders are added); a
price-less order is modelled as a no-op. -/
def OrderBook.add_order (b : OrderBook) (o : Order) : OrderBook :=
  match o.price with
  | none => b
  | some price =>
      let b' :=
        match o.side with
        | .Buy => { b with bids := bidsEnqueue b.bids price o }
        | .Sell => { b with asks := asksEnqueue b.asks price o }
      { b' with orders := assocSet b'.orders o.id o }

/-- `OrderBook::cancel_order`: remove from the by-id index first, then from
the side's level (dropping the level if it empties).  Returns the removed
order, or an error if the id is unknown or the order has no price — in the
latter case the index entry stays removed, exactly as in the source. -/
def OrderBook.cancel_order (b : OrderBook) (order_id : Nat) :
    OrderBook × Except String Order :=
  match assocGet b.orders order_id with
  | none => (b, .error "Order not found")
  | some o =>
      let b1 := { b with orders := assocRemove b.orders order_id }
      match o.price with
      | none => (b1, .error "Order has no price")
      | some price =>
          match o.side with
          | .Buy =>
              match assocGet b1.bids price with
              | none => (b1, .ok o)
              | some L =>
                  let L' := (L.dequeue_order_by_id order_id).1
                  if L'.is_empty then
                    ({ b1 with bids := assocRemove b1.bids price }, .ok o)
                  else
                    ({ b1 with bids := assocSet b1.bids price L' }, .ok o)
          | .Sell =>
              match assocGet b1.asks price with
              | none => (b1, .ok o)
              | some L =>
                  let L' := (L.dequeue_order_by_id order_id).1
                  if L'.is_empty then
                    ({ b1 with asks := assocRemove b1.asks price }, .ok o)
                  else
                    ({ b1 with asks := assocSet b1.asks price L' }, .ok o)

/-- `OrderBook::get_user_balance`. -/
def OrderBook.get_user_balance (b : OrderBook) (user_id : Nat) : Option UserBalance :=
  assocGet b.user_balances user_id

/-- `OrderBook::add_funds`: `get_or_create_balance` then `add_balance`. -/
def OrderBook.add_funds (b : OrderBook) (user_id : Nat) (currency : String) (amount : ℚ) :
    OrderBook :=
  let ub := (assocGet b.user_balances user_id).getD (UserBalance.new user_id)
  { b with user_balances := assocSet b.user_balances user_id (ub.add_balance currency amount) }

/-- `OrderBook::has_sufficient_balance`: `false` for an unknown user. -/
def OrderBook.has_sufficient_balance (b : OrderBook) (user_id : Nat) (currency : String)
    (required_amount : ℚ) : Bool :=
  match assocGet b.user_balances user_id with
  | none => false
  | some ub => decide (required_amount ≤ ub.get_balance currency)

/-- `OrderBook::deduct_balance`: fails (leaving the book unchanged) for an
unknown user or through `subtract_balance`. -/
def OrderBook.deduct_balance (b : OrderBook) (user_id : Nat) (currency : String)
    (amount : ℚ) : OrderBook × Option String :=
  match assocGet b.user_balances user_id with
  | none => (b, some "User not found")
  | some ub =>
      match ub.subtract_balance currency amount with
      | (ub', none) =>
          ({ b with user_balances := assocSet b.user_balances user_id ub' }, none)
      | (_, some e) => (b, some e)

/-- `OrderBook::credit_balance`: `get_or_create_balance` then `add_balance`,
never fails. -/
def OrderBook.credit_balance (b : OrderBook) (user_id : Nat) (currency : String)
    (amount : ℚ) : OrderBook :=
  let ub := (assocGet b.user_balances user_id).getD (UserBalance.new user_id)
  { b with user_balances := assocSet b.user_balances user_id (ub.add_balance currency amount) }

/-- `OrderBook::get_depth`: top `n` `(price, total_volume)` pairs per side in
iteration order. -/
def OrderBook.get_depth (b : OrderBook) (levels : Nat) :
    List (Nat × Nat) × List (Nat × Nat) :=
  ((b.bids.take levels).map (fun kl => (kl.1, kl.2.total_volume)),
   (b.asks.take levels).map (fun kl => (kl.1, kl.2.total_volume)))

/-- The `f64` USD value of a trade as computed by `execute_trade_settlement`
(src/orderbook/settlement.rs lines 10-11 and src/orderbook/matching.rs lines
348-349): `trade.price.to_f64() * trade.quantity.to_f64()`, modelled as the
exact rational product. -/
def settlementUsdAmount (t : Trade) : ℚ :=
  priceToRat t.price * qtyToRat t.quantity

/-- `OrderBook::execute_trade_settlement` (src/orderbook/settlement.rs, and
the identical private copy in src/orderbook/matching.rs): the four balance
legs, applied in order, with `?`-propagation of a failed debit — legs already
applied stay applied. -/
def OrderBook.execute_trade_settlement (b : OrderBook) (trade : Trade)
    (taker_side : OrderSide) : OrderBook × Option String :=
  let btc_amount := qtyToRat trade.quantity
  let usd_amount := settlementUsdAmount trade
  match taker_side with
  | .Buy =>
      match b.deduct_balance trade.taker_user_id "USD" usd_amount with
      | (b1, some e) => (b1, some e)
      | (b1, none) =>
          let b2 := b1.credit_balance trade.taker_user_id "BTC" btc_amount
          match b2.deduct_balance trade.maker_user_id "BTC" btc_amount with
          | (b3, some e) => (b3, some e)
          | (b3, none) => (b3.credit_balance trade.maker_user_id "USD" usd_amount, none)
  | .Sell =>
      match b.deduct_balance trade.taker_user_id "BTC" btc_amount with
      | (b1, some e) => (b1, some e)
      | (b1, none) =>
          let b2 := b1.credit_balance trade.taker_user_id "USD" usd_amount
          match b2.deduct_balance trade.maker_user_id "USD" usd_amount with
          | (b3, some e) => (b3, some e)
          | (b3, none) => (b3.credit_balance trade.maker_user_id "BTC" btc_amount, none)

/-- Loop variant for the matching loops over one side: each queued order and
each level contributes to the size. -/
def sideSize (m : List (Nat × PriceLevel)) : Nat :=
  m.foldr (fun kl acc => kl.2.orders.length + 1 + acc) 0

/-- The `OrderSide::Buy` arm of `OrderBook::match_limit_order`
(src/orderbook/matching.rs lines 33-113): walk the ask side while the taker
is unfilled and the best ask is at or below the taker's limit price.  The
first component of the result is the mutated book, then the mutated taker,
then the emitted trades (`Err` drops the local trade vector, as `?` does in
the source, but the book mutations persist).  `fuel` bounds the iteration
count; every entry point supplies fuel above the loop variant. -/
def matchLimitBuyLoop :
    Nat → OrderBook → Order → Nat → List Trade →
      OrderBook × Order × Except String (List Trade)
  | 0, b, taker, _, _ => (b, taker, .error "out of fuel")
  | fuel + 1, b, taker, taker_price, trades =>
    if taker.is_fully_filled then (b, taker, .ok trades)
    else
      match b.asks with
      | [] => (b, taker, .ok trades)
      | (best_ask_price, level) :: rest =>
        if taker_price < best_ask_price then (b, taker, .ok trades)
        else
          match level.orders with
          | [] =>
              -- front_mut() = None: no trade; pop_if_filled is a no-op and the
              -- empty level is removed
              matchLimitBuyLoop fuel { b with asks := rest } taker taker_price trades
          | maker :: qtail =>
              let fill_qty := min taker.remaining_quantity maker.remaining_quantity
              let maker' := maker.fill fill_qty
              let taker' := taker.fill fill_qty
              let maker_filled := maker'.is_fully_filled
              let level' :=
                PriceLevel.update_volume { level with orders := maker' :: qtail } fill_qty
              let trade := Trade.new maker.id taker.id maker.user_id taker.user_id
                best_ask_price fill_qty
              let b1 : OrderBook := { b with asks := (best_ask_price, level') :: rest }
              match b1.execute_trade_settlement trade .Buy with
              | (b2, some e) => (b2, taker', .error e)
              | (b2, none) =>
                  let b3 :=
                    if maker_filled then { b2 with orders := assocRemove b2.orders maker.id }
                    else { b2 with orders := assocSet b2.orders maker.id maker' }
                  let level2 := level'.pop_if_filled.1
                  let b4 :=
                    if level2.is_empty then { b3 with asks := rest }
                    else { b3 with asks := (best_ask_price, level2) :: rest }
                  matchLimitBuyLoop fuel b4 taker' taker_price (trades ++ [trade])

/-- The `OrderSide::Sell` arm of `OrderBook::match_limit_order`
(src/orderbook/matching.rs lines 115-195): walk the bid side while the taker
is unfilled and the best bid is at or above the taker's limit price. -/
def matchLimitSellLoop :
    Nat → OrderBook → Order → Nat → List Trade →
      OrderBook × Order × Except String (List Trade)
  | 0, b, taker, _, _ => (b, taker, .error "out of fuel")
  | fuel + 1, b, taker, taker_price, trades =>
    if taker.is_fully_filled then (b, taker, .ok trades)
    else
      match b.bids with
      | [] => (b, taker, .ok trades)
      | (best_bid_price, level) :: rest =>
        if best_bid_price < taker_price then (b, taker, .ok trades)
        else
          match level.orders with
          | [] =>
              matchLimitSellLoop fuel { b with bids := rest } taker taker_price trades
          | maker :: qtail =>
              let fill_qty := min taker.remaining_quantity maker.remaining_quantity
              let maker' := maker.fill fill_qty
              let taker' := taker.fill fill_qty
              let maker_filled := maker'.is_fully_filled
              let level' :=
                PriceLevel.update_volume { level with orders := maker' :: qtail } fill_qty
              let trade := Trade.new maker.id taker.id maker.user_id taker.user_id
                best_bid_price fill_qty
              let b1 : OrderBook := { b with bids := (best_bid_price, level') :: rest }
              match b1.execute_trade_settlement trade .Sell with
              | (b2, some e) => (b2, taker', .error e)
              | (b2, none) =>
                  let b3 :=
                    if maker_filled then { b2 with orders := assocRemove b2.orders maker.id }
                    else { b2 with orders := assocSet b2.orders maker.id maker' }
                  let level2 := level'.pop_if_filled.1
                  let b4 :=
                    if level2.is_empty then { b3 with bids := rest }
                    else { b3 with bids := (best_bid_price, level2) :: rest }
                  matchLimitSellLoop fuel b4 taker' taker_price (trades ++ [trade])

/-- `OrderBook::match_market_buy` loop body
(src/orderbook/market_matching.rs lines 25-90): like the limit buy loop but
with no price guard; an empty ask side with remaining quantity is the
`InsufficientLiquidity` error. -/
def matchMarketBuyLoop :
    Nat → OrderBook → Order → List Trade →
      OrderBook × Order × Except String (List Trade)
  | 0, b, taker, _ => (b, taker, .error "out of fuel")
  | fuel + 1, b, taker, trades =>
    if taker.is_fully_filled then (b, taker, .ok trades)
    else
      match b.asks with
      | [] => (b, taker, .error "Insufficient liquidity for market order")
      | (best_ask_price, level) :: rest =>
          match level.orders with
          | [] =>
              matchMarketBuyLoop fuel { b with asks := rest } taker trades
          | maker :: qtail =>
              let fill_qty := min taker.remaining_quantity maker.remaining_quantity
              let maker' := maker.fill fill_qty
              let taker' := taker.fill fill_qty
              let maker_filled := maker'.is_fully_filled
              let level' :=
                PriceLevel.update_volume { level with orders := maker' :: qtail } fill_qty
              let trade := Trade.new maker.id taker.id maker.user_id taker.user_id
                best_ask_price fill_qty
              let b1 : OrderBook := { b with asks := (best_ask_price, level') :: rest }
              match b1.execute_trade_settlement trade .Buy with
              | (b2, some e) => (b2, taker', .error e)
              | (b2, none) =>
                  let b3 :=
                    if maker_filled then { b2 with orders := assocRemove b2.orders maker.id }
                    else { b2 with orders := assocSet b2.orders maker.id maker' }
                  let level2 := level'.pop_if_filled.1
                  let b4 :=
                    if level2.is_empty then { b3 with asks := rest }
                    else { b3 with asks := (best_ask_price, level2) :: rest }
                  matchMarketBuyLoop fuel b4 taker' (trades ++ [trade])

/-- `OrderBook::match_market_sell` loop body
(src/orderbook/market_matching.rs lines 92-157). -/
def matchMarketSellLoop :
    Nat → OrderBook → Order → List Trade →
      OrderBook × Order × Except String (List Trade)
  | 0, b, taker, _ => (b, taker, .error "out of fuel")
  | fuel + 1, b, taker, trades =>
    if taker.is_fully_filled then (b, taker, .ok trades)
    else
      match b.bids with
      | [] => (b, taker, .error "Insufficient liquidity for market order")
      | (best_bid_price, level) :: rest =>
          match level.orders with
          | [] =>
              matchMarketSellLoop fuel { b with bids := rest } taker trades
          | maker :: qtail =>
              let fill_qty := min taker.remaining_quantity maker.remaining_quantity
              let maker' := maker.fill fill_qty
              let taker' := taker.fill fill_qty
              let maker_filled := maker'.is_fully_filled
              let level' :=
                PriceLevel.update_volume { level with orders := maker' :: qtail } fill_qty
              let trade := Trade.new maker.id taker.id maker.user_id taker.user_id
                best_bid_price fill_qty
              let b1 : OrderBook := { b with bids := (best_bid_price, level') :: rest }
              match b1.execute_trade_settlement trade .Sell with
              | (b2, some e) => (b2, taker', .error e)
              | (b2, none) =>
                  let b3 :=
                    if maker_filled then { b2 with orders := assocRemove b2.orders maker.id }
                    else { b2 with orders := assocSet b2.orders maker.id maker' }
                  let level2 := level'.pop_if_filled.1
                  let b4 :=
                    if level2.is_empty then { b3 with bids := rest }
                    else { b3 with bids := (best_bid_price, level2) :: rest }
                  matchMarketSellLoop fuel b4 taker' (trades ++ [trade])

/-- `OrderBook::match_limit_order`: branch on the taker side.  The returned
`Order` is the final state of the `&mut` taker. -/
def OrderBook.match_limit_order (b : OrderBook) (taker : Order) :
    OrderBook × Order × Except String (List Trade) :=
  match taker.price with
  | none => (b, taker, .error "Limit order must have price")
  | some taker_price =>
      match taker.side with
      | .Buy =>
          matchLimitBuyLoop (taker.remaining_quantity + sideSize b.asks + 1)
            b taker taker_price []
      | .Sell =>
          matchLimitSellLoop (taker.remaining_quantity + sideSize b.bids + 1)
            b taker taker_price []

/-- `OrderBook::match_market_buy` entry. -/
def OrderBook.match_market_buy (b : OrderBook) (taker : Order) :
    OrderBook × Order × Except String (List Trade) :=
  matchMarketBuyLoop (taker.remaining_quantity + sideSize b.asks + 1) b taker []

/-- `OrderBook::match_market_sell` entry. -/
def OrderBook.match_market_sell (b : OrderBook) (taker : Order) :
    OrderBook × Order × Except String (List Trade) :=
  matchMarketSellLoop (taker.remaining_quantity + sideSize b.bids + 1) b taker []

/-- `OrderBook::match_market_order` (src/orderbook/market_matching.rs lines
6-22): dispatch on the taker side. -/
def OrderBook.match_market_order (b : OrderBook) (taker : Order) :
    OrderBook × Order × Except String (List Trade) :=
  match taker.side with
  | .Buy => b.match_market_buy taker
  | .Sell => b.match_market_sell taker

/-- `OrderBook::match_order` (src/orderbook/matching.rs lines 8-26): match a
limit order and rest the remainder, or match a market order.  On `Err` the
taker is never added to the book but the book keeps the loop's mutations. -/
def OrderBook.match_order (b : OrderBook) (o : Order) :
    OrderBook × Except String (List Trade) :=
  match o.order_type with
  | .Limit =>
      match b.match_limit_order o with
      | (b', o', .ok trades) =>
          if o'.is_fully_filled then (b', .ok trades)
          else (b'.add_order o', .ok trades)
      | (b', _, .error e) => (b', .error e)
  | .Market =>
      match b.match_market_order o with
      | (b', _, r) => (b', r)

/-- `OrderBookCommand` from src/messages/commands.rs (reply channels are
implicit: the engine step returns the response). -/
inductive OrderBookCommand
  | PlaceLimitOrder (user_id : Nat) (side : OrderSide) (price quantity : Nat)
  | PlaceMarketOrder (user_id : Nat) (side : OrderSide) (quantity : Nat)
  | CancelOrder (user_id : Nat) (order_id : Nat)
  | GetOrderBook (depth : Nat)
  | GetUserBalance (user_id : Nat)
  | AddFunds (user_id : Nat) (currency : String) (amount : ℚ)
deriving DecidableEq, Repr

/-- `OrderBookResponse` from src/messages/commands.rs. -/
inductive OrderBookResponse
  | OrderPlaced (order_id : Nat) (trades : List Trade) (status : String)
  | OrderCancelled (order_id : Nat) (success : Bool)
  | OrderBookDepth (bids asks : List (Nat × Nat))
  | UserBalance (balance : UserBalance)
  | FundsAdded (user_id : Nat) (currency : String) (new_balance : ℚ)
  | Error (message : String)
deriving DecidableEq, Repr

/-- The engine's state: the book plus the fresh-id counter that models
`Uuid::new_v4()`. -/
structure EngineState where
  book : OrderBook
  next_id : Nat
deriving DecidableEq, Repr

/-- The initial state of `run_orderbook_engine` (`OrderBook::new()`). -/
def initialEngineState : EngineState :=
  { book := OrderBook.new, next_id := 0 }

/-- The shared tail of the `PlaceLimitOrder` arm of `run_orderbook_engine`
(src/engine/engine.rs lines 63-82): run the matcher and build the reply. -/
def placeAfterReserve (s : EngineState) (order : Order) :
    EngineState × OrderBookResponse :=
  match s.book.match_order order with
  | (b, .ok trades) =>
      let status := if trades.isEmpty then "Added to book" else "Matched"
      ({ s with book := b }, .OrderPlaced order.id trades status)
  | (b, .error e) =>
      ({ s with book := b }, .Error ("Failed to place order: " ++ e))

/-- One iteration of `run_orderbook_engine` (src/engine/engine.rs): handle a
single command against the current state and produce the reply that is sent
on the command's response channel. -/
def engineStep (s : EngineState) : OrderBookCommand → EngineState × OrderBookResponse
  | .PlaceLimitOrder user_id side price quantity =>
      let order := Order.new_limit s.next_id user_id side price quantity
      let s := { s with next_id := s.next_id + 1 }
      match side with
      | .Buy =>
          -- reserve USD: price.to_f64() * quantity.to_f64()
          let usd_needed := priceToRat price * qtyToRat quantity
          if ¬ s.book.has_sufficient_balance user_id "USD" usd_needed then
            (s, .Error "Insufficient USD balance")
          else
            match s.book.deduct_balance user_id "USD" usd_needed with
            | (b, some e) =>
                ({ s with book := b }, .Error ("Failed to reserve USD: " ++ e))
            | (b, none) => placeAfterReserve { s with book := b } order
      | .Sell =>
          -- reserve BTC: quantity.to_f64()
          let btc_needed := qtyToRat quantity
          if ¬ s.book.has_sufficient_balance user_id "BTC" btc_needed then
            (s, .Error "Insufficient BTC balance")
          else
            match s.book.deduct_balance user_id "BTC" btc_needed with
            | (b, some e) =>
                ({ s with book := b }, .Error ("Failed to reserve BTC: " ++ e))
            | (b, none) => placeAfterReserve { s with book := b } order
  | .PlaceMarketOrder user_id side quantity =>
      let order := Order.new_market s.next_id user_id side quantity
      let s := { s with next_id := s.next_id + 1 }
      match s.book.match_order order with
      | (b, .ok trades) =>
          let status := if trades.isEmpty then "No liquidity" else "Filled"
          ({ s with book := b }, .OrderPlaced order.id trades status)
      | (b, .error e) =>
          ({ s with book := b }, .Error ("Failed to place market order: " ++ e))
  | .CancelOrder user_id order_id =>
      match s.book.cancel_order order_id with
      | (b, .ok cancelled_order) =>
          let s := { s with book := b }
          if cancelled_order.user_id ≠ user_id then
            -- ownership is checked only after the removal; nothing is restored
            (s, .Error "Not authorized to cancel this order")
          else
            let s :=
              match cancelled_order.side with
              | .Buy =>
                  match cancelled_order.price with
                  | some price =>
                      let usd_refund :=
                        priceToRat price * qtyToRat cancelled_order.remaining_quantity
                      { s with book := s.book.credit_balance user_id "USD" usd_refund }
                  | none => s
              | .Sell =>
                  let btc_refund := qtyToRat cancelled_order.remaining_quantity
                  { s with book := s.book.credit_balance user_id "BTC" btc_refund }
            (s, .OrderCancelled order_id true)
      | (b, .error e) =>
          ({ s with book := b }, .Error ("Failed to cancel order: " ++ e))
  | .GetOrderBook depth =>
      let d := s.book.get_depth depth
      (s, .OrderBookDepth d.1 d.2)
  | .GetUserBalance user_id =>
      match s.book.get_user_balance user_id with
      | some balance => (s, .UserBalance balance)
      | none => (s, .Error "User not found")
  | .AddFunds user_id currency amount =>
      let b := s.book.add_funds user_id currency amount
      let new_balance :=
        ((assocGet b.user_balances user_id).getD (UserBalance.new user_id)).get_balance
          currency
      ({ s with book := b }, .FundsAdded user_id currency new_balance)

/-- Run the engine over a command list from the initial state, collecting the
replies in order. -/
def engineRun (cmds : List OrderBookCommand) : EngineState × List OrderBookResponse :=
  cmds.foldl
    (fun acc c =>
      let r := engineStep acc.1 c
      (r.1, acc.2 ++ [r.2]))
    (initialEngineState, [])

/-! ### Definitions used to state the verified properties -/

/-- The balance the book records for a user and currency (0 for an unknown
user, matching `get_balance`'s `unwrap_or(0.0)`). -/
def bookBalanceOf (b : OrderBook) (u : Nat) (c : String) : ℚ :=
  match assocGet b.user_balances u with
  | some ub => ub.get_balance c
  | none => 0

/-- A finite IEEE binary64 value is a dyadic rational: an integer times a
(possibly negative) power of two. -/
def DyadicRat (x : ℚ) : Prop :=
  ∃ (m : ℤ) (e : ℕ), x = (m : ℚ) / 2 ^ e

/-- The validation performed by the HTTP `onramp` handler
(src/handlers/user.rs lines 65-73) before an `AddFunds` command is sent:
the currency must be "USD" or "BTC" and the amount strictly positive. -/
def onrampAccepted (currency : String) (amount : ℚ) : Bool :=
  if currency ≠ "USD" ∧ currency ≠ "BTC" then false
  else if amount ≤ 0 then false
  else true

/-! ### Balance-tracking lemmas -/

theorem assocGetS_setS_self (l : List (String × ℚ)) (c : String) (v : ℚ) :
    assocGetS (assocSetS l c v) c = some v := by
  induction l with
  | nil => simp [assocGetS, assocSetS]
  | cons kv rest ih =>
      by_cases h : kv.1 = c <;> simp [assocGetS, assocSetS, h, ih]

theorem assocGetS_setS_other (l : List (String × ℚ)) (c c' : String) (v : ℚ)
    (h : c' ≠ c) : assocGetS (assocSetS l c v) c' = assocGetS l c' := by
  have hcc : ¬ (c = c') := fun hc => h hc.symm
  induction l with
  | nil => simp [assocGetS, assocSetS, hcc]
  | cons kv rest ih =>
      by_cases hk : kv.1 = c
      · simp [assocGetS, assocSetS, hk, hcc]
      · simp [assocGetS, assocSetS, hk, ih]

theorem assocGet_set_self {α : Type} (l : List (Nat × α)) (k : Nat) (v : α) :
    assocGet (assocSet l k v) k = some v := by
  induction l with
  | nil => simp [assocGet, assocSet]
  | cons kv rest ih =>
      by_cases h : kv.1 = k <;> simp [assocGet, assocSet, h, ih]

theorem assocGet_set_other {α : Type} (l : List (Nat × α)) (k k' : Nat) (v : α)
    (h : k' ≠ k) : assocGet (assocSet l k v) k' = assocGet l k' := by
  have hkk : ¬ (k = k') := fun hc => h hc.symm
  induction l with
  | nil => simp [assocGet, assocSet, hkk]
  | cons kv rest ih =>
      by_cases hk : kv.1 = k
      · simp [assocGet, assocSet, hk, hkk]
      · simp [assocGet, assocSet, hk, ih]

theorem UserBalance.get_balance_add_self (ub : UserBalance) (c : String) (a : ℚ) :
    (ub.add_balance c a).get_balance c = ub.get_balance c + a := by
  simp [UserBalance.add_balance, UserBalance.get_balance, assocGetS_setS_self]

theorem UserBalance.get_balance_add_other (ub : UserBalance) (c c' : String) (a : ℚ)
    (h : c' ≠ c) : (ub.add_balance c a).get_balance c' = ub.get_balance c' := by
  simp [UserBalance.add_balance, UserBalance.get_balance, assocGetS_setS_other _ _ _ _ h]

theorem UserBalance.get_balance_new (u : Nat) (c : String) :
    (UserBalance.new u).get_balance c = 0 := by
  by_cases h1 : ("USD" : String) = c <;> by_cases h2 : ("BTC" : String) = c <;>
    simp [UserBalance.new, UserBalance.get_balance, assocGetS, h1, h2]

theorem bookBalanceOf_credit_self (b : OrderBook) (u : Nat) (c : String) (a : ℚ) :
    bookBalanceOf (b.credit_balance u c a) u c = bookBalanceOf b u c + a := by
  unfold OrderBook.credit_balance bookBalanceOf
  rw [assocGet_set_self]
  cases h : assocGet b.user_balances u with
  | none =>
      simp [UserBalance.get_balance_add_self, UserBalance.get_balance_new]
  | some ub => simp [UserBalance.get_balance_add_self]

theorem bookBalanceOf_credit_other_user (b : OrderBook) (u u' : Nat) (c c' : String)
    (a : ℚ) (h : u' ≠ u) :
    bookBalanceOf (b.credit_balance u c a) u' c' = bookBalanceOf b u' c' := by
  unfold OrderBook.credit_balance bookBalanceOf
  rw [assocGet_set_other _ _ _ _ h]

theorem bookBalanceOf_credit_other_ccy (b : OrderBook) (u : Nat) (c c' : String)
    (a : ℚ) (h : c' ≠ c) :
    bookBalanceOf (b.credit_balance u c a) u c' = bookBalanceOf b u c' := by
  unfold OrderBook.credit_balance bookBalanceOf
  rw [assocGet_set_self]
  cases hh : assocGet b.user_balances u with
  | none =>
      simp [UserBalance.get_balance_add_other _ _ _ _ h, UserBalance.get_balance_new]
  | some ub => simp [UserBalance.get_balance_add_other _ _ _ _ h]

theorem deduct_balance_some_book (b : OrderBook) (u : Nat) (c : String) (a : ℚ)
    (e : String) (h : (b.deduct_balance u c a).2 = some e) :
    (b.deduct_balance u c a).1 = b := by
  unfold OrderBook.deduct_balance at *
  cases hu : assocGet b.user_balances u with
  | none => simp [hu]
  | some ub =>
      unfold UserBalance.subtract_balance at *
      cases hc : assocGetS ub.balances c with
      | none => simp [hu, hc]
      | some v =>
          by_cases hv : v < a
          · simp [hu, hc, hv]
          · simp [hu, hc, hv] at h

theorem deduct_balance_none_self (b : OrderBook) (u : Nat) (c : String) (a : ℚ)
    (h : (b.deduct_balance u c a).2 = none) :
    bookBalanceOf (b.deduct_balance u c a).1 u c = bookBalanceOf b u c - a := by
  unfold OrderBook.deduct_balance at *
  cases hu : assocGet b.user_balances u with
  | none => simp [hu] at h
  | some ub =>
      unfold UserBalance.subtract_balance at *
      cases hc : assocGetS ub.balances c with
      | none => simp [hu, hc] at h
      | some v =>
          by_cases hv : v < a
          · simp [hu, hc, hv] at h
          · simp [hu, hc, hv, bookBalanceOf, assocGet_set_self,
              UserBalance.get_balance, assocGetS_setS_self]

theorem deduct_balance_none_other_user (b : OrderBook) (u u' : Nat) (c c' : String)
    (a : ℚ) (hne : u' ≠ u) (h : (b.deduct_balance u c a).2 = none) :
    bookBalanceOf (b.deduct_balance u c a).1 u' c' = bookBalanceOf b u' c' := by
  unfold OrderBook.deduct_balance at *
  cases hu : assocGet b.user_balances u with
  | none => simp [hu] at h
  | some ub =>
      cases hs : ub.subtract_balance c a with
      | mk ub' oe =>
          cases oe with
          | none => simp [hu, hs, bookBalanceOf, assocGet_set_other _ _ _ _ hne]
          | some e => simp [hu, hs] at h

theorem deduct_balance_none_other_ccy (b : OrderBook) (u : Nat) (c c' : String)
    (a : ℚ) (hne : c' ≠ c) (h : (b.deduct_balance u c a).2 = none) :
    bookBalanceOf (b.deduct_balance u c a).1 u c' = bookBalanceOf b u c' := by
  unfold OrderBook.deduct_balance at *
  cases hu : assocGet b.user_balances u with
  | none => simp [hu] at h
  | some ub =>
      unfold UserBalance.subtract_balance at *
      cases hc : assocGetS ub.balances c with
      | none => simp [hu, hc] at h
      | some v =>
          by_cases hv : v < a
          · simp [hu, hc, hv] at h
          · simp [hu, hc, hv, bookBalanceOf, assocGet_set_self,
              UserBalance.get_balance, assocGetS_setS_other _ _ _ _ hne]

/-! ### C9 -/

/-- C9: the claim says the settled USD amount equals
`price_raw × qty_raw / quantity_scale` computed with exact fixed-point
integer arithmetic, not by floating-point multiplication.  The code computes
`trade.price.to_f64() * trade.quantity.to_f64()` in IEEE binary64.  At
price_raw = 123456789 and qty_raw = 12345678901 the exact value
`123456789 × 12345678901 / 10^14` is not a dyadic rational, hence equal to
no finite binary64 value whatsoever, so the f64 the code debits cannot equal
the exact fixed-point value the claim requires. -/
theorem c9_settlement_usd_not_fixed_point :
    settlementUsdAmount (Trade.new 0 1 2 1 123456789 12345678901) =
      (123456789 * 12345678901 : ℚ) / 10 ^ 14 ∧
    ¬ DyadicRat (settlementUsdAmount (Trade.new 0 1 2 1 123456789 12345678901)) := by
  have hval : settlementUsdAmount (Trade.new 0 1 2 1 123456789 12345678901) =
      (1524157875142508889 : ℚ) / 10 ^ 14 := by
    norm_num [settlementUsdAmount, priceToRat, qtyToRat, Trade.new]
  constructor
  · rw [hval]; norm_num
  · rw [hval]
    rintro ⟨m, e, h⟩
    have h2 : (1524157875142508889 : ℚ) * 2 ^ e = (m : ℚ) * 10 ^ 14 := by
      field_simp at h
      linarith [h]
    have h3 : (1524157875142508889 : ℤ) * 2 ^ e = m * 10 ^ 14 := by exact_mod_cast h2
    have h5 : (5 : ℤ) ∣ (1524157875142508889 : ℤ) * 2 ^ e := by
      rw [h3]; exact ⟨m * (2 * 10 ^ 13), by ring⟩
    have hp : Prime (5 : ℤ) := by norm_num
    rcases hp.dvd_mul.mp h5 with h6 | h6
    · norm_num at h6
    · have h7 := hp.dvd_of_dvd_pow h6
      norm_num at h7

/-! ### C10 -/

/-- C10 counterexample: an `AddFunds` command with the invalid currency
"EUR" and the non-positive amount -5 is *not* rejected by the engine: the
reply is `FundsAdded` and the user's "EUR" balance changes from 0 to -5,
refuting the claim that such a command yields an error response and leaves
every balance unchanged.  (`onrampAccepted` records that the HTTP handler
would have rejected this request.) -/
theorem c10_addfunds_invalid_not_rejected :
    (engineStep initialEngineState (.AddFunds 7 "EUR" (-5))).2 =
      .FundsAdded 7 "EUR" (-5) ∧
    bookBalanceOf (engineStep initialEngineState (.AddFunds 7 "EUR" (-5))).1.book 7 "EUR"
      = -5 ∧
    bookBalanceOf initialEngineState.book 7 "EUR" = 0 ∧
    onrampAccepted "EUR" (-5) = false := by
  refine ⟨?_, ?_, ?_, ?_⟩ <;> with_unfolding_all rfl

/-- C10 amended: the engine itself never validates `AddFunds` — every
`AddFunds` command, whatever the currency string or amount, produces a
`FundsAdded` response and adds the amount to that user's balance for that
currency; the rejection of an invalid currency or a non-positive amount
happens only in the HTTP `onramp` handler, before any command is sent. -/
theorem c10_addfunds_amended : ∀ (s : EngineState) (u : Nat) (c : String) (a : ℚ),
    (engineStep s (.AddFunds u c a)).2 =
      .FundsAdded u c (bookBalanceOf s.book u c + a) ∧
    bookBalanceOf (engineStep s (.AddFunds u c a)).1.book u c =
      bookBalanceOf s.book u c + a ∧
    (onrampAccepted c a = true ↔ ((c = "USD" ∨ c = "BTC") ∧ 0 < a)) := by
  intro s u c a
  refine ⟨?_, ?_, ?_⟩
  · unfold engineStep OrderBook.add_funds bookBalanceOf
    cases h : assocGet s.book.user_balances u with
    | none =>
        simp [h, assocGet_set_self, UserBalance.get_balance_add_self,
          UserBalance.get_balance_new]
    | some ub => simp [h, assocGet_set_self, UserBalance.get_balance_add_self]
  · unfold engineStep OrderBook.add_funds bookBalanceOf
    cases h : assocGet s.book.user_balances u with
    | none =>
        simp [h, assocGet_set_self, UserBalance.get_balance_add_self,
          UserBalance.get_balance_new]
    | some ub => simp [h, assocGet_set_self, UserBalance.get_balance_add_self]
  · unfold onrampAccepted
    by_cases hu : c = "USD" <;> by_cases hb : c = "BTC" <;> by_cases ha : a ≤ 0 <;>
      simp [hu, hb, ha, not_lt.mpr, lt_of_not_le]

/-! ### C1 -/

/-- The §8 scenario-1 command sequence: U1 deposits 100000 USD, U2 deposits
10 BTC, U2 sells 1 BTC limit at 50000, U1 buys 1 BTC limit at 50000, then
depth(1) is queried.  Prices and quantities are the raw fixed-point values
(50000 × 10^6 and 1 × 10^8). -/
def c1cmds : List OrderBookCommand :=
  [ .AddFunds 1 "USD" 100000,
    .AddFunds 2 "BTC" 10,
    .PlaceLimitOrder 2 .Sell 50000000000 100000000,
    .PlaceLimitOrder 1 .Buy 50000000000 100000000,
    .GetOrderBook 1 ]

/-- C1: what the code actually produces on the claim's scenario.  The
response and depth parts of the claim hold (OrderPlaced "Matched" with one
trade at 50000 for qty 1; empty depth) but the final balances do not: the
code leaves U1 with 0 USD (claim: 50000) and U2 with 8 BTC (claim: 9),
because the limit-order reservation debit is charged again by settlement
(the double-charge bug of spec §9). -/
theorem c1_scenario_actual :
    (engineRun c1cmds).2 =
      [ .FundsAdded 1 "USD" 100000,
        .FundsAdded 2 "BTC" 10,
        .OrderPlaced 0 [] "Added to book",
        .OrderPlaced 1 [Trade.new 0 1 2 1 50000000000 100000000] "Matched",
        .OrderBookDepth [] [] ] ∧
    bookBalanceOf (engineRun c1cmds).1.book 1 "BTC" = 1 ∧
    bookBalanceOf (engineRun c1cmds).1.book 1 "USD" = 0 ∧
    bookBalanceOf (engineRun c1cmds).1.book 2 "BTC" = 8 ∧
    bookBalanceOf (engineRun c1cmds).1.book 2 "USD" = 50000 := by
  refine ⟨?_, ?_, ?_, ?_, ?_⟩ <;> with_unfolding_all rfl

/-! ### C4 -/

/-- U2 funds and places a resting sell (order id 0), then user 1 — not the
owner — cancels order 0. -/
def c4cmds : List OrderBookCommand :=
  [ .AddFunds 2 "BTC" 10,
    .PlaceLimitOrder 2 .Sell 50000000000 100000000,
    .CancelOrder 1 0 ]

/-- C4: what the code actually does when a non-owner cancels.  The engine
replies with the not-authorized error, but the order is *not* restored: it
is gone from the by-id index and its price level (the ask side is empty
afterwards), and no refund is made — refuting the claim that the book state
is unchanged (the lost-order bug of spec §9). -/
theorem c4_cancel_not_owner_actual :
    (engineRun c4cmds).2.getLast? = some (.Error "Not authorized to cancel this order") ∧
    assocGet (engineRun c4cmds).1.book.orders 0 = none ∧
    (engineRun c4cmds).1.book.asks = [] ∧
    bookBalanceOf (engineRun c4cmds).1.book 2 "BTC" = 9 := by
  refine ⟨?_, ?_, ?_, ?_⟩ <;> with_unfolding_all rfl

/-! ### C3 -/

/-- All four settlement legs, as the claim states them (taker-side Buy:
debit taker USD, credit taker BTC, debit maker BTC, credit maker USD;
taker-side Sell mirrored). -/
def FourLegs (b b' : OrderBook) (t : Trade) (side : OrderSide) : Prop :=
  match side with
  | .Buy =>
      bookBalanceOf b' t.taker_user_id "USD"
          = bookBalanceOf b t.taker_user_id "USD" - settlementUsdAmount t ∧
      bookBalanceOf b' t.taker_user_id "BTC"
          = bookBalanceOf b t.taker_user_id "BTC" + qtyToRat t.quantity ∧
      bookBalanceOf b' t.maker_user_id "BTC"
          = bookBalanceOf b t.maker_user_id "BTC" - qtyToRat t.quantity ∧
      bookBalanceOf b' t.maker_user_id "USD"
          = bookBalanceOf b t.maker_user_id "USD" + settlementUsdAmount t
  | .Sell =>
      bookBalanceOf b' t.taker_user_id "BTC"
          = bookBalanceOf b t.taker_user_id "BTC" - qtyToRat t.quantity ∧
      bookBalanceOf b' t.taker_user_id "USD"
          = bookBalanceOf b t.taker_user_id "USD" + settlementUsdAmount t ∧
      bookBalanceOf b' t.maker_user_id "USD"
          = bookBalanceOf b t.maker_user_id "USD" - settlementUsdAmount t ∧
      bookBalanceOf b' t.maker_user_id "BTC"
          = bookBalanceOf b t.maker_user_id "BTC" + qtyToRat t.quantity

/-- Only the taker's two legs applied, the maker's balances untouched: the
state `execute_trade_settlement` leaves behind when the maker-side debit
(the third leg) fails. -/
def TakerLegsOnly (b b' : OrderBook) (t : Trade) (side : OrderSide) : Prop :=
  match side with
  | .Buy =>
      bookBalanceOf b' t.taker_user_id "USD"
          = bookBalanceOf b t.taker_user_id "USD" - settlementUsdAmount t ∧
      bookBalanceOf b' t.taker_user_id "BTC"
          = bookBalanceOf b t.taker_user_id "BTC" + qtyToRat t.quantity ∧
      bookBalanceOf b' t.maker_user_id "USD" = bookBalanceOf b t.maker_user_id "USD" ∧
      bookBalanceOf b' t.maker_user_id "BTC" = bookBalanceOf b t.maker_user_id "BTC"
  | .Sell =>
      bookBalanceOf b' t.taker_user_id "BTC"
          = bookBalanceOf b t.taker_user_id "BTC" - qtyToRat t.quantity ∧
      bookBalanceOf b' t.taker_user_id "USD"
          = bookBalanceOf b t.taker_user_id "USD" + settlementUsdAmount t ∧
      bookBalanceOf b' t.maker_user_id "USD" = bookBalanceOf b t.maker_user_id "USD" ∧
      bookBalanceOf b' t.maker_user_id "BTC" = bookBalanceOf b t.maker_user_id "BTC"

/-- A book in which the maker (user 2) holds no BTC, so the third settlement
leg fails after the taker's two legs have been applied. -/
def c3cbook : OrderBook :=
  { bids := [], asks := [], orders := [],
    user_balances :=
      [ (1, { user_id := 1, balances := [("USD", 100000), ("BTC", 0)] }),
        (2, { user_id := 2, balances := [("USD", 0), ("BTC", 0)] }) ] }

/-- A book in which all four settlement legs succeed. -/
def c3wbook : OrderBook :=
  { bids := [], asks := [], orders := [],
    user_balances :=
      [ (1, { user_id := 1, balances := [("USD", 100000), ("BTC", 0)] }),
        (2, { user_id := 2, balances := [("USD", 0), ("BTC", 1)] }) ] }

/-- A trade of 1 BTC at 50000 USD, maker user 2, taker user 1. -/
def c3trade : Trade := Trade.new 10 11 2 1 50000000000 100000000

/-- C3 counterexample: settlement is not atomic.  On `c3cbook` the
maker-side BTC debit (the third leg) fails, `execute_trade_settlement`
returns an error, yet the taker's USD balance has changed from 100000 to
50000 — refuting the claim that on error every balance is exactly as it was
before the call. -/
theorem c3_settlement_not_atomic :
    (c3cbook.execute_trade_settlement c3trade .Buy).2 = some "Insufficient balance" ∧
    bookBalanceOf (c3cbook.execute_trade_settlement c3trade .Buy).1 1 "USD" = 50000 ∧
    bookBalanceOf c3cbook 1 "USD" = 100000 := by
  refine ⟨?_, ?_, ?_⟩ <;> with_unfolding_all rfl

/-- C3 amended: for distinct taker and maker users, `execute_trade_settlement`
either succeeds with all four legs applied, or fails; on failure either no
leg was applied (the taker-side debit, the first leg, failed — the book is
returned unchanged) or exactly the taker's two legs were applied and the
maker's balances are untouched (the maker-side debit, the third leg,
failed). -/
theorem c3_settlement_amended : ∀ (b : OrderBook) (t : Trade) (side : OrderSide),
    t.taker_user_id ≠ t.maker_user_id →
    ((b.execute_trade_settlement t side).2 = none →
      FourLegs b ((b.execute_trade_settlement t side).1) t side) ∧
    (∀ e, (b.execute_trade_settlement t side).2 = some e →
      (b.execute_trade_settlement t side).1 = b ∨
      TakerLegsOnly b ((b.execute_trade_settlement t side).1) t side) := by
  intro b t side hne
  have hmt : t.maker_user_id ≠ t.taker_user_id := fun h => hne h.symm
  have hub : ("USD" : String) ≠ "BTC" := by decide
  have hbu : ("BTC" : String) ≠ "USD" := by decide
  cases side with
  | Buy =>
      simp only [OrderBook.execute_trade_settlement]
      rcases h1 : b.deduct_balance t.taker_user_id "USD" (settlementUsdAmount t) with ⟨b1, e1⟩
      cases e1 with
      | some e =>
          have hb1 : b1 = b := by
            have := deduct_balance_some_book b t.taker_user_id "USD" (settlementUsdAmount t) e
              (by rw [h1])
            rw [h1] at this; exact this
          simp [h1, hb1]
      | none =>
          have h1n : (b.deduct_balance t.taker_user_id "USD" (settlementUsdAmount t)).2 = none := by
            rw [h1]
          rcases h2 : (b1.credit_balance t.taker_user_id "BTC" (qtyToRat t.quantity)).deduct_balance
              t.maker_user_id "BTC" (qtyToRat t.quantity) with ⟨b3, e2⟩
          cases e2 with
          | some e =>
              have hb3 : b3 = b1.credit_balance t.taker_user_id "BTC" (qtyToRat t.quantity) := by
                have := deduct_balance_some_book
                  (b1.credit_balance t.taker_user_id "BTC" (qtyToRat t.quantity))
                  t.maker_user_id "BTC" (qtyToRat t.quantity) e (by rw [h2])
                rw [h2] at this; exact this
              simp only [h1, h2]
              constructor
              · intro hcontra; simp at hcontra
              · intro e' he'
                right
                subst hb3
                refine ⟨?_, ?_, ?_, ?_⟩
                · rw [bookBalanceOf_credit_other_ccy _ _ _ _ _ hub]
                  have := deduct_balance_none_self b t.taker_user_id "USD"
                    (settlementUsdAmount t) h1n
                  rw [h1] at this; exact this
                · rw [bookBalanceOf_credit_self]
                  have := deduct_balance_none_other_ccy b t.taker_user_id "USD" "BTC"
                    (settlementUsdAmount t) hbu h1n
                  rw [h1] at this; rw [this]
                · rw [bookBalanceOf_credit_other_user _ _ _ _ _ _ hmt]
                  have := deduct_balance_none_other_user b t.taker_user_id t.maker_user_id
                    "USD" "USD" (settlementUsdAmount t) hmt h1n
                  rw [h1] at this; exact this
                · rw [bookBalanceOf_credit_other_user _ _ _ _ _ _ hmt]
                  have := deduct_balance_none_other_user b t.taker_user_id t.maker_user_id
                    "USD" "BTC" (settlementUsdAmount t) hmt h1n
                  rw [h1] at this; exact this
          | none =>
              have h2n : ((b1.credit_balance t.taker_user_id "BTC"
                  (qtyToRat t.quantity)).deduct_balance t.maker_user_id "BTC"
                  (qtyToRat t.quantity)).2 = none := by rw [h2]
              simp only [h1, h2]
              constructor
              · intro _
                refine ⟨?_, ?_, ?_, ?_⟩
                · rw [bookBalanceOf_credit_other_user _ _ _ _ _ _ hne]
                  have h3 := deduct_balance_none_other_user
                    (b1.credit_balance t.taker_user_id "BTC" (qtyToRat t.quantity))
                    t.maker_user_id t.taker_user_id "BTC" "USD" (qtyToRat t.quantity) hne h2n
                  rw [h2] at h3; rw [h3]
                  rw [bookBalanceOf_credit_other_ccy _ _ _ _ _ hub]
                  have := deduct_balance_none_self b t.taker_user_id "USD"
                    (settlementUsdAmount t) h1n
                  rw [h1] at this; exact this
                · rw [bookBalanceOf_credit_other_user _ _ _ _ _ _ hne]
                  have h3 := deduct_balance_none_other_user
                    (b1.credit_balance t.taker_user_id "BTC" (qtyToRat t.quantity))
                    t.maker_user_id t.taker_user_id "BTC" "BTC" (qtyToRat t.quantity) hne h2n
                  rw [h2] at h3; rw [h3]
                  rw [bookBalanceOf_credit_self]
                  have := deduct_balance_none_other_ccy b t.taker_user_id "USD" "BTC"
                    (settlementUsdAmount t) hbu h1n
                  rw [h1] at this; rw [this]
                · rw [bookBalanceOf_credit_other_ccy _ _ _ _ _ hbu]
                  have h3 := deduct_balance_none_self
                    (b1.credit_balance t.taker_user_id "BTC" (qtyToRat t.quantity))
                    t.maker_user_id "BTC" (qtyToRat t.quantity) h2n
                  rw [h2] at h3; rw [h3]
                  rw [bookBalanceOf_credit_other_user _ _ _ _ _ _ hmt]
                  have := deduct_balance_none_other_user b t.taker_user_id t.maker_user_id
                    "USD" "BTC" (settlementUsdAmount t) hmt h1n
                  rw [h1] at this; rw [this]
                · rw [bookBalanceOf_credit_self]
                  have h3 := deduct_balance_none_other_ccy
                    (b1.credit_balance t.taker_user_id "BTC" (qtyToRat t.quantity))
                    t.maker_user_id "BTC" "USD" (qtyToRat t.quantity) hub h2n
                  rw [h2] at h3; rw [h3]
                  rw [bookBalanceOf_credit_other_user _ _ _ _ _ _ hmt]
                  have := deduct_balance_none_other_user b t.taker_user_id t.maker_user_id
                    "USD" "USD" (settlementUsdAmount t) hmt h1n
                  rw [h1] at this; rw [this]
              · intro e' he'; simp at he'
  | Sell =>
      simp only [OrderBook.execute_trade_settlement]
      rcases h1 : b.deduct_balance t.taker_user_id "BTC" (qtyToRat t.quantity) with ⟨b1, e1⟩
      cases e1 with
      | some e =>
          have hb1 : b1 = b := by
            have := deduct_balance_some_book b t.taker_user_id "BTC" (qtyToRat t.quantity) e
              (by rw [h1])
            rw [h1] at this; exact this
          simp [h1, hb1]
      | none =>
          have h1n : (b.deduct_balance t.taker_user_id "BTC" (qtyToRat t.quantity)).2 = none := by
            rw [h1]
          rcases h2 : (b1.credit_balance t.taker_user_id "USD" (settlementUsdAmount t)).deduct_balance
              t.maker_user_id "USD" (settlementUsdAmount t) with ⟨b3, e2⟩
          cases e2 with
          | some e =>
              have hb3 : b3 = b1.credit_balance t.taker_user_id "USD" (settlementUsdAmount t) := by
                have := deduct_balance_some_book
                  (b1.credit_balance t.taker_user_id "USD" (settlementUsdAmount t))
                  t.maker_user_id "USD" (settlementUsdAmount t) e (by rw [h2])
                rw [h2] at this; exact this
              simp only [h1, h2]
              constructor
              · intro hcontra; simp at hcontra
              · intro e' he'
                right
                subst hb3
                refine ⟨?_, ?_, ?_, ?_⟩
                · rw [bookBalanceOf_credit_other_ccy _ _ _ _ _ hbu]
                  have := deduct_balance_none_self b t.taker_user_id "BTC"
                    (qtyToRat t.quantity) h1n
                  rw [h1] at this; exact this
                · rw [bookBalanceOf_credit_self]
                  have := deduct_balance_none_other_ccy b t.taker_user_id "BTC" "USD"
                    (qtyToRat t.quantity) hub h1n
                  rw [h1] at this; rw [this]
                · rw [bookBalanceOf_credit_other_user _ _ _ _ _ _ hmt]
                  have := deduct_balance_none_other_user b t.taker_user_id t.maker_user_id
                    "BTC" "USD" (qtyToRat t.quantity) hmt h1n
                  rw [h1] at this; exact this
                · rw [bookBalanceOf_credit_other_user _ _ _ _ _ _ hmt]
                  have := deduct_balance_none_other_user b t.taker_user_id t.maker_user_id
                    "BTC" "BTC" (qtyToRat t.quantity) hmt h1n
                  rw [h1] at this; exact this
          | none =>
              have h2n : ((b1.credit_balance t.taker_user_id "USD"
                  (settlementUsdAmount t)).deduct_balance t.maker_user_id "USD"
                  (settlementUsdAmount t)).2 = none := by rw [h2]
              simp only [h1, h2]
              constructor
              · intro _
                refine ⟨?_, ?_, ?_, ?_⟩
                · rw [bookBalanceOf_credit_other_user _ _ _ _ _ _ hne]
                  have h3 := deduct_balance_none_other_user
                    (b1.credit_balance t.taker_user_id "USD" (settlementUsdAmount t))
                    t.maker_user_id t.taker_user_id "USD" "BTC" (settlementUsdAmount t) hne h2n
                  rw [h2] at h3; rw [h3]
                  rw [bookBalanceOf_credit_other_ccy _ _ _ _ _ hbu]
                  have := deduct_balance_none_self b t.taker_user_id "BTC"
                    (qtyToRat t.quantity) h1n
                  rw [h1] at this; exact this
                · rw [bookBalanceOf_credit_other_user _ _ _ _ _ _ hne]
                  have h3 := deduct_balance_none_other_user
                    (b1.credit_balance t.taker_user_id "USD" (settlementUsdAmount t))
                    t.maker_user_id t.taker_user_id "USD" "USD" (settlementUsdAmount t) hne h2n
                  rw [h2] at h3; rw [h3]
                  rw [bookBalanceOf_credit_self]
                  have := deduct_balance_none_other_ccy b t.taker_user_id "BTC" "USD"
                    (qtyToRat t.quantity) hub h1n
                  rw [h1] at this; rw [this]
                · rw [bookBalanceOf_credit_other_ccy _ _ _ _ _ hub]
                  have h3 := deduct_balance_none_self
                    (b1.credit_balance t.taker_user_id "USD" (settlementUsdAmount t))
                    t.maker_user_id "USD" (settlementUsdAmount t) h2n
                  rw [h2] at h3; rw [h3]
                  rw [bookBalanceOf_credit_other_user _ _ _ _ _ _ hmt]
                  have := deduct_balance_none_other_user b t.taker_user_id t.maker_user_id
                    "BTC" "USD" (qtyToRat t.quantity) hmt h1n
                  rw [h1] at this; rw [this]
                · rw [bookBalanceOf_credit_self]
                  have h3 := deduct_balance_none_other_ccy
                    (b1.credit_balance t.taker_user_id "USD" (settlementUsdAmount t))
                    t.maker_user_id "USD" "BTC" (settlementUsdAmount t) hbu h2n
                  rw [h2] at h3; rw [h3]
                  rw [bookBalanceOf_credit_other_user _ _ _ _ _ _ hmt]
                  have := deduct_balance_none_other_user b t.taker_user_id t.maker_user_id
                    "BTC" "BTC" (qtyToRat t.quantity) hmt h1n
                  rw [h1] at this; rw [this]
              · intro e' he'; simp at he'

/-- C3 witness: on `c3wbook` (both users funded) settlement of `c3trade`
succeeds, and by `c3_settlement_amended` all four legs are applied. -/
theorem c3_settlement_amended_witness :
    (c3wbook.execute_trade_settlement c3trade .Buy).2 = none ∧
    FourLegs c3wbook (c3wbook.execute_trade_settlement c3trade .Buy).1 c3trade .Buy := by
  have h := c3_settlement_amended c3wbook c3trade .Buy (by decide)
  exact ⟨by with_unfolding_all rfl, h.1 (by with_unfolding_all rfl)⟩

theorem sideSize_cons (p : Nat) (X : PriceLevel) (rest : List (Nat × PriceLevel)) :
    sideSize ((p, X) :: rest) = X.orders.length + 1 + sideSize rest := by
  simp [sideSize]

theorem deduct_balance_asks (b : OrderBook) (u : Nat) (c : String) (a : ℚ) :
    (b.deduct_balance u c a).1.asks = b.asks := by
  unfold OrderBook.deduct_balance
  cases assocGet b.user_balances u with
  | none => rfl
  | some ub =>
      rcases h : ub.subtract_balance c a with ⟨ub', oe⟩
      cases oe <;> simp [h]

theorem deduct_balance_bids (b : OrderBook) (u : Nat) (c : String) (a : ℚ) :
    (b.deduct_balance u c a).1.bids = b.bids := by
  unfold OrderBook.deduct_balance
  cases assocGet b.user_balances u with
  | none => rfl
  | some ub =>
      rcases h : ub.subtract_balance c a with ⟨ub', oe⟩
      cases oe <;> simp [h]

theorem deduct_balance_orders (b : OrderBook) (u : Nat) (c : String) (a : ℚ) :
    (b.deduct_balance u c a).1.orders = b.orders := by
  unfold OrderBook.deduct_balance
  cases assocGet b.user_balances u with
  | none => rfl
  | some ub =>
      rcases h : ub.subtract_balance c a with ⟨ub', oe⟩
      cases oe <;> simp [h]

theorem credit_balance_asks (b : OrderBook) (u : Nat) (c : String) (a : ℚ) :
    (b.credit_balance u c a).asks = b.asks := rfl

theorem credit_balance_bids (b : OrderBook) (u : Nat) (c : String) (a : ℚ) :
    (b.credit_balance u c a).bids = b.bids := rfl

theorem credit_balance_orders (b : OrderBook) (u : Nat) (c : String) (a : ℚ) :
    (b.credit_balance u c a).orders = b.orders := rfl

theorem settlement_asks (b : OrderBook) (t : Trade) (s : OrderSide) :
    (b.execute_trade_settlement t s).1.asks = b.asks := by
  simp only [OrderBook.execute_trade_settlement]
  cases s with
  | Buy =>
      rcases h1 : b.deduct_balance t.taker_user_id "USD" (settlementUsdAmount t) with ⟨b1, e1⟩
      have hb1 : b1.asks = b.asks := by
        have := deduct_balance_asks b t.taker_user_id "USD" (settlementUsdAmount t)
        rw [h1] at this; exact this
      simp only [h1]
      cases e1 with
      | some e => simpa using hb1
      | none =>
          rcases h2 : (b1.credit_balance t.taker_user_id "BTC"
              (qtyToRat t.quantity)).deduct_balance t.maker_user_id "BTC"
              (qtyToRat t.quantity) with ⟨b3, e2⟩
          have hb3 : b3.asks = b1.asks := by
            have := deduct_balance_asks
              (b1.credit_balance t.taker_user_id "BTC" (qtyToRat t.quantity))
              t.maker_user_id "BTC" (qtyToRat t.quantity)
            rw [h2] at this; rw [this, credit_balance_asks]
          simp only [h2]
          cases e2 with
          | some e => simpa [hb3] using hb1
          | none => simp [credit_balance_asks, hb3, hb1]
  | Sell =>
      rcases h1 : b.deduct_balance t.taker_user_id "BTC" (qtyToRat t.quantity) with ⟨b1, e1⟩
      have hb1 : b1.asks = b.asks := by
        have := deduct_balance_asks b t.taker_user_id "BTC" (qtyToRat t.quantity)
        rw [h1] at this; exact this
      simp only [h1]
      cases e1 with
      | some e => simpa using hb1
      | none =>
          rcases h2 : (b1.credit_balance t.taker_user_id "USD"
              (settlementUsdAmount t)).deduct_balance t.maker_user_id "USD"
              (settlementUsdAmount t) with ⟨b3, e2⟩
          have hb3 : b3.asks = b1.asks := by
            have := deduct_balance_asks
              (b1.credit_balance t.taker_user_id "USD" (settlementUsdAmount t))
              t.maker_user_id "USD" (settlementUsdAmount t)
            rw [h2] at this; rw [this, credit_balance_asks]
          simp only [h2]
          cases e2 with
          | some e => simpa [hb3] using hb1
          | none => simp [credit_balance_asks, hb3, hb1]

theorem settlement_bids (b : OrderBook) (t : Trade) (s : OrderSide) :
    (b.execute_trade_settlement t s).1.bids = b.bids := by
  simp only [OrderBook.execute_trade_settlement]
  cases s with
  | Buy =>
      rcases h1 : b.deduct_balance t.taker_user_id "USD" (settlementUsdAmount t) with ⟨b1, e1⟩
      have hb1 : b1.bids = b.bids := by
        have := deduct_balance_bids b t.taker_user_id "USD" (settlementUsdAmount t)
        rw [h1] at this; exact this
      simp only [h1]
      cases e1 with
      | some e => simpa using hb1
      | none =>
          rcases h2 : (b1.credit_balance t.taker_user_id "BTC"
              (qtyToRat t.quantity)).deduct_balance t.maker_user_id "BTC"
              (qtyToRat t.quantity) with ⟨b3, e2⟩
          have hb3 : b3.bids = b1.bids := by
            have := deduct_balance_bids
              (b1.credit_balance t.taker_user_id "BTC" (qtyToRat t.quantity))
              t.maker_user_id "BTC" (qtyToRat t.quantity)
            rw [h2] at this; rw [this, credit_balance_bids]
          simp only [h2]
          cases e2 with
          | some e => simpa [hb3] using hb1
          | none => simp [credit_balance_bids, hb3, hb1]
  | Sell =>
      rcases h1 : b.deduct_balance t.taker_user_id "BTC" (qtyToRat t.quantity) with ⟨b1, e1⟩
      have hb1 : b1.bids = b.bids := by
        have := deduct_balance_bids b t.taker_user_id "BTC" (qtyToRat t.quantity)
        rw [h1] at this; exact this
      simp only [h1]
      cases e1 with
      | some e => simpa using hb1
      | none =>
          rcases h2 : (b1.credit_balance t.taker_user_id "USD"
              (settlementUsdAmount t)).deduct_balance t.maker_user_id "USD"
              (settlementUsdAmount t) with ⟨b3, e2⟩
          have hb3 : b3.bids = b1.bids := by
            have := deduct_balance_bids
              (b1.credit_balance t.taker_user_id "USD" (settlementUsdAmount t))
              t.maker_user_id "USD" (settlementUsdAmount t)
            rw [h2] at this; rw [this, credit_balance_bids]
          simp only [h2]
          cases e2 with
          | some e => simpa [hb3] using hb1
          | none => simp [credit_balance_bids, hb3, hb1]

theorem deduct_balance_some_str (b : OrderBook) (u : Nat) (c : String) (a : ℚ)
    (e : String) (h : (b.deduct_balance u c a).2 = some e) :
    e = "User not found" ∨ e = "Currency not found" ∨ e = "Insufficient balance" := by
  unfold OrderBook.deduct_balance at h
  cases hu : assocGet b.user_balances u with
  | none => simp [hu] at h; exact Or.inl h.symm
  | some ub =>
      unfold UserBalance.subtract_balance at h
      cases hc : assocGetS ub.balances c with
      | none => simp [hu, hc] at h; exact Or.inr (Or.inl h.symm)
      | some v =>
          by_cases hv : v < a
          · simp [hu, hc, hv] at h; exact Or.inr (Or.inr h.symm)
          · simp [hu, hc, hv] at h

theorem settlement_some_str (b : OrderBook) (t : Trade) (s : OrderSide) (e : String)
    (h : (b.execute_trade_settlement t s).2 = some e) :
    e = "User not found" ∨ e = "Currency not found" ∨ e = "Insufficient balance" := by
  simp only [OrderBook.execute_trade_settlement] at h
  cases s with
  | Buy =>
      rcases h1 : b.deduct_balance t.taker_user_id "USD" (settlementUsdAmount t) with ⟨b1, e1⟩
      simp only [h1] at h
      cases e1 with
      | some e0 =>
          simp at h
          have := deduct_balance_some_str b t.taker_user_id "USD" (settlementUsdAmount t) e0
            (by rw [h1])
          rwa [h] at this
      | none =>
          rcases h2 : (b1.credit_balance t.taker_user_id "BTC"
              (qtyToRat t.quantity)).deduct_balance t.maker_user_id "BTC"
              (qtyToRat t.quantity) with ⟨b3, e2⟩
          simp only [h2] at h
          cases e2 with
          | some e0 =>
              simp at h
              have := deduct_balance_some_str
                (b1.credit_balance t.taker_user_id "BTC" (qtyToRat t.quantity))
                t.maker_user_id "BTC" (qtyToRat t.quantity) e0 (by rw [h2])
              rwa [h] at this
          | none => simp at h
  | Sell =>
      rcases h1 : b.deduct_balance t.taker_user_id "BTC" (qtyToRat t.quantity) with ⟨b1, e1⟩
      simp only [h1] at h
      cases e1 with
      | some e0 =>
          simp at h
          have := deduct_balance_some_str b t.taker_user_id "BTC" (qtyToRat t.quantity) e0
            (by rw [h1])
          rwa [h] at this
      | none =>
          rcases h2 : (b1.credit_balance t.taker_user_id "USD"
              (settlementUsdAmount t)).deduct_balance t.maker_user_id "USD"
              (settlementUsdAmount t) with ⟨b3, e2⟩
          simp only [h2] at h
          cases e2 with
          | some e0 =>
              simp at h
              have := deduct_balance_some_str
                (b1.credit_balance t.taker_user_id "USD" (settlementUsdAmount t))
                t.maker_user_id "USD" (settlementUsdAmount t) e0 (by rw [h2])
              rwa [h] at this
          | none => simp at h

theorem settlement_some_ne_il (b : OrderBook) (t : Trade) (s : OrderSide) (e : String)
    (h : (b.execute_trade_settlement t s).2 = some e) :
    e ≠ "Insufficient liquidity for market order" := by
  rcases settlement_some_str b t s e h with h1 | h1 | h1 <;> rw [h1] <;> decide

theorem marketBuyLoop_char : ∀ (fuel : Nat) (b : OrderBook) (t : Order) (trades : List Trade)
    (b' : OrderBook) (t' : Order) (r : Except String (List Trade)),
    t.remaining_quantity + sideSize b.asks < fuel →
    matchMarketBuyLoop fuel b t trades = (b', t', r) →
    ((∀ ts, r = .ok ts → t'.remaining_quantity = 0) ∧
     (r = .error "Insufficient liquidity for market order" →
        b'.asks = [] ∧ t'.remaining_quantity ≠ 0) ∧
     (∀ e, r = .error e → e ≠ "Insufficient liquidity for market order" →
        b'.asks ≠ [])) := by
  intro fuel
  induction fuel with
  | zero => intro b t trades b' t' r h; omega
  | succ n ih =>
      intro b t trades b' t' r hf heq
      cases ht : t.is_fully_filled with
      | true =>
          simp only [matchMarketBuyLoop, ht, if_true] at heq
          injection heq with h1 heq
          injection heq with h2 h3
          subst h1; subst h2; subst h3
          refine ⟨?_, ?_, ?_⟩
          · intro ts _
            simpa [Order.is_fully_filled] using ht
          · intro hcon; simp at hcon
          · intro e hcon; simp at hcon
      | false =>
          have hrem : t.remaining_quantity ≠ 0 := by
            simpa [Order.is_fully_filled] using ht
          cases hasks : b.asks with
          | nil =>
              simp only [matchMarketBuyLoop, ht, hasks] at heq
              injection heq with h1 heq
              injection heq with h2 h3
              subst h1; subst h2; subst h3
              refine ⟨?_, ?_, ?_⟩
              · intro ts hcon; simp at hcon
              · intro _; exact ⟨hasks, hrem⟩
              · intro e he hne
                injection he with hh
                exact absurd hh.symm hne
          | cons hd rest =>
              obtain ⟨p, level⟩ := hd
              cases hlo : level.orders with
              | nil =>
                  simp only [matchMarketBuyLoop, ht, hasks, hlo] at heq
                  have hsz : t.remaining_quantity + sideSize rest < n := by
                    rw [hasks, sideSize_cons] at hf
                    omega
                  exact ih { b with asks := rest } t trades b' t' r hsz heq
              | cons maker qtail =>
                  simp only [matchMarketBuyLoop, ht, hasks, hlo] at heq
                  rcases hs : ({ b with asks :=
                      (p, PriceLevel.update_volume
                          { level with orders :=
                              maker.fill (min t.remaining_quantity maker.remaining_quantity)
                                :: qtail }
                          (min t.remaining_quantity maker.remaining_quantity)) ::
                        rest }).execute_trade_settlement
                      (Trade.new maker.id t.id maker.user_id t.user_id p
                        (min t.remaining_quantity maker.remaining_quantity))
                      OrderSide.Buy with ⟨b2, oe⟩
                  simp only [hs] at heq
                  cases oe with
                  | some e =>
                      injection heq with h1 heq
                      injection heq with h2 h3
                      subst h1; subst h2; subst h3
                      have hasksb2 := settlement_asks
                        ({ b with asks :=
                            (p, PriceLevel.update_volume
                                { level with orders :=
                                    maker.fill (min t.remaining_quantity
                                      maker.remaining_quantity) :: qtail }
                                (min t.remaining_quantity maker.remaining_quantity)) ::
                              rest })
                        (Trade.new maker.id t.id maker.user_id t.user_id p
                          (min t.remaining_quantity maker.remaining_quantity))
                        .Buy
                      rw [hs] at hasksb2
                      have hneil : e ≠ "Insufficient liquidity for market order" := by
                        apply settlement_some_ne_il _ _ _ e
                        rw [hs]
                      refine ⟨?_, ?_, ?_⟩
                      · intro ts hcon; simp at hcon
                      · intro hcon
                        injection hcon with hh
                        exact absurd hh hneil
                      · intro e' he' _
                        rw [hasksb2]
                        simp
                  | none =>
                      cases hmf : (maker.fill
                          (min t.remaining_quantity maker.remaining_quantity)).is_fully_filled with
                      | true =>
                          simp only [hmf, PriceLevel.pop_if_filled, PriceLevel.update_volume,
                            if_true] at heq
                          cases hq : qtail with
                          | nil =>
                              simp only [hq, PriceLevel.is_empty, List.isEmpty] at heq
                              refine ih _ _ _ b' t' r ?_ heq
                              rw [hasks, sideSize_cons, hlo, hq] at hf
                              simp [Order.fill] at hf ⊢
                              omega
                          | cons q0 qrest =>
                              simp only [hq, PriceLevel.is_empty, List.isEmpty] at heq
                              refine ih _ _ _ b' t' r ?_ heq
                              rw [hasks, sideSize_cons, hlo, hq] at hf
                              simp [Order.fill, sideSize_cons] at hf ⊢
                              omega
                      | false =>
                          simp only [hmf, PriceLevel.pop_if_filled, PriceLevel.update_volume,
                            PriceLevel.is_empty, List.isEmpty] at heq
                          refine ih _ _ _ b' t' r ?_ heq
                          rw [hasks, sideSize_cons, hlo] at hf
                          simp [Order.fill, Order.is_fully_filled] at hmf
                          simp [Order.fill, sideSize_cons] at hf ⊢
                          omega

theorem marketSellLoop_char : ∀ (fuel : Nat) (b : OrderBook) (t : Order) (trades : List Trade)
    (b' : OrderBook) (t' : Order) (r : Except String (List Trade)),
    t.remaining_quantity + sideSize b.bids < fuel →
    matchMarketSellLoop fuel b t trades = (b', t', r) →
    ((∀ ts, r = .ok ts → t'.remaining_quantity = 0) ∧
     (r = .error "Insufficient liquidity for market order" →
        b'.bids = [] ∧ t'.remaining_quantity ≠ 0) ∧
     (∀ e, r = .error e → e ≠ "Insufficient liquidity for market order" →
        b'.bids ≠ [])) := by
  intro fuel
  induction fuel with
  | zero => intro b t trades b' t' r h; omega
  | succ n ih =>
      intro b t trades b' t' r hf heq
      cases ht : t.is_fully_filled with
      | true =>
          simp only [matchMarketSellLoop, ht, if_true] at heq
          injection heq with h1 heq
          injection heq with h2 h3
          subst h1; subst h2; subst h3
          refine ⟨?_, ?_, ?_⟩
          · intro ts _
            simpa [Order.is_fully_filled] using ht
          · intro hcon; simp at hcon
          · intro e hcon; simp at hcon
      | false =>
          have hrem : t.remaining_quantity ≠ 0 := by
            simpa [Order.is_fully_filled] using ht
          cases hbids : b.bids with
          | nil =>
              simp only [matchMarketSellLoop, ht, hbids] at heq
              injection heq with h1 heq
              injection heq with h2 h3
              subst h1; subst h2; subst h3
              refine ⟨?_, ?_, ?_⟩
              · intro ts hcon; simp at hcon
              · intro _; exact ⟨hbids, hrem⟩
              · intro e he hne
                injection he with hh
                exact absurd hh.symm hne
          | cons hd rest =>
              obtain ⟨p, level⟩ := hd
              cases hlo : level.orders with
              | nil =>
                  simp only [matchMarketSellLoop, ht, hbids, hlo] at heq
                  have hsz : t.remaining_quantity + sideSize rest < n := by
                    rw [hbids, sideSize_cons] at hf
                    omega
                  exact ih { b with bids := rest } t trades b' t' r hsz heq
              | cons maker qtail =>
                  simp only [matchMarketSellLoop, ht, hbids, hlo] at heq
                  rcases hs : ({ b with bids :=
                      (p, PriceLevel.update_volume
                          { level with orders :=
                              maker.fill (min t.remaining_quantity maker.remaining_quantity)
                                :: qtail }
                          (min t.remaining_quantity maker.remaining_quantity)) ::
                        rest }).execute_trade_settlement
                      (Trade.new maker.id t.id maker.user_id t.user_id p
                        (min t.remaining_quantity maker.remaining_quantity))
                      OrderSide.Sell with ⟨b2, oe⟩
                  simp only [hs] at heq
                  cases oe with
                  | some e =>
                      injection heq with h1 heq
                      injection heq with h2 h3
                      subst h1; subst h2; subst h3
                      have hbidsb2 := settlement_bids
                        ({ b with bids :=
                            (p, PriceLevel.update_volume
                                { level with orders :=
                                    maker.fill (min t.remaining_quantity
                                      maker.remaining_quantity) :: qtail }
                                (min t.remaining_quantity maker.remaining_quantity)) ::
                              rest })
                        (Trade.new maker.id t.id maker.user_id t.user_id p
                          (min t.remaining_quantity maker.remaining_quantity))
                        .Sell
                      rw [hs] at hbidsb2
                      have hneil : e ≠ "Insufficient liquidity for market order" := by
                        apply settlement_some_ne_il _ _ _ e
                        rw [hs]
                      refine ⟨?_, ?_, ?_⟩
                      · intro ts hcon; simp at hcon
                      · intro hcon
                        injection hcon with hh
                        exact absurd hh hneil
                      · intro e' he' _
                        rw [hbidsb2]
                        simp
                  | none =>
                      cases hmf : (maker.fill
                          (min t.remaining_quantity maker.remaining_quantity)).is_fully_filled with
                      | true =>
                          simp only [hmf, PriceLevel.pop_if_filled, PriceLevel.update_volume,
                            if_true] at heq
                          cases hq : qtail with
                          | nil =>
                              simp only [hq, PriceLevel.is_empty, List.isEmpty] at heq
                              refine ih _ _ _ b' t' r ?_ heq
                              rw [hbids, sideSize_cons, hlo, hq] at hf
                              simp [Order.fill] at hf ⊢
                              omega
                          | cons q0 qrest =>
                              simp only [hq, PriceLevel.is_empty, List.isEmpty] at heq
                              refine ih _ _ _ b' t' r ?_ heq
                              rw [hbids, sideSize_cons, hlo, hq] at hf
                              simp [Order.fill, sideSize_cons] at hf ⊢
                              omega
                      | false =>
                          simp only [hmf, PriceLevel.pop_if_filled, PriceLevel.update_volume,
                            PriceLevel.is_empty, List.isEmpty] at heq
                          refine ih _ _ _ b' t' r ?_ heq
                          rw [hbids, sideSize_cons, hlo] at hf
                          simp [Order.fill, Order.is_fully_filled] at hmf
                          simp [Order.fill, sideSize_cons] at hf ⊢
                          omega

def oppositeSideEmpty (b : OrderBook) (side : OrderSide) : Prop :=
  match side with
  | .Buy => b.asks = []
  | .Sell => b.bids = []

def c5maker : Order := Order.new_limit 0 2 .Sell 50000000000 100000000

def c5book : OrderBook :=
  { bids := [],
    asks := [(50000000000,
      { price := 50000000000, orders := [c5maker], total_volume := 100000000 })],
    orders := [(0, c5maker)],
    user_balances :=
      [ (1, { user_id := 1, balances := [("USD", 100000), ("BTC", 0)] }),
        (2, { user_id := 2, balances := [("USD", 0), ("BTC", 1)] }) ] }

def c5taker : Order := Order.new_market 5 1 .Buy 200000000

/-- C5: `match_order` on a Market order returns the InsufficientLiquidity
error iff the opposite side of the book is exhausted while the taker still
has remaining quantity (a settlement failure surfaces as a different error
string, with the side non-empty; success means the remainder reached zero),
and the partial fills already executed are not rolled back: on the concrete
book `c5book`, the market buy for 2 BTC fails with InsufficientLiquidity
while the first unit's trade settlement and book mutations persist. -/
theorem c5_market_insufficient_liquidity :
    (∀ (b : OrderBook) (o : Order), o.order_type = .Market →
      (b.match_order o).1 = (b.match_market_order o).1 ∧
      (b.match_order o).2 = (b.match_market_order o).2.2 ∧
      (((b.match_market_order o).2.2 =
          .error "Insufficient liquidity for market order") ↔
        (oppositeSideEmpty (b.match_market_order o).1 o.side ∧
         (b.match_market_order o).2.1.remaining_quantity ≠ 0))) ∧
    ((c5book.match_order c5taker).2 = .error "Insufficient liquidity for market order" ∧
     (c5book.match_order c5taker).1.asks = [] ∧
     bookBalanceOf (c5book.match_order c5taker).1 1 "USD" = 50000 ∧
     bookBalanceOf (c5book.match_order c5taker).1 1 "BTC" = 1 ∧
     bookBalanceOf (c5book.match_order c5taker).1 2 "BTC" = 0 ∧
     bookBalanceOf (c5book.match_order c5taker).1 2 "USD" = 50000) := by
  constructor
  · intro b o htype
    have hmo : b.match_order o = ((b.match_market_order o).1, (b.match_market_order o).2.2) := by
      simp only [OrderBook.match_order, htype]
    refine ⟨by rw [hmo], by rw [hmo], ?_⟩
    cases hside : o.side with
    | Buy =>
        have hdisp : b.match_market_order o = b.match_market_buy o := by
          simp only [OrderBook.match_market_order, hside]
        rw [hdisp]
        obtain ⟨c1, c2, c3⟩ := marketBuyLoop_char
          (o.remaining_quantity + sideSize b.asks + 1) b o []
          (b.match_market_buy o).1 (b.match_market_buy o).2.1 (b.match_market_buy o).2.2
          (by omega) rfl
        constructor
        · intro h
          have := c2 h
          simp only [oppositeSideEmpty]
          exact this
        · rintro ⟨he, hr⟩
          simp only [oppositeSideEmpty] at he
          cases hrr : (b.match_market_buy o).2.2 with
          | ok ts => exact absurd (c1 ts hrr) hr
          | error e =>
              by_cases hil : e = "Insufficient liquidity for market order"
              · rw [hil]
              · exact absurd he (c3 e hrr hil)
    | Sell =>
        have hdisp : b.match_market_order o = b.match_market_sell o := by
          simp only [OrderBook.match_market_order, hside]
        rw [hdisp]
        obtain ⟨c1, c2, c3⟩ := marketSellLoop_char
          (o.remaining_quantity + sideSize b.bids + 1) b o []
          (b.match_market_sell o).1 (b.match_market_sell o).2.1 (b.match_market_sell o).2.2
          (by omega) rfl
        constructor
        · intro h
          have := c2 h
          simp only [oppositeSideEmpty]
          exact this
        · rintro ⟨he, hr⟩
          simp only [oppositeSideEmpty] at he
          cases hrr : (b.match_market_sell o).2.2 with
          | ok ts => exact absurd (c1 ts hrr) hr
          | error e =>
              by_cases hil : e = "Insufficient liquidity for market order"
              · rw [hil]
              · exact absurd he (c3 e hrr hil)
  · refine ⟨?_, ?_, ?_, ?_, ?_, ?_⟩ <;> with_unfolding_all rfl

/-- C5 witness: the characterization applied to the concrete exhausting
market order. -/
theorem c5_market_insufficient_liquidity_witness :
    oppositeSideEmpty (c5book.match_market_order c5taker).1 c5taker.side ∧
    (c5book.match_market_order c5taker).2.1.remaining_quantity ≠ 0 :=
  (c5_market_insufficient_liquidity.1 c5book c5taker rfl).2.2.mp (by with_unfolding_all rfl)

/-! ### Definitions for the book invariants and FIFO relation -/

/-- Sum of the remaining quantities of a queue of orders. -/
def sumRemaining (l : List Order) : Nat :=
  l.foldr (fun o acc => o.remaining_quantity + acc) 0

/-- The PriceLevel invariant of the claim: the cached `total_volume` equals
the sum of the queued remainders. -/
def levelWF (L : PriceLevel) : Prop :=
  L.total_volume = sumRemaining L.orders

/-- Every price level of the book satisfies `levelWF`. -/
def booksWF (b : OrderBook) : Prop :=
  (∀ kl ∈ b.bids, levelWF kl.2) ∧ (∀ kl ∈ b.asks, levelWF kl.2)

/-- The price keys of one side, in iteration order. -/
def sideKeys (m : List (Nat × PriceLevel)) : List Nat :=
  m.map (·.1)

/-- The order queue resting at price `p` on a side. -/
def levelOrdersAt (m : List (Nat × PriceLevel)) (p : Nat) : Option (List Order) :=
  (assocGet m p).map (·.orders)

/-- The order queue at `p`, empty when the level is gone. -/
def levelOrdersAtD (m : List (Nat × PriceLevel)) (p : Nat) : List Order :=
  ((assocGet m p).map (·.orders)).getD []

/-- `o'` is `o` after zero or more fills: identity, ownership, price, side,
type and original size are unchanged, the remainder can only have shrunk. -/
def SameButRem (o o' : Order) : Prop :=
  o'.id = o.id ∧ o'.user_id = o.user_id ∧ o'.price = o.price ∧ o'.side = o.side ∧
  o'.order_type = o.order_type ∧ o'.original_quantity = o.original_quantity ∧
  o'.remaining_quantity ≤ o.remaining_quantity

/-- How matching transforms one price level's FIFO queue: a prefix of the
queue is fully consumed and removed, and after that the new head order may
additionally have had its remainder reduced.  In particular no order ever
receives a fill while an older order of the same level still has remainder. -/
inductive FrontConsumed : List Order → List Order → Prop
  | refl (q : List Order) : FrontConsumed q q
  | drop (o : Order) (q q' : List Order) :
      FrontConsumed q q' → FrontConsumed (o :: q) q'
  | reduce (o o' : Order) (q : List Order) :
      SameButRem o o' → FrontConsumed (o :: q) (o' :: q)

theorem sameButRem_self (o : Order) : SameButRem o o :=
  ⟨rfl, rfl, rfl, rfl, rfl, rfl, Nat.le_refl _⟩

theorem sameButRem_trans {a b c : Order} (h1 : SameButRem a b) (h2 : SameButRem b c) :
    SameButRem a c := by
  obtain ⟨i1, u1, p1, s1, t1, o1, r1⟩ := h1
  obtain ⟨i2, u2, p2, s2, t2, o2, r2⟩ := h2
  exact ⟨i2.trans i1, u2.trans u1, p2.trans p1, s2.trans s1, t2.trans t1,
    o2.trans o1, r2.trans r1⟩

theorem FrontConsumed.to_nil (q : List Order) : FrontConsumed q [] := by
  induction q with
  | nil => exact .refl []
  | cons o rest ih => exact .drop o rest [] ih

theorem frontConsumed_trans : ∀ {q q' q'' : List Order},
    FrontConsumed q q' → FrontConsumed q' q'' → FrontConsumed q q'' := by
  intro q q' q'' h1
  induction h1 generalizing q'' with
  | refl q => exact fun h2 => h2
  | drop o q1 qmid h ih => exact fun h2 => .drop o q1 q'' (ih h2)
  | reduce o o' q1 hrel =>
      intro h2
      cases h2 with
      | refl => exact .reduce o o' q1 hrel
      | drop _ _ _ h => exact .drop o q1 q'' h
      | reduce _ o'' _ hrel2 => exact .reduce o o'' q1 (sameButRem_trans hrel hrel2)

@[simp] theorem sumRemaining_nil : sumRemaining [] = 0 := rfl

@[simp] theorem sumRemaining_cons (o : Order) (l : List Order) :
    sumRemaining (o :: l) = o.remaining_quantity + sumRemaining l := rfl

theorem sumRemaining_append (l1 l2 : List Order) :
    sumRemaining (l1 ++ l2) = sumRemaining l1 + sumRemaining l2 := by
  induction l1 with
  | nil => simp
  | cons o rest ih => simp [ih]; omega

theorem sum_find_eraseP (l : List Order) (pk : Order → Bool) (o : Order)
    (h : l.find? pk = some o) :
    sumRemaining l = o.remaining_quantity + sumRemaining (l.eraseP pk) := by
  induction l with
  | nil => simp [List.find?] at h
  | cons hd rest ih =>
      cases hp : pk hd with
      | true =>
          rw [List.find?_cons_of_pos _ hp] at h
          injection h with h; subst h
          simp [List.eraseP_cons, hp]
      | false =>
          rw [List.find?_cons_of_neg _ (by simp [hp])] at h
          have := ih h
          simp [List.eraseP_cons, hp]
          omega

theorem levelWF_enqueue (L : PriceLevel) (o : Order) (h : levelWF L) :
    levelWF (L.enqueue_order o) := by
  unfold levelWF PriceLevel.enqueue_order at *
  simp [sumRemaining_append, h]

theorem levelWF_dequeue (L : PriceLevel) (id : Nat) (h : levelWF L) :
    levelWF (L.dequeue_order_by_id id).1 := by
  unfold levelWF PriceLevel.dequeue_order_by_id at *
  cases hf : L.orders.find? (fun o => o.id == id) with
  | none => simpa using h
  | some o =>
      have := sum_find_eraseP L.orders (fun o => o.id == id) o hf
      simp
      omega

theorem levelWF_pop (L : PriceLevel) (h : levelWF L) :
    levelWF (L.pop_if_filled.1) := by
  unfold levelWF PriceLevel.pop_if_filled at *
  cases hl : L.orders with
  | nil => simpa [hl] using h
  | cons o rest =>
      rw [hl] at h
      cases hff : o.is_fully_filled with
      | true =>
          have hz : o.remaining_quantity = 0 := by
            simpa [Order.is_fully_filled] using hff
          simp [hff, hz] at h ⊢
          omega
      | false => simpa [hff, hl] using h

theorem levelWF_fill_front (L : PriceLevel) (maker : Order) (qtail : List Order)
    (f : Nat) (horders : L.orders = maker :: qtail)
    (hf : f ≤ maker.remaining_quantity) (h : levelWF L) :
    levelWF (PriceLevel.update_volume { L with orders := maker.fill f :: qtail } f) := by
  unfold levelWF PriceLevel.update_volume at *
  rw [horders] at h
  simp [Order.fill] at h ⊢
  omega

theorem assocGet_cons_self {α : Type} (k : Nat) (v : α) (rest : List (Nat × α)) :
    assocGet ((k, v) :: rest) k = some v := by
  simp [assocGet]

theorem assocGet_cons_ne {α : Type} (k : Nat) (v : α) (rest : List (Nat × α)) (p : Nat)
    (h : p ≠ k) : assocGet ((k, v) :: rest) p = assocGet rest p := by
  have hk : ¬ (k = p) := fun hc => h hc.symm
  simp [assocGet, hk]

theorem assocGet_mem {α : Type} : ∀ (l : List (Nat × α)) (p : Nat) (v : α),
    assocGet l p = some v → (p, v) ∈ l := by
  intro l
  induction l with
  | nil => intro p v h; simp [assocGet] at h
  | cons kv rest ih =>
      intro p v h
      obtain ⟨k, w⟩ := kv
      by_cases hk : k = p
      · subst hk
        simp [assocGet] at h
        subst h
        exact List.mem_cons_self _ _
      · simp [assocGet, hk] at h
        exact List.mem_cons_of_mem _ (ih p v h)

@[simp] theorem sideKeys_nil : sideKeys [] = [] := rfl

@[simp] theorem sideKeys_cons (k : Nat) (L : PriceLevel) (rest : List (Nat × PriceLevel)) :
    sideKeys ((k, L) :: rest) = k :: sideKeys rest := rfl

theorem mem_sideKeys_of_assocGet (m : List (Nat × PriceLevel)) (p : Nat) (L : PriceLevel)
    (h : assocGet m p = some L) : p ∈ sideKeys m :=
  List.mem_map.mpr ⟨(p, L), assocGet_mem m p L h, rfl⟩

theorem assocGet_eq_none_of_not_mem (m : List (Nat × PriceLevel)) (p : Nat)
    (h : p ∉ sideKeys m) : assocGet m p = none := by
  cases hg : assocGet m p with
  | none => rfl
  | some L => exact absurd (mem_sideKeys_of_assocGet m p L hg) h

theorem levelOrdersAtD_of_some (m : List (Nat × PriceLevel)) (p : Nat) (q : List Order)
    (h : levelOrdersAt m p = some q) : levelOrdersAtD m p = q := by
  unfold levelOrdersAt at h
  unfold levelOrdersAtD
  cases hg : assocGet m p with
  | none => rw [hg] at h; simp at h
  | some L =>
      rw [hg] at h
      simp at h ⊢
      exact h

theorem levelOrdersAtD_nil (m : List (Nat × PriceLevel)) (p : Nat)
    (h : assocGet m p = none) : levelOrdersAtD m p = [] := by
  unfold levelOrdersAtD
  rw [h]
  rfl

theorem levelWF_new (p : Nat) : levelWF (PriceLevel.new p) := rfl

theorem asksEnqueue_WF : ∀ (m : List (Nat × PriceLevel)) (p : Nat) (o : Order),
    (∀ kl ∈ m, levelWF kl.2) → ∀ kl ∈ asksEnqueue m p o, levelWF kl.2 := by
  intro m
  induction m with
  | nil =>
      intro p o _ kl hkl
      simp only [asksEnqueue, List.mem_singleton] at hkl
      subst hkl
      exact levelWF_enqueue _ _ (levelWF_new p)
  | cons kv rest ih =>
      intro p o h kl hkl
      obtain ⟨k, L⟩ := kv
      unfold asksEnqueue at hkl
      by_cases h1 : p < k
      · simp only [h1, if_true, List.mem_cons] at hkl
        rcases hkl with rfl | rfl | h2
        · exact levelWF_enqueue _ _ (levelWF_new p)
        · exact h (k, L) (List.mem_cons_self _ _)
        · exact h kl (List.mem_cons_of_mem _ h2)
      · simp only [h1, if_false] at hkl
        by_cases h2 : p = k
        · simp only [h2, if_true, List.mem_cons] at hkl
          rcases hkl with rfl | h3
          · exact levelWF_enqueue _ _ (h (k, L) (List.mem_cons_self _ _))
          · exact h kl (List.mem_cons_of_mem _ h3)
        · simp only [h2, if_false, List.mem_cons] at hkl
          rcases hkl with rfl | h3
          · exact h (k, L) (List.mem_cons_self _ _)
          · exact ih p o (fun kl2 hkl2 => h kl2 (List.mem_cons_of_mem _ hkl2)) kl h3

theorem bidsEnqueue_WF : ∀ (m : List (Nat × PriceLevel)) (p : Nat) (o : Order),
    (∀ kl ∈ m, levelWF kl.2) → ∀ kl ∈ bidsEnqueue m p o, levelWF kl.2 := by
  intro m
  induction m with
  | nil =>
      intro p o _ kl hkl
      simp only [bidsEnqueue, List.mem_singleton] at hkl
      subst hkl
      exact levelWF_enqueue _ _ (levelWF_new p)
  | cons kv rest ih =>
      intro p o h kl hkl
      obtain ⟨k, L⟩ := kv
      unfold bidsEnqueue at hkl
      by_cases h1 : k < p
      · simp only [h1, if_true, List.mem_cons] at hkl
        rcases hkl with rfl | rfl | h2
        · exact levelWF_enqueue _ _ (levelWF_new p)
        · exact h (k, L) (List.mem_cons_self _ _)
        · exact h kl (List.mem_cons_of_mem _ h2)
      · simp only [h1, if_false] at hkl
        by_cases h2 : p = k
        · simp only [h2, if_true, List.mem_cons] at hkl
          rcases hkl with rfl | h3
          · exact levelWF_enqueue _ _ (h (k, L) (List.mem_cons_self _ _))
          · exact h kl (List.mem_cons_of_mem _ h3)
        · simp only [h2, if_false, List.mem_cons] at hkl
          rcases hkl with rfl | h3
          · exact h (k, L) (List.mem_cons_self _ _)
          · exact ih p o (fun kl2 hkl2 => h kl2 (List.mem_cons_of_mem _ hkl2)) kl h3

/-- The maker data of a trade is found resting on the ask side of `b`:
some level at the trade's price contains an order with the trade's maker
order id and maker user id. -/
def MakerAskTriple (b : OrderBook) (tr : Trade) : Prop :=
  ∃ p L maker, assocGet b.asks p = some L ∧ maker ∈ L.orders ∧
    maker.id = tr.maker_order_id ∧ maker.user_id = tr.maker_user_id ∧ tr.price = p

/-- The maker data of a trade is found resting on the bid side of `b`. -/
def MakerBidTriple (b : OrderBook) (tr : Trade) : Prop :=
  ∃ p L maker, assocGet b.bids p = some L ∧ maker ∈ L.orders ∧
    maker.id = tr.maker_order_id ∧ maker.user_id = tr.maker_user_id ∧ tr.price = p

theorem limitBuyLoop_spec : ∀ (fuel : Nat) (b : OrderBook) (t : Order) (tp : Nat)
    (trades : List Trade) (b' : OrderBook) (t' : Order) (r : Except String (List Trade)),
    matchLimitBuyLoop fuel b t tp trades = (b', t', r) →
    (b'.bids = b.bids ∧
     sideKeys b'.asks <:+ sideKeys b.asks ∧
     (booksWF b → booksWF b') ∧
     (t'.side = t.side ∧ t'.order_type = t.order_type ∧ t'.price = t.price ∧
      t'.id = t.id ∧ t'.user_id = t.user_id) ∧
     (∀ ts, r = .ok ts → t'.remaining_quantity ≠ 0 →
        ∀ k L rest2, b'.asks = (k, L) :: rest2 → tp < k) ∧
     ((sideKeys b.asks).Nodup →
        (∀ p q, levelOrdersAt b.asks p = some q →
           FrontConsumed q (levelOrdersAtD b'.asks p)) ∧
        (∀ ts, r = .ok ts → ∀ tr ∈ ts,
           tr ∈ trades ∨ (MakerAskTriple b tr ∧ tr.price ≤ tp)))) := by
  intro fuel
  induction fuel with
  | zero =>
      intro b t tp trades b' t' r heq
      simp only [matchLimitBuyLoop] at heq
      injection heq with h1 heq
      injection heq with h2 h3
      subst h1; subst h2; subst h3
      refine ⟨rfl, List.suffix_refl _, fun h => h, ⟨rfl, rfl, rfl, rfl, rfl⟩, ?_, ?_⟩
      · intro ts hcon; simp at hcon
      · intro _
        refine ⟨?_, ?_⟩
        · intro p q hq
          rw [levelOrdersAtD_of_some _ _ _ hq]
          exact .refl q
        · intro ts hcon; simp at hcon
  | succ n ih =>
      intro b t tp trades b' t' r heq
      cases ht : t.is_fully_filled with
      | true =>
          simp only [matchLimitBuyLoop, ht, if_true] at heq
          injection heq with h1 heq
          injection heq with h2 h3
          subst h1; subst h2; subst h3
          have hrem0 : t.remaining_quantity = 0 := by
            simpa [Order.is_fully_filled] using ht
          refine ⟨rfl, List.suffix_refl _, fun h => h, ⟨rfl, rfl, rfl, rfl, rfl⟩, ?_, ?_⟩
          · intro ts _ hne
            exact absurd hrem0 hne
          · intro _
            refine ⟨?_, ?_⟩
            · intro p q hq
              rw [levelOrdersAtD_of_some _ _ _ hq]
              exact .refl q
            · intro ts hts tr htr
              left
              have : trades = ts := by injection hts
              rw [this]; exact htr
      | false =>
          have hrem : t.remaining_quantity ≠ 0 := by
            simpa [Order.is_fully_filled] using ht
          cases hasks : b.asks with
          | nil =>
              simp only [matchLimitBuyLoop, ht, hasks] at heq
              injection heq with h1 heq
              injection heq with h2 h3
              subst h1; subst h2; subst h3
              refine ⟨rfl, by rw [hasks], fun h => h,
                ⟨rfl, rfl, rfl, rfl, rfl⟩, ?_, ?_⟩
              · intro ts _ _ k L rest2 hcon
                rw [hasks] at hcon
                simp at hcon
              · intro _
                refine ⟨?_, ?_⟩
                · intro p q hq
                  simp [levelOrdersAt, assocGet] at hq
                · intro ts hts tr htr
                  left
                  have : trades = ts := by injection hts
                  rw [this]; exact htr
          | cons hd rest =>
              obtain ⟨p, level⟩ := hd
              simp only [matchLimitBuyLoop, ht, Bool.false_eq_true, if_false, hasks] at heq
              by_cases hg : tp < p
              · rw [if_pos hg] at heq
                injection heq with h1 heq
                injection heq with h2 h3
                subst h1; subst h2; subst h3
                refine ⟨rfl, by rw [hasks], fun h => h,
                  ⟨rfl, rfl, rfl, rfl, rfl⟩, ?_, ?_⟩
                · intro ts _ _ k L rest2 hcon
                  rw [hasks] at hcon
                  injection hcon with hkl hrest
                  injection hkl with hk hl
                  rw [← hk]
                  exact hg
                · intro _
                  refine ⟨?_, ?_⟩
                  · intro p' q hq
                    rw [hasks, levelOrdersAtD_of_some _ _ _ hq]
                    exact .refl q
                  · intro ts hts tr htr
                    left
                    have : trades = ts := by injection hts
                    rw [this]; exact htr
              · rw [if_neg hg] at heq
                cases hlo : level.orders with
                | nil =>
                    simp only [hlo] at heq
                    obtain ⟨ihbids, ihkeys, ihwf, ihfields, ihbreak, ihnodup⟩ :=
                      ih { b with asks := rest } t tp trades b' t' r heq
                    refine ⟨ihbids, ?_, ?_, ihfields, ?_, ?_⟩
                    · rw [sideKeys_cons]
                      exact ihkeys.trans (List.suffix_cons p _)
                    · intro hwf
                      apply ihwf
                      obtain ⟨hb, ha⟩ := hwf
                      refine ⟨hb, ?_⟩
                      intro kl hkl
                      apply ha
                      rw [hasks]
                      exact List.mem_cons_of_mem _ hkl
                    · exact ihbreak
                    · intro hnd
                      rw [sideKeys_cons] at hnd
                      have hnd' : (sideKeys rest).Nodup := (List.nodup_cons.mp hnd).2
                      have hpnotin : p ∉ sideKeys rest := (List.nodup_cons.mp hnd).1
                      obtain ⟨ihfc, ihtr⟩ := ihnodup hnd'
                      refine ⟨?_, ?_⟩
                      · intro p' q hq
                        by_cases hp' : p' = p
                        · subst hp'
                          have hnone : assocGet b'.asks p' = none := by
                            apply assocGet_eq_none_of_not_mem
                            intro hmem
                            exact hpnotin (ihkeys.sublist.subset hmem)
                          rw [levelOrdersAtD_nil _ _ hnone]
                          exact .to_nil q
                        · have hq2 : levelOrdersAt rest p' = some q := by
                            unfold levelOrdersAt at hq ⊢
                            rwa [assocGet_cons_ne _ _ _ _ hp'] at hq
                          exact ihfc p' q hq2
                      · intro ts hts tr htr
                        rcases ihtr ts hts tr htr with hin |
                          ⟨⟨p', L', maker0, hgL, hmL, hid, huid, hpr⟩, hb2⟩
                        · exact Or.inl hin
                        · refine Or.inr ⟨⟨p', L', maker0, ?_, hmL, hid, huid, hpr⟩, hb2⟩
                          rw [hasks]
                          by_cases hp' : p' = p
                          · subst hp'
                            exact absurd (mem_sideKeys_of_assocGet _ _ _ hgL) hpnotin
                          · rwa [assocGet_cons_ne _ _ _ _ hp']
                | cons maker qtail =>
                    simp only [hlo] at heq
                    rcases hs : ({ b with asks :=
                        (p, PriceLevel.update_volume
                            { level with orders :=
                                maker.fill (min t.remaining_quantity maker.remaining_quantity)
                                  :: qtail }
                            (min t.remaining_quantity maker.remaining_quantity)) :: rest }).execute_trade_settlement
                      (Trade.new maker.id t.id maker.user_id t.user_id p
                        (min t.remaining_quantity maker.remaining_quantity))
                      OrderSide.Buy with ⟨b2, oe⟩
                    have hb2asks : b2.asks =
                        (p, PriceLevel.update_volume
                            { level with orders :=
                                maker.fill (min t.remaining_quantity maker.remaining_quantity)
                                  :: qtail }
                            (min t.remaining_quantity maker.remaining_quantity)) :: rest := by
                      have := settlement_asks ({ b with asks :=
                        (p, PriceLevel.update_volume
                            { level with orders :=
                                maker.fill (min t.remaining_quantity maker.remaining_quantity)
                                  :: qtail }
                            (min t.remaining_quantity maker.remaining_quantity)) :: rest })
                        (Trade.new maker.id t.id maker.user_id t.user_id p
                        (min t.remaining_quantity maker.remaining_quantity))
                        OrderSide.Buy
                      rw [hs] at this
                      exact this
                    have hb2bids : b2.bids = b.bids := by
                      have := settlement_bids ({ b with asks :=
                        (p, PriceLevel.update_volume
                            { level with orders :=
                                maker.fill (min t.remaining_quantity maker.remaining_quantity)
                                  :: qtail }
                            (min t.remaining_quantity maker.remaining_quantity)) :: rest })
                        (Trade.new maker.id t.id maker.user_id t.user_id p
                        (min t.remaining_quantity maker.remaining_quantity))
                        OrderSide.Buy
                      rw [hs] at this
                      exact this
                    have hsbr : SameButRem maker
                        (maker.fill (min t.remaining_quantity maker.remaining_quantity)) :=
                      ⟨rfl, rfl, rfl, rfl, rfl, rfl, Nat.sub_le _ _⟩
                    have hwfstep : booksWF b → booksWF b2 := by
                      intro hwf
                      obtain ⟨hbw, haw⟩ := hwf
                      constructor
                      · intro kl hkl
                        rw [hb2bids] at hkl
                        exact hbw kl hkl
                      · intro kl hkl
                        rw [hb2asks] at hkl
                        rcases List.mem_cons.mp hkl with rfl | h2
                        · exact levelWF_fill_front level maker qtail _ hlo
                            (Nat.min_le_right _ _)
                            (haw (p, level) (by rw [hasks]; exact List.mem_cons_self _ _))
                        · exact haw kl (by rw [hasks]; exact List.mem_cons_of_mem _ h2)
                    simp only [hs] at heq
                    cases oe with
                    | some e =>
                        injection heq with h1 heq
                        injection heq with h2 h3
                        subst h1; subst h2; subst h3
                        refine ⟨hb2bids, ?_, hwfstep, ⟨rfl, rfl, rfl, rfl, rfl⟩, ?_, ?_⟩
                        · rw [hb2asks, sideKeys_cons, sideKeys_cons]
                        · intro ts hcon; simp at hcon
                        · intro hnd
                          refine ⟨?_, ?_⟩
                          · intro p' q hq
                            by_cases hp' : p' = p
                            · subst hp'
                              have hq' : q = maker :: qtail := by
                                unfold levelOrdersAt at hq
                                rw [assocGet_cons_self] at hq
                                simp at hq
                                rw [← hq, hlo]
                              have hd : levelOrdersAtD b2.asks p' =
                                  maker.fill (min t.remaining_quantity
                                    maker.remaining_quantity) :: qtail := by
                                apply levelOrdersAtD_of_some
                                unfold levelOrdersAt
                                rw [hb2asks, assocGet_cons_self]
                                rfl
                              rw [hd, hq']
                              exact .reduce _ _ _ hsbr
                            · have hd : levelOrdersAtD b2.asks p' = levelOrdersAtD rest p' := by
                                unfold levelOrdersAtD
                                rw [hb2asks, assocGet_cons_ne _ _ _ _ hp']
                              have hq2 : levelOrdersAt rest p' = some q := by
                                unfold levelOrdersAt at hq ⊢
                                rwa [assocGet_cons_ne _ _ _ _ hp'] at hq
                              rw [hd, levelOrdersAtD_of_some _ _ _ hq2]
                              exact .refl q
                          · intro ts hcon; simp at hcon
                    | none =>
                        have hstep_trades : ∀ tr : Trade,
                            tr = Trade.new maker.id t.id maker.user_id t.user_id p
                              (min t.remaining_quantity maker.remaining_quantity) →
                            MakerAskTriple b tr ∧ tr.price ≤ tp := by
                          intro tr htr
                          subst htr
                          constructor
                          · refine ⟨p, level, maker, ?_, ?_, rfl, rfl, rfl⟩
                            · rw [hasks]; exact assocGet_cons_self _ _ _
                            · rw [hlo]; exact List.mem_cons_self _ _
                          · exact Nat.le_of_not_lt hg
                        cases hmf : (maker.fill
                            (min t.remaining_quantity maker.remaining_quantity)).is_fully_filled with
                        | true =>
                            simp only [hmf, PriceLevel.pop_if_filled, PriceLevel.update_volume,
                              PriceLevel.is_empty, if_true] at heq
                            cases hq : qtail with
                            | nil =>
                                simp only [hq, List.isEmpty, if_true] at heq
                                obtain ⟨ihbids, ihkeys, ihwf, ihfields, ihbreak, ihnodup⟩ :=
                                  ih _ _ _ _ b' t' r heq
                                refine ⟨ihbids.trans hb2bids, ?_, ?_, ihfields, ihbreak, ?_⟩
                                · rw [sideKeys_cons]
                                  exact ihkeys.trans (List.suffix_cons p _)
                                · intro hwf
                                  apply ihwf
                                  obtain ⟨hbw2, haw2⟩ := hwfstep hwf
                                  refine ⟨hbw2, ?_⟩
                                  intro kl hkl
                                  apply haw2
                                  rw [hb2asks]
                                  exact List.mem_cons_of_mem _ hkl
                                · intro hnd
                                  rw [sideKeys_cons] at hnd
                                  have hnd' : (sideKeys rest).Nodup := (List.nodup_cons.mp hnd).2
                                  have hpnotin : p ∉ sideKeys rest := (List.nodup_cons.mp hnd).1
                                  obtain ⟨ihfc, ihtr⟩ := ihnodup hnd'
                                  refine ⟨?_, ?_⟩
                                  · intro p' q hqq
                                    by_cases hp' : p' = p
                                    · subst hp'
                                      have hnone : assocGet b'.asks p' = none := by
                                        apply assocGet_eq_none_of_not_mem
                                        intro hmem
                                        exact hpnotin (ihkeys.sublist.subset hmem)
                                      rw [levelOrdersAtD_nil _ _ hnone]
                                      exact .to_nil q
                                    · have hq2 : levelOrdersAt rest p' = some q := by
                                        unfold levelOrdersAt at hqq ⊢
                                        rwa [assocGet_cons_ne _ _ _ _ hp'] at hqq
                                      exact ihfc p' q hq2
                                  · intro ts hts tr htr
                                    rcases ihtr ts hts tr htr with hin | ⟨hphi, hble⟩
                                    · rcases List.mem_append.mp hin with h | h
                                      · exact Or.inl h
                                      · right
                                        exact hstep_trades tr (List.mem_singleton.mp h)
                                    · right
                                      refine ⟨?_, hble⟩
                                      obtain ⟨p', L', maker0, hgL, hmL, hid, huid, hpr⟩ := hphi
                                      refine ⟨p', L', maker0, ?_, hmL, hid, huid, hpr⟩
                                      rw [hasks]
                                      by_cases hp' : p' = p
                                      · subst hp'
                                        exact absurd (mem_sideKeys_of_assocGet _ _ _ hgL) hpnotin
                                      · rwa [assocGet_cons_ne _ _ _ _ hp']
                            | cons q0 qrest =>
                                simp only [hq, List.isEmpty, Bool.false_eq_true, if_false] at heq
                                obtain ⟨ihbids, ihkeys, ihwf, ihfields, ihbreak, ihnodup⟩ :=
                                  ih _ _ _ _ b' t' r heq
                                refine ⟨ihbids.trans hb2bids, ?_, ?_, ihfields, ihbreak, ?_⟩
                                · rw [sideKeys_cons]
                                  refine ihkeys.trans ?_
                                  rw [sideKeys_cons]
                                · intro hwf
                                  apply ihwf
                                  obtain ⟨hbw2, haw2⟩ := hwfstep hwf
                                  refine ⟨hbw2, ?_⟩
                                  intro kl hkl
                                  rcases List.mem_cons.mp hkl with rfl | h2
                                  · have hWFlev := haw2 (p, PriceLevel.update_volume
                                        { level with orders :=
                                            maker.fill (min t.remaining_quantity
                                              maker.remaining_quantity) :: qtail }
                                        (min t.remaining_quantity maker.remaining_quantity))
                                      (by rw [hb2asks]; exact List.mem_cons_self _ _)
                                    have hmf0 : (maker.fill (min t.remaining_quantity
                                        maker.remaining_quantity)).remaining_quantity = 0 := by
                                      simpa [Order.is_fully_filled] using hmf
                                    unfold levelWF PriceLevel.update_volume at hWFlev
                                    unfold levelWF
                                    simp [hq] at hWFlev ⊢
                                    omega
                                  · exact haw2 kl (by rw [hb2asks]; exact List.mem_cons_of_mem _ h2)
                                · intro hnd
                                  have hnd2 : (sideKeys ((p, PriceLevel.update_volume
                                      { level with orders :=
                                          maker.fill (min t.remaining_quantity
                                            maker.remaining_quantity) :: qtail }
                                      (min t.remaining_quantity maker.remaining_quantity))
                                        :: rest)).Nodup := by
                                    rw [sideKeys_cons] at hnd ⊢
                                    exact hnd
                                  obtain ⟨ihfc, ihtr⟩ := ihnodup hnd2
                                  rw [sideKeys_cons] at hnd
                                  have hpnotin : p ∉ sideKeys rest := (List.nodup_cons.mp hnd).1
                                  refine ⟨?_, ?_⟩
                                  · intro p' q hqq
                                    by_cases hp' : p' = p
                                    · subst hp'
                                      have hq' : q = maker :: qtail := by
                                        unfold levelOrdersAt at hqq
                                        rw [assocGet_cons_self] at hqq
                                        simp at hqq
                                        rw [← hqq, hlo]
                                      have hstep : FrontConsumed q (q0 :: qrest) := by
                                        rw [hq', hq]
                                        exact .drop maker _ _ (.refl _)
                                      have hih := ihfc p' (q0 :: qrest) (by
                                        unfold levelOrdersAt
                                        rw [assocGet_cons_self]
                                        rfl)
                                      exact frontConsumed_trans hstep hih
                                    · have hq2 : levelOrdersAt ((p,
                                          { price := level.price, orders := q0 :: qrest,
                                            total_volume := level.total_volume -
                                              min t.remaining_quantity maker.remaining_quantity })
                                            :: rest) p' = some q := by
                                        unfold levelOrdersAt at hqq ⊢
                                        rw [assocGet_cons_ne _ _ _ _ hp'] at hqq
                                        rwa [assocGet_cons_ne _ _ _ _ hp']
                                      exact ihfc p' q hq2
                                  · intro ts hts tr htr
                                    rcases ihtr ts hts tr htr with hin | ⟨hphi, hble⟩
                                    · rcases List.mem_append.mp hin with h | h
                                      · exact Or.inl h
                                      · right
                                        exact hstep_trades tr (List.mem_singleton.mp h)
                                    · right
                                      refine ⟨?_, hble⟩
                                      obtain ⟨p', L', maker0, hgL, hmL, hid, huid, hpr⟩ := hphi
                                      by_cases hp' : p' = p
                                      · subst hp'
                                        rw [assocGet_cons_self] at hgL
                                        injection hgL with hgL
                                        refine ⟨p', level, maker0,
                                          by rw [hasks]; exact assocGet_cons_self _ _ _,
                                          ?_, hid, huid, hpr⟩
                                        rw [hlo]
                                        apply List.mem_cons_of_mem
                                        rw [hq]
                                        rw [← hgL] at hmL
                                        exact hmL
                                      · rw [assocGet_cons_ne _ _ _ _ hp'] at hgL
                                        refine ⟨p', L', maker0, ?_, hmL, hid, huid, hpr⟩
                                        rw [hasks]
                                        rwa [assocGet_cons_ne _ _ _ _ hp']
                        | false =>
                            simp only [hmf, PriceLevel.pop_if_filled, PriceLevel.update_volume,
                              PriceLevel.is_empty, List.isEmpty, Bool.false_eq_true,
                              if_false] at heq
                            obtain ⟨ihbids, ihkeys, ihwf, ihfields, ihbreak, ihnodup⟩ :=
                              ih _ _ _ _ b' t' r heq
                            refine ⟨ihbids.trans hb2bids, ?_, ?_, ihfields, ihbreak, ?_⟩
                            · rw [sideKeys_cons]
                              refine ihkeys.trans ?_
                              rw [sideKeys_cons]
                            · intro hwf
                              apply ihwf
                              obtain ⟨hbw2, haw2⟩ := hwfstep hwf
                              refine ⟨hbw2, ?_⟩
                              intro kl hkl
                              rcases List.mem_cons.mp hkl with rfl | h2
                              · exact haw2 _ (by rw [hb2asks]; exact List.mem_cons_self _ _)
                              · exact haw2 kl (by rw [hb2asks]; exact List.mem_cons_of_mem _ h2)
                            · intro hnd
                              have hnd2 : (sideKeys ((p, PriceLevel.update_volume
                                  { level with orders :=
                                      maker.fill (min t.remaining_quantity
                                        maker.remaining_quantity) :: qtail }
                                  (min t.remaining_quantity maker.remaining_quantity))
                                    :: rest)).Nodup := by
                                rw [sideKeys_cons] at hnd ⊢
                                exact hnd
                              obtain ⟨ihfc, ihtr⟩ := ihnodup hnd2
                              rw [sideKeys_cons] at hnd
                              have hpnotin : p ∉ sideKeys rest := (List.nodup_cons.mp hnd).1
                              refine ⟨?_, ?_⟩
                              · intro p' q hqq
                                by_cases hp' : p' = p
                                · subst hp'
                                  have hq' : q = maker :: qtail := by
                                    unfold levelOrdersAt at hqq
                                    rw [assocGet_cons_self] at hqq
                                    simp at hqq
                                    rw [← hqq, hlo]
                                  have hstep : FrontConsumed q
                                      (maker.fill (min t.remaining_quantity
                                        maker.remaining_quantity) :: qtail) := by
                                    rw [hq']
                                    exact .reduce _ _ _ hsbr
                                  have hih := ihfc p' (maker.fill (min t.remaining_quantity
                                      maker.remaining_quantity) :: qtail) (by
                                    unfold levelOrdersAt
                                    rw [assocGet_cons_self]
                                    rfl)
                                  exact frontConsumed_trans hstep hih
                                · have hq2 : levelOrdersAt ((p, PriceLevel.update_volume
                                      { level with orders :=
                                          maker.fill (min t.remaining_quantity
                                            maker.remaining_quantity) :: qtail }
                                      (min t.remaining_quantity maker.remaining_quantity))
                                        :: rest) p' = some q := by
                                    unfold levelOrdersAt at hqq ⊢
                                    rw [assocGet_cons_ne _ _ _ _ hp'] at hqq
                                    rwa [assocGet_cons_ne _ _ _ _ hp']
                                  exact ihfc p' q hq2
                              · intro ts hts tr htr
                                rcases ihtr ts hts tr htr with hin | ⟨hphi, hble⟩
                                · rcases List.mem_append.mp hin with h | h
                                  · exact Or.inl h
                                  · right
                                    exact hstep_trades tr (List.mem_singleton.mp h)
                                · right
                                  refine ⟨?_, hble⟩
                                  obtain ⟨p', L', maker0, hgL, hmL, hid, huid, hpr⟩ := hphi
                                  by_cases hp' : p' = p
                                  · subst hp'
                                    rw [assocGet_cons_self] at hgL
                                    injection hgL with hgL
                                    refine ⟨p', level, ?_⟩
                                    rw [← hgL] at hmL
                                    simp only [PriceLevel.update_volume] at hmL
                                    have hmL2 : maker0 ∈ maker.fill (min t.remaining_quantity
                                        maker.remaining_quantity) :: qtail := hmL
                                    rcases List.mem_cons.mp hmL2 with rfl | h2
                                    · exact ⟨maker, by rw [hasks]; exact assocGet_cons_self _ _ _,
                                        by rw [hlo]; exact List.mem_cons_self _ _, hid, huid, hpr⟩
                                    · exact ⟨maker0, by rw [hasks]; exact assocGet_cons_self _ _ _,
                                        by rw [hlo]; exact List.mem_cons_of_mem _ h2,
                                        hid, huid, hpr⟩
                                  · rw [assocGet_cons_ne _ _ _ _ hp'] at hgL
                                    refine ⟨p', L', maker0, ?_, hmL, hid, huid, hpr⟩
                                    rw [hasks]
                                    rwa [assocGet_cons_ne _ _ _ _ hp']

theorem limitSellLoop_spec : ∀ (fuel : Nat) (b : OrderBook) (t : Order) (tp : Nat)
    (trades : List Trade) (b' : OrderBook) (t' : Order) (r : Except String (List Trade)),
    matchLimitSellLoop fuel b t tp trades = (b', t', r) →
    (b'.asks = b.asks ∧
     sideKeys b'.bids <:+ sideKeys b.bids ∧
     (booksWF b → booksWF b') ∧
     (t'.side = t.side ∧ t'.order_type = t.order_type ∧ t'.price = t.price ∧
      t'.id = t.id ∧ t'.user_id = t.user_id) ∧
     (∀ ts, r = .ok ts → t'.remaining_quantity ≠ 0 →
        ∀ k L rest2, b'.bids = (k, L) :: rest2 → k < tp) ∧
     ((sideKeys b.bids).Nodup →
        (∀ p q, levelOrdersAt b.bids p = some q →
           FrontConsumed q (levelOrdersAtD b'.bids p)) ∧
        (∀ ts, r = .ok ts → ∀ tr ∈ ts,
           tr ∈ trades ∨ (MakerBidTriple b tr ∧ tp ≤ tr.price)))) := by
  intro fuel
  induction fuel with
  | zero =>
      intro b t tp trades b' t' r heq
      simp only [matchLimitSellLoop] at heq
      injection heq with h1 heq
      injection heq with h2 h3
      subst h1; subst h2; subst h3
      refine ⟨rfl, List.suffix_refl _, fun h => h, ⟨rfl, rfl, rfl, rfl, rfl⟩, ?_, ?_⟩
      · intro ts hcon; simp at hcon
      · intro _
        refine ⟨?_, ?_⟩
        · intro p q hq
          rw [levelOrdersAtD_of_some _ _ _ hq]
          exact .refl q
        · intro ts hcon; simp at hcon
  | succ n ih =>
      intro b t tp trades b' t' r heq
      cases ht : t.is_fully_filled with
      | true =>
          simp only [matchLimitSellLoop, ht, if_true] at heq
          injection heq with h1 heq
          injection heq with h2 h3
          subst h1; subst h2; subst h3
          have hrem0 : t.remaining_quantity = 0 := by
            simpa [Order.is_fully_filled] using ht
          refine ⟨rfl, List.suffix_refl _, fun h => h, ⟨rfl, rfl, rfl, rfl, rfl⟩, ?_, ?_⟩
          · intro ts _ hne
            exact absurd hrem0 hne
          · intro _
            refine ⟨?_, ?_⟩
            · intro p q hq
              rw [levelOrdersAtD_of_some _ _ _ hq]
              exact .refl q
            · intro ts hts tr htr
              left
              have : trades = ts := by injection hts
              rw [this]; exact htr
      | false =>
          have hrem : t.remaining_quantity ≠ 0 := by
            simpa [Order.is_fully_filled] using ht
          cases hbids : b.bids with
          | nil =>
              simp only [matchLimitSellLoop, ht, hbids] at heq
              injection heq with h1 heq
              injection heq with h2 h3
              subst h1; subst h2; subst h3
              refine ⟨rfl, by rw [hbids], fun h => h,
                ⟨rfl, rfl, rfl, rfl, rfl⟩, ?_, ?_⟩
              · intro ts _ _ k L rest2 hcon
                rw [hbids] at hcon
                simp at hcon
              · intro _
                refine ⟨?_, ?_⟩
                · intro p q hq
                  simp [levelOrdersAt, assocGet] at hq
                · intro ts hts tr htr
                  left
                  have : trades = ts := by injection hts
                  rw [this]; exact htr
          | cons hd rest =>
              obtain ⟨p, level⟩ := hd
              simp only [matchLimitSellLoop, ht, Bool.false_eq_true, if_false, hbids] at heq
              by_cases hg : p < tp
              · rw [if_pos hg] at heq
                injection heq with h1 heq
                injection heq with h2 h3
                subst h1; subst h2; subst h3
                refine ⟨rfl, by rw [hbids], fun h => h,
                  ⟨rfl, rfl, rfl, rfl, rfl⟩, ?_, ?_⟩
                · intro ts _ _ k L rest2 hcon
                  rw [hbids] at hcon
                  injection hcon with hkl hrest
                  injection hkl with hk hl
                  rw [← hk]
                  exact hg
                · intro _
                  refine ⟨?_, ?_⟩
                  · intro p' q hq
                    rw [hbids, levelOrdersAtD_of_some _ _ _ hq]
                    exact .refl q
                  · intro ts hts tr htr
                    left
                    have : trades = ts := by injection hts
                    rw [this]; exact htr
              · rw [if_neg hg] at heq
                cases hlo : level.orders with
                | nil =>
                    simp only [hlo] at heq
                    obtain ⟨ihbids, ihkeys, ihwf, ihfields, ihbreak, ihnodup⟩ :=
                      ih { b with bids := rest } t tp trades b' t' r heq
                    refine ⟨ihbids, ?_, ?_, ihfields, ?_, ?_⟩
                    · rw [sideKeys_cons]
                      exact ihkeys.trans (List.suffix_cons p _)
                    · intro hwf
                      apply ihwf
                      obtain ⟨hb, ha⟩ := hwf
                      refine ⟨?_, ha⟩
                      intro kl hkl
                      apply hb
                      rw [hbids]
                      exact List.mem_cons_of_mem _ hkl
                    · exact ihbreak
                    · intro hnd
                      rw [sideKeys_cons] at hnd
                      have hnd' : (sideKeys rest).Nodup := (List.nodup_cons.mp hnd).2
                      have hpnotin : p ∉ sideKeys rest := (List.nodup_cons.mp hnd).1
                      obtain ⟨ihfc, ihtr⟩ := ihnodup hnd'
                      refine ⟨?_, ?_⟩
                      · intro p' q hq
                        by_cases hp' : p' = p
                        · subst hp'
                          have hnone : assocGet b'.bids p' = none := by
                            apply assocGet_eq_none_of_not_mem
                            intro hmem
                            exact hpnotin (ihkeys.sublist.subset hmem)
                          rw [levelOrdersAtD_nil _ _ hnone]
                          exact .to_nil q
                        · have hq2 : levelOrdersAt rest p' = some q := by
                            unfold levelOrdersAt at hq ⊢
                            rwa [assocGet_cons_ne _ _ _ _ hp'] at hq
                          exact ihfc p' q hq2
                      · intro ts hts tr htr
                        rcases ihtr ts hts tr htr with hin |
                          ⟨⟨p', L', maker0, hgL, hmL, hid, huid, hpr⟩, hb2⟩
                        · exact Or.inl hin
                        · refine Or.inr ⟨⟨p', L', maker0, ?_, hmL, hid, huid, hpr⟩, hb2⟩
                          rw [hbids]
                          by_cases hp' : p' = p
                          · subst hp'
                            exact absurd (mem_sideKeys_of_assocGet _ _ _ hgL) hpnotin
                          · rwa [assocGet_cons_ne _ _ _ _ hp']
                | cons maker qtail =>
                    simp only [hlo] at heq
                    rcases hs : ({ b with bids :=
                        (p, PriceLevel.update_volume
                            { level with orders :=
                                maker.fill (min t.remaining_quantity maker.remaining_quantity)
                                  :: qtail }
                            (min t.remaining_quantity maker.remaining_quantity)) :: rest }).execute_trade_settlement
                      (Trade.new maker.id t.id maker.user_id t.user_id p
                        (min t.remaining_quantity maker.remaining_quantity))
                      OrderSide.Sell with ⟨b2, oe⟩
                    have hb2bids : b2.bids =
                        (p, PriceLevel.update_volume
                            { level with orders :=
                                maker.fill (min t.remaining_quantity maker.remaining_quantity)
                                  :: qtail }
                            (min t.remaining_quantity maker.remaining_quantity)) :: rest := by
                      have := settlement_bids ({ b with bids :=
                        (p, PriceLevel.update_volume
                            { level with orders :=
                                maker.fill (min t.remaining_quantity maker.remaining_quantity)
                                  :: qtail }
                            (min t.remaining_quantity maker.remaining_quantity)) :: rest })
                        (Trade.new maker.id t.id maker.user_id t.user_id p
                        (min t.remaining_quantity maker.remaining_quantity))
                        OrderSide.Sell
                      rw [hs] at this
                      exact this
                    have hb2asks : b2.asks = b.asks := by
                      have := settlement_asks ({ b with bids :=
                        (p, PriceLevel.update_volume
                            { level with orders :=
                                maker.fill (min t.remaining_quantity maker.remaining_quantity)
                                  :: qtail }
                            (min t.remaining_quantity maker.remaining_quantity)) :: rest })
                        (Trade.new maker.id t.id maker.user_id t.user_id p
                        (min t.remaining_quantity maker.remaining_quantity))
                        OrderSide.Sell
                      rw [hs] at this
                      exact this
                    have hsbr : SameButRem maker
                        (maker.fill (min t.remaining_quantity maker.remaining_quantity)) :=
                      ⟨rfl, rfl, rfl, rfl, rfl, rfl, Nat.sub_le _ _⟩
                    have hwfstep : booksWF b → booksWF b2 := by
                      intro hwf
                      obtain ⟨hbw, haw⟩ := hwf
                      constructor
                      · intro kl hkl
                        rw [hb2bids] at hkl
                        rcases List.mem_cons.mp hkl with rfl | h2
                        · exact levelWF_fill_front level maker qtail _ hlo
                            (Nat.min_le_right _ _)
                            (hbw (p, level) (by rw [hbids]; exact List.mem_cons_self _ _))
                        · exact hbw kl (by rw [hbids]; exact List.mem_cons_of_mem _ h2)
                      · intro kl hkl
                        rw [hb2asks] at hkl
                        exact haw kl hkl
                    simp only [hs] at heq
                    cases oe with
                    | some e =>
                        injection heq with h1 heq
                        injection heq with h2 h3
                        subst h1; subst h2; subst h3
                        refine ⟨hb2asks, ?_, hwfstep, ⟨rfl, rfl, rfl, rfl, rfl⟩, ?_, ?_⟩
                        · rw [hb2bids, sideKeys_cons, sideKeys_cons]
                        · intro ts hcon; simp at hcon
                        · intro hnd
                          refine ⟨?_, ?_⟩
                          · intro p' q hq
                            by_cases hp' : p' = p
                            · subst hp'
                              have hq' : q = maker :: qtail := by
                                unfold levelOrdersAt at hq
                                rw [assocGet_cons_self] at hq
                                simp at hq
                                rw [← hq, hlo]
                              have hd : levelOrdersAtD b2.bids p' =
                                  maker.fill (min t.remaining_quantity
                                    maker.remaining_quantity) :: qtail := by
                                apply levelOrdersAtD_of_some
                                unfold levelOrdersAt
                                rw [hb2bids, assocGet_cons_self]
                                rfl
                              rw [hd, hq']
                              exact .reduce _ _ _ hsbr
                            · have hd : levelOrdersAtD b2.bids p' = levelOrdersAtD rest p' := by
                                unfold levelOrdersAtD
                                rw [hb2bids, assocGet_cons_ne _ _ _ _ hp']
                              have hq2 : levelOrdersAt rest p' = some q := by
                                unfold levelOrdersAt at hq ⊢
                                rwa [assocGet_cons_ne _ _ _ _ hp'] at hq
                              rw [hd, levelOrdersAtD_of_some _ _ _ hq2]
                              exact .refl q
                          · intro ts hcon; simp at hcon
                    | none =>
                        have hstep_trades : ∀ tr : Trade,
                            tr = Trade.new maker.id t.id maker.user_id t.user_id p
                              (min t.remaining_quantity maker.remaining_quantity) →
                            MakerBidTriple b tr ∧ tp ≤ tr.price := by
                          intro tr htr
                          subst htr
                          constructor
                          · refine ⟨p, level, maker, ?_, ?_, rfl, rfl, rfl⟩
                            · rw [hbids]; exact assocGet_cons_self _ _ _
                            · rw [hlo]; exact List.mem_cons_self _ _
                          · exact Nat.le_of_not_lt hg
                        cases hmf : (maker.fill
                            (min t.remaining_quantity maker.remaining_quantity)).is_fully_filled with
                        | true =>
                            simp only [hmf, PriceLevel.pop_if_filled, PriceLevel.update_volume,
                              PriceLevel.is_empty, if_true] at heq
                            cases hq : qtail with
                            | nil =>
                                simp only [hq, List.isEmpty, if_true] at heq
                                obtain ⟨ihbids, ihkeys, ihwf, ihfields, ihbreak, ihnodup⟩ :=
                                  ih _ _ _ _ b' t' r heq
                                refine ⟨ihbids.trans hb2asks, ?_, ?_, ihfields, ihbreak, ?_⟩
                                · rw [sideKeys_cons]
                                  exact ihkeys.trans (List.suffix_cons p _)
                                · intro hwf
                                  apply ihwf
                                  obtain ⟨hbw2, haw2⟩ := hwfstep hwf
                                  refine ⟨?_, haw2⟩
                                  intro kl hkl
                                  apply hbw2
                                  rw [hb2bids]
                                  exact List.mem_cons_of_mem _ hkl
                                · intro hnd
                                  rw [sideKeys_cons] at hnd
                                  have hnd' : (sideKeys rest).Nodup := (List.nodup_cons.mp hnd).2
                                  have hpnotin : p ∉ sideKeys rest := (List.nodup_cons.mp hnd).1
                                  obtain ⟨ihfc, ihtr⟩ := ihnodup hnd'
                                  refine ⟨?_, ?_⟩
                                  · intro p' q hqq
                                    by_cases hp' : p' = p
                                    · subst hp'
                                      have hnone : assocGet b'.bids p' = none := by
                                        apply assocGet_eq_none_of_not_mem
                                        intro hmem
                                        exact hpnotin (ihkeys.sublist.subset hmem)
                                      rw [levelOrdersAtD_nil _ _ hnone]
                                      exact .to_nil q
                                    · have hq2 : levelOrdersAt rest p' = some q := by
                                        unfold levelOrdersAt at hqq ⊢
                                        rwa [assocGet_cons_ne _ _ _ _ hp'] at hqq
                                      exact ihfc p' q hq2
                                  · intro ts hts tr htr
                                    rcases ihtr ts hts tr htr with hin | ⟨hphi, hble⟩
                                    · rcases List.mem_append.mp hin with h | h
                                      · exact Or.inl h
                                      · right
                                        exact hstep_trades tr (List.mem_singleton.mp h)
                                    · right
                                      refine ⟨?_, hble⟩
                                      obtain ⟨p', L', maker0, hgL, hmL, hid, huid, hpr⟩ := hphi
                                      refine ⟨p', L', maker0, ?_, hmL, hid, huid, hpr⟩
                                      rw [hbids]
                                      by_cases hp' : p' = p
                                      · subst hp'
                                        exact absurd (mem_sideKeys_of_assocGet _ _ _ hgL) hpnotin
                                      · rwa [assocGet_cons_ne _ _ _ _ hp']
                            | cons q0 qrest =>
                                simp only [hq, List.isEmpty, Bool.false_eq_true, if_false] at heq
                                obtain ⟨ihbids, ihkeys, ihwf, ihfields, ihbreak, ihnodup⟩ :=
                                  ih _ _ _ _ b' t' r heq
                                refine ⟨ihbids.trans hb2asks, ?_, ?_, ihfields, ihbreak, ?_⟩
                                · rw [sideKeys_cons]
                                  refine ihkeys.trans ?_
                                  rw [sideKeys_cons]
                                · intro hwf
                                  apply ihwf
                                  obtain ⟨hbw2, haw2⟩ := hwfstep hwf
                                  refine ⟨?_, haw2⟩
                                  intro kl hkl
                                  rcases List.mem_cons.mp hkl with rfl | h2
                                  · have hWFlev := hbw2 (p, PriceLevel.update_volume
                                        { level with orders :=
                                            maker.fill (min t.remaining_quantity
                                              maker.remaining_quantity) :: qtail }
                                        (min t.remaining_quantity maker.remaining_quantity))
                                      (by rw [hb2bids]; exact List.mem_cons_self _ _)
                                    have hmf0 : (maker.fill (min t.remaining_quantity
                                        maker.remaining_quantity)).remaining_quantity = 0 := by
                                      simpa [Order.is_fully_filled] using hmf
                                    unfold levelWF PriceLevel.update_volume at hWFlev
                                    unfold levelWF
                                    simp [hq] at hWFlev ⊢
                                    omega
                                  · exact hbw2 kl (by rw [hb2bids]; exact List.mem_cons_of_mem _ h2)
                                · intro hnd
                                  have hnd2 : (sideKeys ((p, PriceLevel.update_volume
                                      { level with orders :=
                                          maker.fill (min t.remaining_quantity
                                            maker.remaining_quantity) :: qtail }
                                      (min t.remaining_quantity maker.remaining_quantity))
                                        :: rest)).Nodup := by
                                    rw [sideKeys_cons] at hnd ⊢
                                    exact hnd
                                  obtain ⟨ihfc, ihtr⟩ := ihnodup hnd2
                                  rw [sideKeys_cons] at hnd
                                  have hpnotin : p ∉ sideKeys rest := (List.nodup_cons.mp hnd).1
                                  refine ⟨?_, ?_⟩
                                  · intro p' q hqq
                                    by_cases hp' : p' = p
                                    · subst hp'
                                      have hq' : q = maker :: qtail := by
                                        unfold levelOrdersAt at hqq
                                        rw [assocGet_cons_self] at hqq
                                        simp at hqq
                                        rw [← hqq, hlo]
                                      have hstep : FrontConsumed q (q0 :: qrest) := by
                                        rw [hq', hq]
                                        exact .drop maker _ _ (.refl _)
                                      have hih := ihfc p' (q0 :: qrest) (by
                                        unfold levelOrdersAt
                                        rw [assocGet_cons_self]
                                        rfl)
                                      exact frontConsumed_trans hstep hih
                                    · have hq2 : levelOrdersAt ((p,
                                          { price := level.price, orders := q0 :: qrest,
                                            total_volume := level.total_volume -
                                              min t.remaining_quantity maker.remaining_quantity })
                                            :: rest) p' = some q := by
                                        unfold levelOrdersAt at hqq ⊢
                                        rw [assocGet_cons_ne _ _ _ _ hp'] at hqq
                                        rwa [assocGet_cons_ne _ _ _ _ hp']
                                      exact ihfc p' q hq2
                                  · intro ts hts tr htr
                                    rcases ihtr ts hts tr htr with hin | ⟨hphi, hble⟩
                                    · rcases List.mem_append.mp hin with h | h
                                      · exact Or.inl h
                                      · right
                                        exact hstep_trades tr (List.mem_singleton.mp h)
                                    · right
                                      refine ⟨?_, hble⟩
                                      obtain ⟨p', L', maker0, hgL, hmL, hid, huid, hpr⟩ := hphi
                                      by_cases hp' : p' = p
                                      · subst hp'
                                        rw [assocGet_cons_self] at hgL
                                        injection hgL with hgL
                                        refine ⟨p', level, maker0,
                                          by rw [hbids]; exact assocGet_cons_self _ _ _,
                                          ?_, hid, huid, hpr⟩
                                        rw [hlo]
                                        apply List.mem_cons_of_mem
                                        rw [hq]
                                        rw [← hgL] at hmL
                                        exact hmL
                                      · rw [assocGet_cons_ne _ _ _ _ hp'] at hgL
                                        refine ⟨p', L', maker0, ?_, hmL, hid, huid, hpr⟩
                                        rw [hbids]
                                        rwa [assocGet_cons_ne _ _ _ _ hp']
                        | false =>
                            simp only [hmf, PriceLevel.pop_if_filled, PriceLevel.update_volume,
                              PriceLevel.is_empty, List.isEmpty, Bool.false_eq_true,
                              if_false] at heq
                            obtain ⟨ihbids, ihkeys, ihwf, ihfields, ihbreak, ihnodup⟩ :=
                              ih _ _ _ _ b' t' r heq
                            refine ⟨ihbids.trans hb2asks, ?_, ?_, ihfields, ihbreak, ?_⟩
                            · rw [sideKeys_cons]
                              refine ihkeys.trans ?_
                              rw [sideKeys_cons]
                            · intro hwf
                              apply ihwf
                              obtain ⟨hbw2, haw2⟩ := hwfstep hwf
                              refine ⟨?_, haw2⟩
                              intro kl hkl
                              rcases List.mem_cons.mp hkl with rfl | h2
                              · exact hbw2 _ (by rw [hb2bids]; exact List.mem_cons_self _ _)
                              · exact hbw2 kl (by rw [hb2bids]; exact List.mem_cons_of_mem _ h2)
                            · intro hnd
                              have hnd2 : (sideKeys ((p, PriceLevel.update_volume
                                  { level with orders :=
                                      maker.fill (min t.remaining_quantity
                                        maker.remaining_quantity) :: qtail }
                                  (min t.remaining_quantity maker.remaining_quantity))
                                    :: rest)).Nodup := by
                                rw [sideKeys_cons] at hnd ⊢
                                exact hnd
                              obtain ⟨ihfc, ihtr⟩ := ihnodup hnd2
                              rw [sideKeys_cons] at hnd
                              have hpnotin : p ∉ sideKeys rest := (List.nodup_cons.mp hnd).1
                              refine ⟨?_, ?_⟩
                              · intro p' q hqq
                                by_cases hp' : p' = p
                                · subst hp'
                                  have hq' : q = maker :: qtail := by
                                    unfold levelOrdersAt at hqq
                                    rw [assocGet_cons_self] at hqq
                                    simp at hqq
                                    rw [← hqq, hlo]
                                  have hstep : FrontConsumed q
                                      (maker.fill (min t.remaining_quantity
                                        maker.remaining_quantity) :: qtail) := by
                                    rw [hq']
                                    exact .reduce _ _ _ hsbr
                                  have hih := ihfc p' (maker.fill (min t.remaining_quantity
                                      maker.remaining_quantity) :: qtail) (by
                                    unfold levelOrdersAt
                                    rw [assocGet_cons_self]
                                    rfl)
                                  exact frontConsumed_trans hstep hih
                                · have hq2 : levelOrdersAt ((p, PriceLevel.update_volume
                                      { level with orders :=
                                          maker.fill (min t.remaining_quantity
                                            maker.remaining_quantity) :: qtail }
                                      (min t.remaining_quantity maker.remaining_quantity))
                                        :: rest) p' = some q := by
                                    unfold levelOrdersAt at hqq ⊢
                                    rw [assocGet_cons_ne _ _ _ _ hp'] at hqq
                                    rwa [assocGet_cons_ne _ _ _ _ hp']
                                  exact ihfc p' q hq2
                              · intro ts hts tr htr
                                rcases ihtr ts hts tr htr with hin | ⟨hphi, hble⟩
                                · rcases List.mem_append.mp hin with h | h
                                  · exact Or.inl h
                                  · right
                                    exact hstep_trades tr (List.mem_singleton.mp h)
                                · right
                                  refine ⟨?_, hble⟩
                                  obtain ⟨p', L', maker0, hgL, hmL, hid, huid, hpr⟩ := hphi
                                  by_cases hp' : p' = p
                                  · subst hp'
                                    rw [assocGet_cons_self] at hgL
                                    injection hgL with hgL
                                    refine ⟨p', level, ?_⟩
                                    rw [← hgL] at hmL
                                    simp only [PriceLevel.update_volume] at hmL
                                    have hmL2 : maker0 ∈ maker.fill (min t.remaining_quantity
                                        maker.remaining_quantity) :: qtail := hmL
                                    rcases List.mem_cons.mp hmL2 with rfl | h2
                                    · exact ⟨maker, by rw [hbids]; exact assocGet_cons_self _ _ _,
                                        by rw [hlo]; exact List.mem_cons_self _ _, hid, huid, hpr⟩
                                    · exact ⟨maker0, by rw [hbids]; exact assocGet_cons_self _ _ _,
                                        by rw [hlo]; exact List.mem_cons_of_mem _ h2,
                                        hid, huid, hpr⟩
                                  · rw [assocGet_cons_ne _ _ _ _ hp'] at hgL
                                    refine ⟨p', L', maker0, ?_, hmL, hid, huid, hpr⟩
                                    rw [hbids]
                                    rwa [assocGet_cons_ne _ _ _ _ hp']
theorem marketBuyLoop_spec : ∀ (fuel : Nat) (b : OrderBook) (t : Order)
    (trades : List Trade) (b' : OrderBook) (t' : Order) (r : Except String (List Trade)),
    matchMarketBuyLoop fuel b t trades = (b', t', r) →
    (b'.bids = b.bids ∧
     sideKeys b'.asks <:+ sideKeys b.asks ∧
     (booksWF b → booksWF b') ∧
     ((sideKeys b.asks).Nodup →
        (∀ p q, levelOrdersAt b.asks p = some q →
           FrontConsumed q (levelOrdersAtD b'.asks p)) ∧
        (∀ ts, r = .ok ts → ∀ tr ∈ ts, tr ∈ trades ∨ MakerAskTriple b tr))) := by
  intro fuel
  induction fuel with
  | zero =>
      intro b t trades b' t' r heq
      simp only [matchMarketBuyLoop] at heq
      injection heq with h1 heq
      injection heq with h2 h3
      subst h1; subst h2; subst h3
      refine ⟨rfl, List.suffix_refl _, fun h => h, ?_⟩
      intro _
      refine ⟨?_, ?_⟩
      · intro p q hq
        rw [levelOrdersAtD_of_some _ _ _ hq]
        exact .refl q
      · intro ts hcon; simp at hcon
  | succ n ih =>
      intro b t trades b' t' r heq
      cases ht : t.is_fully_filled with
      | true =>
          simp only [matchMarketBuyLoop, ht, if_true] at heq
          injection heq with h1 heq
          injection heq with h2 h3
          subst h1; subst h2; subst h3
          have hrem0 : t.remaining_quantity = 0 := by
            simpa [Order.is_fully_filled] using ht
          refine ⟨rfl, List.suffix_refl _, fun h => h, ?_⟩
          intro _
          refine ⟨?_, ?_⟩
          · intro p q hq
            rw [levelOrdersAtD_of_some _ _ _ hq]
            exact .refl q
          · intro ts hts tr htr
            left
            have : trades = ts := by injection hts
            rw [this]; exact htr
      | false =>
          have hrem : t.remaining_quantity ≠ 0 := by
            simpa [Order.is_fully_filled] using ht
          cases hasks : b.asks with
          | nil =>
              simp only [matchMarketBuyLoop, ht, hasks] at heq
              injection heq with h1 heq
              injection heq with h2 h3
              subst h1; subst h2; subst h3
              refine ⟨rfl, by rw [hasks], fun h => h, ?_⟩
              intro _
              refine ⟨?_, ?_⟩
              · intro p q hq
                simp [levelOrdersAt, assocGet] at hq
              · intro ts hcon; simp at hcon
          | cons hd rest =>
              obtain ⟨p, level⟩ := hd
              simp only [matchMarketBuyLoop, ht, Bool.false_eq_true, if_false, hasks] at heq
              cases hlo : level.orders with
                | nil =>
                    simp only [hlo] at heq
                    obtain ⟨ihbids, ihkeys, ihwf, ihnodup⟩ :=
                      ih { b with asks := rest } t trades b' t' r heq
                    refine ⟨ihbids, ?_, ?_, ?_⟩
                    · rw [sideKeys_cons]
                      exact ihkeys.trans (List.suffix_cons p _)
                    · intro hwf
                      apply ihwf
                      obtain ⟨hb, ha⟩ := hwf
                      refine ⟨hb, ?_⟩
                      intro kl hkl
                      apply ha
                      rw [hasks]
                      exact List.mem_cons_of_mem _ hkl
                    · intro hnd
                      rw [sideKeys_cons] at hnd
                      have hnd' : (sideKeys rest).Nodup := (List.nodup_cons.mp hnd).2
                      have hpnotin : p ∉ sideKeys rest := (List.nodup_cons.mp hnd).1
                      obtain ⟨ihfc, ihtr⟩ := ihnodup hnd'
                      refine ⟨?_, ?_⟩
                      · intro p' q hq
                        by_cases hp' : p' = p
                        · subst hp'
                          have hnone : assocGet b'.asks p' = none := by
                            apply assocGet_eq_none_of_not_mem
                            intro hmem
                            exact hpnotin (ihkeys.sublist.subset hmem)
                          rw [levelOrdersAtD_nil _ _ hnone]
                          exact .to_nil q
                        · have hq2 : levelOrdersAt rest p' = some q := by
                            unfold levelOrdersAt at hq ⊢
                            rwa [assocGet_cons_ne _ _ _ _ hp'] at hq
                          exact ihfc p' q hq2
                      · intro ts hts tr htr
                        rcases ihtr ts hts tr htr with hin |
                          ⟨p', L', maker0, hgL, hmL, hid, huid, hpr⟩
                        · exact Or.inl hin
                        · refine Or.inr ⟨p', L', maker0, ?_, hmL, hid, huid, hpr⟩
                          rw [hasks]
                          by_cases hp' : p' = p
                          · subst hp'
                            exact absurd (mem_sideKeys_of_assocGet _ _ _ hgL) hpnotin
                          · rwa [assocGet_cons_ne _ _ _ _ hp']
                | cons maker qtail =>
                    simp only [hlo] at heq
                    rcases hs : ({ b with asks :=
                        (p, PriceLevel.update_volume
                            { level with orders :=
                                maker.fill (min t.remaining_quantity maker.remaining_quantity)
                                  :: qtail }
                            (min t.remaining_quantity maker.remaining_quantity)) :: rest }).execute_trade_settlement
                      (Trade.new maker.id t.id maker.user_id t.user_id p
                        (min t.remaining_quantity maker.remaining_quantity))
                      OrderSide.Buy with ⟨b2, oe⟩
                    have hb2asks : b2.asks =
                        (p, PriceLevel.update_volume
                            { level with orders :=
                                maker.fill (min t.remaining_quantity maker.remaining_quantity)
                                  :: qtail }
                            (min t.remaining_quantity maker.remaining_quantity)) :: rest := by
                      have := settlement_asks ({ b with asks :=
                        (p, PriceLevel.update_volume
                            { level with orders :=
                                maker.fill (min t.remaining_quantity maker.remaining_quantity)
                                  :: qtail }
                            (min t.remaining_quantity maker.remaining_quantity)) :: rest })
                        (Trade.new maker.id t.id maker.user_id t.user_id p
                        (min t.remaining_quantity maker.remaining_quantity))
                        OrderSide.Buy
                      rw [hs] at this
                      exact this
                    have hb2bids : b2.bids = b.bids := by
                      have := settlement_bids ({ b with asks :=
                        (p, PriceLevel.update_volume
                            { level with orders :=
                                maker.fill (min t.remaining_quantity maker.remaining_quantity)
                                  :: qtail }
                            (min t.remaining_quantity maker.remaining_quantity)) :: rest })
                        (Trade.new maker.id t.id maker.user_id t.user_id p
                        (min t.remaining_quantity maker.remaining_quantity))
                        OrderSide.Buy
                      rw [hs] at this
                      exact this
                    have hsbr : SameButRem maker
                        (maker.fill (min t.remaining_quantity maker.remaining_quantity)) :=
                      ⟨rfl, rfl, rfl, rfl, rfl, rfl, Nat.sub_le _ _⟩
                    have hwfstep : booksWF b → booksWF b2 := by
                      intro hwf
                      obtain ⟨hbw, haw⟩ := hwf
                      constructor
                      · intro kl hkl
                        rw [hb2bids] at hkl
                        exact hbw kl hkl
                      · intro kl hkl
                        rw [hb2asks] at hkl
                        rcases List.mem_cons.mp hkl with rfl | h2
                        · exact levelWF_fill_front level maker qtail _ hlo
                            (Nat.min_le_right _ _)
                            (haw (p, level) (by rw [hasks]; exact List.mem_cons_self _ _))
                        · exact haw kl (by rw [hasks]; exact List.mem_cons_of_mem _ h2)
                    simp only [hs] at heq
                    cases oe with
                    | some e =>
                        injection heq with h1 heq
                        injection heq with h2 h3
                        subst h1; subst h2; subst h3
                        refine ⟨hb2bids, ?_, hwfstep, ?_⟩
                        · rw [hb2asks, sideKeys_cons, sideKeys_cons]
                        · intro hnd
                          refine ⟨?_, ?_⟩
                          · intro p' q hq
                            by_cases hp' : p' = p
                            · subst hp'
                              have hq' : q = maker :: qtail := by
                                unfold levelOrdersAt at hq
                                rw [assocGet_cons_self] at hq
                                simp at hq
                                rw [← hq, hlo]
                              have hd : levelOrdersAtD b2.asks p' =
                                  maker.fill (min t.remaining_quantity
                                    maker.remaining_quantity) :: qtail := by
                                apply levelOrdersAtD_of_some
                                unfold levelOrdersAt
                                rw [hb2asks, assocGet_cons_self]
                                rfl
                              rw [hd, hq']
                              exact .reduce _ _ _ hsbr
                            · have hd : levelOrdersAtD b2.asks p' = levelOrdersAtD rest p' := by
                                unfold levelOrdersAtD
                                rw [hb2asks, assocGet_cons_ne _ _ _ _ hp']
                              have hq2 : levelOrdersAt rest p' = some q := by
                                unfold levelOrdersAt at hq ⊢
                                rwa [assocGet_cons_ne _ _ _ _ hp'] at hq
                              rw [hd, levelOrdersAtD_of_some _ _ _ hq2]
                              exact .refl q
                          · intro ts hcon; simp at hcon
                    | none =>
                        have hstep_trades : ∀ tr : Trade,
                            tr = Trade.new maker.id t.id maker.user_id t.user_id p
                              (min t.remaining_quantity maker.remaining_quantity) →
                            MakerAskTriple b tr := by
                          intro tr htr
                          subst htr
                          refine ⟨p, level, maker, ?_, ?_, rfl, rfl, rfl⟩
                          · rw [hasks]; exact assocGet_cons_self _ _ _
                          · rw [hlo]; exact List.mem_cons_self _ _
                        cases hmf : (maker.fill
                            (min t.remaining_quantity maker.remaining_quantity)).is_fully_filled with
                        | true =>
                            simp only [hmf, PriceLevel.pop_if_filled, PriceLevel.update_volume,
                              PriceLevel.is_empty, if_true] at heq
                            cases hq : qtail with
                            | nil =>
                                simp only [hq, List.isEmpty, if_true] at heq
                                obtain ⟨ihbids, ihkeys, ihwf, ihnodup⟩ :=
                                  ih _ _ _ b' t' r heq
                                refine ⟨ihbids.trans hb2bids, ?_, ?_, ?_⟩
                                · rw [sideKeys_cons]
                                  exact ihkeys.trans (List.suffix_cons p _)
                                · intro hwf
                                  apply ihwf
                                  obtain ⟨hbw2, haw2⟩ := hwfstep hwf
                                  refine ⟨hbw2, ?_⟩
                                  intro kl hkl
                                  apply haw2
                                  rw [hb2asks]
                                  exact List.mem_cons_of_mem _ hkl
                                · intro hnd
                                  rw [sideKeys_cons] at hnd
                                  have hnd' : (sideKeys rest).Nodup := (List.nodup_cons.mp hnd).2
                                  have hpnotin : p ∉ sideKeys rest := (List.nodup_cons.mp hnd).1
                                  obtain ⟨ihfc, ihtr⟩ := ihnodup hnd'
                                  refine ⟨?_, ?_⟩
                                  · intro p' q hqq
                                    by_cases hp' : p' = p
                                    · subst hp'
                                      have hnone : assocGet b'.asks p' = none := by
                                        apply assocGet_eq_none_of_not_mem
                                        intro hmem
                                        exact hpnotin (ihkeys.sublist.subset hmem)
                                      rw [levelOrdersAtD_nil _ _ hnone]
                                      exact .to_nil q
                                    · have hq2 : levelOrdersAt rest p' = some q := by
                                        unfold levelOrdersAt at hqq ⊢
                                        rwa [assocGet_cons_ne _ _ _ _ hp'] at hqq
                                      exact ihfc p' q hq2
                                  · intro ts hts tr htr
                                    rcases ihtr ts hts tr htr with hin | hphi
                                    · rcases List.mem_append.mp hin with h | h
                                      · exact Or.inl h
                                      · right
                                        exact hstep_trades tr (List.mem_singleton.mp h)
                                    · right
                                      obtain ⟨p', L', maker0, hgL, hmL, hid, huid, hpr⟩ := hphi
                                      refine ⟨p', L', maker0, ?_, hmL, hid, huid, hpr⟩
                                      rw [hasks]
                                      by_cases hp' : p' = p
                                      · subst hp'
                                        exact absurd (mem_sideKeys_of_assocGet _ _ _ hgL) hpnotin
                                      · rwa [assocGet_cons_ne _ _ _ _ hp']
                            | cons q0 qrest =>
                                simp only [hq, List.isEmpty, Bool.false_eq_true, if_false] at heq
                                obtain ⟨ihbids, ihkeys, ihwf, ihnodup⟩ :=
                                  ih _ _ _ b' t' r heq
                                refine ⟨ihbids.trans hb2bids, ?_, ?_, ?_⟩
                                · rw [sideKeys_cons]
                                  refine ihkeys.trans ?_
                                  rw [sideKeys_cons]
                                · intro hwf
                                  apply ihwf
                                  obtain ⟨hbw2, haw2⟩ := hwfstep hwf
                                  refine ⟨hbw2, ?_⟩
                                  intro kl hkl
                                  rcases List.mem_cons.mp hkl with rfl | h2
                                  · have hWFlev := haw2 (p, PriceLevel.update_volume
                                        { level with orders :=
                                            maker.fill (min t.remaining_quantity
                                              maker.remaining_quantity) :: qtail }
                                        (min t.remaining_quantity maker.remaining_quantity))
                                      (by rw [hb2asks]; exact List.mem_cons_self _ _)
                                    have hmf0 : (maker.fill (min t.remaining_quantity
                                        maker.remaining_quantity)).remaining_quantity = 0 := by
                                      simpa [Order.is_fully_filled] using hmf
                                    unfold levelWF PriceLevel.update_volume at hWFlev
                                    unfold levelWF
                                    simp [hq] at hWFlev ⊢
                                    omega
                                  · exact haw2 kl (by rw [hb2asks]; exact List.mem_cons_of_mem _ h2)
                                · intro hnd
                                  have hnd2 : (sideKeys ((p, PriceLevel.update_volume
                                      { level with orders :=
                                          maker.fill (min t.remaining_quantity
                                            maker.remaining_quantity) :: qtail }
                                      (min t.remaining_quantity maker.remaining_quantity))
                                        :: rest)).Nodup := by
                                    rw [sideKeys_cons] at hnd ⊢
                                    exact hnd
                                  obtain ⟨ihfc, ihtr⟩ := ihnodup hnd2
                                  rw [sideKeys_cons] at hnd
                                  have hpnotin : p ∉ sideKeys rest := (List.nodup_cons.mp hnd).1
                                  refine ⟨?_, ?_⟩
                                  · intro p' q hqq
                                    by_cases hp' : p' = p
                                    · subst hp'
                                      have hq' : q = maker :: qtail := by
                                        unfold levelOrdersAt at hqq
                                        rw [assocGet_cons_self] at hqq
                                        simp at hqq
                                        rw [← hqq, hlo]
                                      have hstep : FrontConsumed q (q0 :: qrest) := by
                                        rw [hq', hq]
                                        exact .drop maker _ _ (.refl _)
                                      have hih := ihfc p' (q0 :: qrest) (by
                                        unfold levelOrdersAt
                                        rw [assocGet_cons_self]
                                        rfl)
                                      exact frontConsumed_trans hstep hih
                                    · have hq2 : levelOrdersAt ((p,
                                          { price := level.price, orders := q0 :: qrest,
                                            total_volume := level.total_volume -
                                              min t.remaining_quantity maker.remaining_quantity })
                                            :: rest) p' = some q := by
                                        unfold levelOrdersAt at hqq ⊢
                                        rw [assocGet_cons_ne _ _ _ _ hp'] at hqq
                                        rwa [assocGet_cons_ne _ _ _ _ hp']
                                      exact ihfc p' q hq2
                                  · intro ts hts tr htr
                                    rcases ihtr ts hts tr htr with hin | hphi
                                    · rcases List.mem_append.mp hin with h | h
                                      · exact Or.inl h
                                      · right
                                        exact hstep_trades tr (List.mem_singleton.mp h)
                                    · right
                                      obtain ⟨p', L', maker0, hgL, hmL, hid, huid, hpr⟩ := hphi
                                      by_cases hp' : p' = p
                                      · subst hp'
                                        rw [assocGet_cons_self] at hgL
                                        injection hgL with hgL
                                        refine ⟨p', level, maker0,
                                          by rw [hasks]; exact assocGet_cons_self _ _ _,
                                          ?_, hid, huid, hpr⟩
                                        rw [hlo]
                                        apply List.mem_cons_of_mem
                                        rw [hq]
                                        rw [← hgL] at hmL
                                        exact hmL
                                      · rw [assocGet_cons_ne _ _ _ _ hp'] at hgL
                                        refine ⟨p', L', maker0, ?_, hmL, hid, huid, hpr⟩
                                        rw [hasks]
                                        rwa [assocGet_cons_ne _ _ _ _ hp']
                        | false =>
                            simp only [hmf, PriceLevel.pop_if_filled, PriceLevel.update_volume,
                              PriceLevel.is_empty, List.isEmpty, Bool.false_eq_true,
                              if_false] at heq
                            obtain ⟨ihbids, ihkeys, ihwf, ihnodup⟩ :=
                              ih _ _ _ b' t' r heq
                            refine ⟨ihbids.trans hb2bids, ?_, ?_, ?_⟩
                            · rw [sideKeys_cons]
                              refine ihkeys.trans ?_
                              rw [sideKeys_cons]
                            · intro hwf
                              apply ihwf
                              obtain ⟨hbw2, haw2⟩ := hwfstep hwf
                              refine ⟨hbw2, ?_⟩
                              intro kl hkl
                              rcases List.mem_cons.mp hkl with rfl | h2
                              · exact haw2 _ (by rw [hb2asks]; exact List.mem_cons_self _ _)
                              · exact haw2 kl (by rw [hb2asks]; exact List.mem_cons_of_mem _ h2)
                            · intro hnd
                              have hnd2 : (sideKeys ((p, PriceLevel.update_volume
                                  { level with orders :=
                                      maker.fill (min t.remaining_quantity
                                        maker.remaining_quantity) :: qtail }
                                  (min t.remaining_quantity maker.remaining_quantity))
                                    :: rest)).Nodup := by
                                rw [sideKeys_cons] at hnd ⊢
                                exact hnd
                              obtain ⟨ihfc, ihtr⟩ := ihnodup hnd2
                              rw [sideKeys_cons] at hnd
                              have hpnotin : p ∉ sideKeys rest := (List.nodup_cons.mp hnd).1
                              refine ⟨?_, ?_⟩
                              · intro p' q hqq
                                by_cases hp' : p' = p
                                · subst hp'
                                  have hq' : q = maker :: qtail := by
                                    unfold levelOrdersAt at hqq
                                    rw [assocGet_cons_self] at hqq
                                    simp at hqq
                                    rw [← hqq, hlo]
                                  have hstep : FrontConsumed q
                                      (maker.fill (min t.remaining_quantity
                                        maker.remaining_quantity) :: qtail) := by
                                    rw [hq']
                                    exact .reduce _ _ _ hsbr
                                  have hih := ihfc p' (maker.fill (min t.remaining_quantity
                                      maker.remaining_quantity) :: qtail) (by
                                    unfold levelOrdersAt
                                    rw [assocGet_cons_self]
                                    rfl)
                                  exact frontConsumed_trans hstep hih
                                · have hq2 : levelOrdersAt ((p, PriceLevel.update_volume
                                      { level with orders :=
                                          maker.fill (min t.remaining_quantity
                                            maker.remaining_quantity) :: qtail }
                                      (min t.remaining_quantity maker.remaining_quantity))
                                        :: rest) p' = some q := by
                                    unfold levelOrdersAt at hqq ⊢
                                    rw [assocGet_cons_ne _ _ _ _ hp'] at hqq
                                    rwa [assocGet_cons_ne _ _ _ _ hp']
                                  exact ihfc p' q hq2
                              · intro ts hts tr htr
                                rcases ihtr ts hts tr htr with hin | hphi
                                · rcases List.mem_append.mp hin with h | h
                                  · exact Or.inl h
                                  · right
                                    exact hstep_trades tr (List.mem_singleton.mp h)
                                · right
                                  obtain ⟨p', L', maker0, hgL, hmL, hid, huid, hpr⟩ := hphi
                                  by_cases hp' : p' = p
                                  · subst hp'
                                    rw [assocGet_cons_self] at hgL
                                    injection hgL with hgL
                                    refine ⟨p', level, ?_⟩
                                    rw [← hgL] at hmL
                                    simp only [PriceLevel.update_volume] at hmL
                                    have hmL2 : maker0 ∈ maker.fill (min t.remaining_quantity
                                        maker.remaining_quantity) :: qtail := hmL
                                    rcases List.mem_cons.mp hmL2 with rfl | h2
                                    · exact ⟨maker, by rw [hasks]; exact assocGet_cons_self _ _ _,
                                        by rw [hlo]; exact List.mem_cons_self _ _, hid, huid, hpr⟩
                                    · exact ⟨maker0, by rw [hasks]; exact assocGet_cons_self _ _ _,
                                        by rw [hlo]; exact List.mem_cons_of_mem _ h2,
                                        hid, huid, hpr⟩
                                  · rw [assocGet_cons_ne _ _ _ _ hp'] at hgL
                                    refine ⟨p', L', maker0, ?_, hmL, hid, huid, hpr⟩
                                    rw [hasks]
                                    rwa [assocGet_cons_ne _ _ _ _ hp']

theorem marketSellLoop_spec : ∀ (fuel : Nat) (b : OrderBook) (t : Order)
    (trades : List Trade) (b' : OrderBook) (t' : Order) (r : Except String (List Trade)),
    matchMarketSellLoop fuel b t trades = (b', t', r) →
    (b'.asks = b.asks ∧
     sideKeys b'.bids <:+ sideKeys b.bids ∧
     (booksWF b → booksWF b') ∧
     ((sideKeys b.bids).Nodup →
        (∀ p q, levelOrdersAt b.bids p = some q →
           FrontConsumed q (levelOrdersAtD b'.bids p)) ∧
        (∀ ts, r = .ok ts → ∀ tr ∈ ts, tr ∈ trades ∨ MakerBidTriple b tr))) := by
  intro fuel
  induction fuel with
  | zero =>
      intro b t trades b' t' r heq
      simp only [matchMarketSellLoop] at heq
      injection heq with h1 heq
      injection heq with h2 h3
      subst h1; subst h2; subst h3
      refine ⟨rfl, List.suffix_refl _, fun h => h, ?_⟩
      intro _
      refine ⟨?_, ?_⟩
      · intro p q hq
        rw [levelOrdersAtD_of_some _ _ _ hq]
        exact .refl q
      · intro ts hcon; simp at hcon
  | succ n ih =>
      intro b t trades b' t' r heq
      cases ht : t.is_fully_filled with
      | true =>
          simp only [matchMarketSellLoop, ht, if_true] at heq
          injection heq with h1 heq
          injection heq with h2 h3
          subst h1; subst h2; subst h3
          have hrem0 : t.remaining_quantity = 0 := by
            simpa [Order.is_fully_filled] using ht
          refine ⟨rfl, List.suffix_refl _, fun h => h, ?_⟩
          intro _
          refine ⟨?_, ?_⟩
          · intro p q hq
            rw [levelOrdersAtD_of_some _ _ _ hq]
            exact .refl q
          · intro ts hts tr htr
            left
            have : trades = ts := by injection hts
            rw [this]; exact htr
      | false =>
          have hrem : t.remaining_quantity ≠ 0 := by
            simpa [Order.is_fully_filled] using ht
          cases hbids : b.bids with
          | nil =>
              simp only [matchMarketSellLoop, ht, hbids] at heq
              injection heq with h1 heq
              injection heq with h2 h3
              subst h1; subst h2; subst h3
              refine ⟨rfl, by rw [hbids], fun h => h, ?_⟩
              intro _
              refine ⟨?_, ?_⟩
              · intro p q hq
                simp [levelOrdersAt, assocGet] at hq
              · intro ts hcon; simp at hcon
          | cons hd rest =>
              obtain ⟨p, level⟩ := hd
              simp only [matchMarketSellLoop, ht, Bool.false_eq_true, if_false, hbids] at heq
              cases hlo : level.orders with
                | nil =>
                    simp only [hlo] at heq
                    obtain ⟨ihbids, ihkeys, ihwf, ihnodup⟩ :=
                      ih { b with bids := rest } t trades b' t' r heq
                    refine ⟨ihbids, ?_, ?_, ?_⟩
                    · rw [sideKeys_cons]
                      exact ihkeys.trans (List.suffix_cons p _)
                    · intro hwf
                      apply ihwf
                      obtain ⟨hb, ha⟩ := hwf
                      refine ⟨?_, ha⟩
                      intro kl hkl
                      apply hb
                      rw [hbids]
                      exact List.mem_cons_of_mem _ hkl
                    · intro hnd
                      rw [sideKeys_cons] at hnd
                      have hnd' : (sideKeys rest).Nodup := (List.nodup_cons.mp hnd).2
                      have hpnotin : p ∉ sideKeys rest := (List.nodup_cons.mp hnd).1
                      obtain ⟨ihfc, ihtr⟩ := ihnodup hnd'
                      refine ⟨?_, ?_⟩
                      · intro p' q hq
                        by_cases hp' : p' = p
                        · subst hp'
                          have hnone : assocGet b'.bids p' = none := by
                            apply assocGet_eq_none_of_not_mem
                            intro hmem
                            exact hpnotin (ihkeys.sublist.subset hmem)
                          rw [levelOrdersAtD_nil _ _ hnone]
                          exact .to_nil q
                        · have hq2 : levelOrdersAt rest p' = some q := by
                            unfold levelOrdersAt at hq ⊢
                            rwa [assocGet_cons_ne _ _ _ _ hp'] at hq
                          exact ihfc p' q hq2
                      · intro ts hts tr htr
                        rcases ihtr ts hts tr htr with hin |
                          ⟨p', L', maker0, hgL, hmL, hid, huid, hpr⟩
                        · exact Or.inl hin
                        · refine Or.inr ⟨p', L', maker0, ?_, hmL, hid, huid, hpr⟩
                          rw [hbids]
                          by_cases hp' : p' = p
                          · subst hp'
                            exact absurd (mem_sideKeys_of_assocGet _ _ _ hgL) hpnotin
                          · rwa [assocGet_cons_ne _ _ _ _ hp']
                | cons maker qtail =>
                    simp only [hlo] at heq
                    rcases hs : ({ b with bids :=
                        (p, PriceLevel.update_volume
                            { level with orders :=
                                maker.fill (min t.remaining_quantity maker.remaining_quantity)
                                  :: qtail }
                            (min t.remaining_quantity maker.remaining_quantity)) :: rest }).execute_trade_settlement
                      (Trade.new maker.id t.id maker.user_id t.user_id p
                        (min t.remaining_quantity maker.remaining_quantity))
                      OrderSide.Sell with ⟨b2, oe⟩
                    have hb2bids : b2.bids =
                        (p, PriceLevel.update_volume
                            { level with orders :=
                                maker.fill (min t.remaining_quantity maker.remaining_quantity)
                                  :: qtail }
                            (min t.remaining_quantity maker.remaining_quantity)) :: rest := by
                      have := settlement_bids ({ b with bids :=
                        (p, PriceLevel.update_volume
                            { level with orders :=
                                maker.fill (min t.remaining_quantity maker.remaining_quantity)
                                  :: qtail }
                            (min t.remaining_quantity maker.remaining_quantity)) :: rest })
                        (Trade.new maker.id t.id maker.user_id t.user_id p
                        (min t.remaining_quantity maker.remaining_quantity))
                        OrderSide.Sell
                      rw [hs] at this
                      exact this
                    have hb2asks : b2.asks = b.asks := by
                      have := settlement_asks ({ b with bids :=
                        (p, PriceLevel.update_volume
                            { level with orders :=
                                maker.fill (min t.remaining_quantity maker.remaining_quantity)
                                  :: qtail }
                            (min t.remaining_quantity maker.remaining_quantity)) :: rest })
                        (Trade.new maker.id t.id maker.user_id t.user_id p
                        (min t.remaining_quantity maker.remaining_quantity))
                        OrderSide.Sell
                      rw [hs] at this
                      exact this
                    have hsbr : SameButRem maker
                        (maker.fill (min t.remaining_quantity maker.remaining_quantity)) :=
                      ⟨rfl, rfl, rfl, rfl, rfl, rfl, Nat.sub_le _ _⟩
                    have hwfstep : booksWF b → booksWF b2 := by
                      intro hwf
                      obtain ⟨hbw, haw⟩ := hwf
                      constructor
                      · intro kl hkl
                        rw [hb2bids] at hkl
                        rcases List.mem_cons.mp hkl with rfl | h2
                        · exact levelWF_fill_front level maker qtail _ hlo
                            (Nat.min_le_right _ _)
                            (hbw (p, level) (by rw [hbids]; exact List.mem_cons_self _ _))
                        · exact hbw kl (by rw [hbids]; exact List.mem_cons_of_mem _ h2)
                      · intro kl hkl
                        rw [hb2asks] at hkl
                        exact haw kl hkl
                    simp only [hs] at heq
                    cases oe with
                    | some e =>
                        injection heq with h1 heq
                        injection heq with h2 h3
                        subst h1; subst h2; subst h3
                        refine ⟨hb2asks, ?_, hwfstep, ?_⟩
                        · rw [hb2bids, sideKeys_cons, sideKeys_cons]
                        · intro hnd
                          refine ⟨?_, ?_⟩
                          · intro p' q hq
                            by_cases hp' : p' = p
                            · subst hp'
                              have hq' : q = maker :: qtail := by
                                unfold levelOrdersAt at hq
                                rw [assocGet_cons_self] at hq
                                simp at hq
                                rw [← hq, hlo]
                              have hd : levelOrdersAtD b2.bids p' =
                                  maker.fill (min t.remaining_quantity
                                    maker.remaining_quantity) :: qtail := by
                                apply levelOrdersAtD_of_some
                                unfold levelOrdersAt
                                rw [hb2bids, assocGet_cons_self]
                                rfl
                              rw [hd, hq']
                              exact .reduce _ _ _ hsbr
                            · have hd : levelOrdersAtD b2.bids p' = levelOrdersAtD rest p' := by
                                unfold levelOrdersAtD
                                rw [hb2bids, assocGet_cons_ne _ _ _ _ hp']
                              have hq2 : levelOrdersAt rest p' = some q := by
                                unfold levelOrdersAt at hq ⊢
                                rwa [assocGet_cons_ne _ _ _ _ hp'] at hq
                              rw [hd, levelOrdersAtD_of_some _ _ _ hq2]
                              exact .refl q
                          · intro ts hcon; simp at hcon
                    | none =>
                        have hstep_trades : ∀ tr : Trade,
                            tr = Trade.new maker.id t.id maker.user_id t.user_id p
                              (min t.remaining_quantity maker.remaining_quantity) →
                            MakerBidTriple b tr := by
                          intro tr htr
                          subst htr
                          refine ⟨p, level, maker, ?_, ?_, rfl, rfl, rfl⟩
                          · rw [hbids]; exact assocGet_cons_self _ _ _
                          · rw [hlo]; exact List.mem_cons_self _ _
                        cases hmf : (maker.fill
                            (min t.remaining_quantity maker.remaining_quantity)).is_fully_filled with
                        | true =>
                            simp only [hmf, PriceLevel.pop_if_filled, PriceLevel.update_volume,
                              PriceLevel.is_empty, if_true] at heq
                            cases hq : qtail with
                            | nil =>
                                simp only [hq, List.isEmpty, if_true] at heq
                                obtain ⟨ihbids, ihkeys, ihwf, ihnodup⟩ :=
                                  ih _ _ _ b' t' r heq
                                refine ⟨ihbids.trans hb2asks, ?_, ?_, ?_⟩
                                · rw [sideKeys_cons]
                                  exact ihkeys.trans (List.suffix_cons p _)
                                · intro hwf
                                  apply ihwf
                                  obtain ⟨hbw2, haw2⟩ := hwfstep hwf
                                  refine ⟨?_, haw2⟩
                                  intro kl hkl
                                  apply hbw2
                                  rw [hb2bids]
                                  exact List.mem_cons_of_mem _ hkl
                                · intro hnd
                                  rw [sideKeys_cons] at hnd
                                  have hnd' : (sideKeys rest).Nodup := (List.nodup_cons.mp hnd).2
                                  have hpnotin : p ∉ sideKeys rest := (List.nodup_cons.mp hnd).1
                                  obtain ⟨ihfc, ihtr⟩ := ihnodup hnd'
                                  refine ⟨?_, ?_⟩
                                  · intro p' q hqq
                                    by_cases hp' : p' = p
                                    · subst hp'
                                      have hnone : assocGet b'.bids p' = none := by
                                        apply assocGet_eq_none_of_not_mem
                                        intro hmem
                                        exact hpnotin (ihkeys.sublist.subset hmem)
                                      rw [levelOrdersAtD_nil _ _ hnone]
                                      exact .to_nil q
                                    · have hq2 : levelOrdersAt rest p' = some q := by
                                        unfold levelOrdersAt at hqq ⊢
                                        rwa [assocGet_cons_ne _ _ _ _ hp'] at hqq
                                      exact ihfc p' q hq2
                                  · intro ts hts tr htr
                                    rcases ihtr ts hts tr htr with hin | hphi
                                    · rcases List.mem_append.mp hin with h | h
                                      · exact Or.inl h
                                      · right
                                        exact hstep_trades tr (List.mem_singleton.mp h)
                                    · right
                                      obtain ⟨p', L', maker0, hgL, hmL, hid, huid, hpr⟩ := hphi
                                      refine ⟨p', L', maker0, ?_, hmL, hid, huid, hpr⟩
                                      rw [hbids]
                                      by_cases hp' : p' = p
                                      · subst hp'
                                        exact absurd (mem_sideKeys_of_assocGet _ _ _ hgL) hpnotin
                                      · rwa [assocGet_cons_ne _ _ _ _ hp']
                            | cons q0 qrest =>
                                simp only [hq, List.isEmpty, Bool.false_eq_true, if_false] at heq
                                obtain ⟨ihbids, ihkeys, ihwf, ihnodup⟩ :=
                                  ih _ _ _ b' t' r heq
                                refine ⟨ihbids.trans hb2asks, ?_, ?_, ?_⟩
                                · rw [sideKeys_cons]
                                  refine ihkeys.trans ?_
                                  rw [sideKeys_cons]
                                · intro hwf
                                  apply ihwf
                                  obtain ⟨hbw2, haw2⟩ := hwfstep hwf
                                  refine ⟨?_, haw2⟩
                                  intro kl hkl
                                  rcases List.mem_cons.mp hkl with rfl | h2
                                  · have hWFlev := hbw2 (p, PriceLevel.update_volume
                                        { level with orders :=
                                            maker.fill (min t.remaining_quantity
                                              maker.remaining_quantity) :: qtail }
                                        (min t.remaining_quantity maker.remaining_quantity))
                                      (by rw [hb2bids]; exact List.mem_cons_self _ _)
                                    have hmf0 : (maker.fill (min t.remaining_quantity
                                        maker.remaining_quantity)).remaining_quantity = 0 := by
                                      simpa [Order.is_fully_filled] using hmf
                                    unfold levelWF PriceLevel.update_volume at hWFlev
                                    unfold levelWF
                                    simp [hq] at hWFlev ⊢
                                    omega
                                  · exact hbw2 kl (by rw [hb2bids]; exact List.mem_cons_of_mem _ h2)
                                · intro hnd
                                  have hnd2 : (sideKeys ((p, PriceLevel.update_volume
                                      { level with orders :=
                                          maker.fill (min t.remaining_quantity
                                            maker.remaining_quantity) :: qtail }
                                      (min t.remaining_quantity maker.remaining_quantity))
                                        :: rest)).Nodup := by
                                    rw [sideKeys_cons] at hnd ⊢
                                    exact hnd
                                  obtain ⟨ihfc, ihtr⟩ := ihnodup hnd2
                                  rw [sideKeys_cons] at hnd
                                  have hpnotin : p ∉ sideKeys rest := (List.nodup_cons.mp hnd).1
                                  refine ⟨?_, ?_⟩
                                  · intro p' q hqq
                                    by_cases hp' : p' = p
                                    · subst hp'
                                      have hq' : q = maker :: qtail := by
                                        unfold levelOrdersAt at hqq
                                        rw [assocGet_cons_self] at hqq
                                        simp at hqq
                                        rw [← hqq, hlo]
                                      have hstep : FrontConsumed q (q0 :: qrest) := by
                                        rw [hq', hq]
                                        exact .drop maker _ _ (.refl _)
                                      have hih := ihfc p' (q0 :: qrest) (by
                                        unfold levelOrdersAt
                                        rw [assocGet_cons_self]
                                        rfl)
                                      exact frontConsumed_trans hstep hih
                                    · have hq2 : levelOrdersAt ((p,
                                          { price := level.price, orders := q0 :: qrest,
                                            total_volume := level.total_volume -
                                              min t.remaining_quantity maker.remaining_quantity })
                                            :: rest) p' = some q := by
                                        unfold levelOrdersAt at hqq ⊢
                                        rw [assocGet_cons_ne _ _ _ _ hp'] at hqq
                                        rwa [assocGet_cons_ne _ _ _ _ hp']
                                      exact ihfc p' q hq2
                                  · intro ts hts tr htr
                                    rcases ihtr ts hts tr htr with hin | hphi
                                    · rcases List.mem_append.mp hin with h | h
                                      · exact Or.inl h
                                      · right
                                        exact hstep_trades tr (List.mem_singleton.mp h)
                                    · right
                                      obtain ⟨p', L', maker0, hgL, hmL, hid, huid, hpr⟩ := hphi
                                      by_cases hp' : p' = p
                                      · subst hp'
                                        rw [assocGet_cons_self] at hgL
                                        injection hgL with hgL
                                        refine ⟨p', level, maker0,
                                          by rw [hbids]; exact assocGet_cons_self _ _ _,
                                          ?_, hid, huid, hpr⟩
                                        rw [hlo]
                                        apply List.mem_cons_of_mem
                                        rw [hq]
                                        rw [← hgL] at hmL
                                        exact hmL
                                      · rw [assocGet_cons_ne _ _ _ _ hp'] at hgL
                                        refine ⟨p', L', maker0, ?_, hmL, hid, huid, hpr⟩
                                        rw [hbids]
                                        rwa [assocGet_cons_ne _ _ _ _ hp']
                        | false =>
                            simp only [hmf, PriceLevel.pop_if_filled, PriceLevel.update_volume,
                              PriceLevel.is_empty, List.isEmpty, Bool.false_eq_true,
                              if_false] at heq
                            obtain ⟨ihbids, ihkeys, ihwf, ihnodup⟩ :=
                              ih _ _ _ b' t' r heq
                            refine ⟨ihbids.trans hb2asks, ?_, ?_, ?_⟩
                            · rw [sideKeys_cons]
                              refine ihkeys.trans ?_
                              rw [sideKeys_cons]
                            · intro hwf
                              apply ihwf
                              obtain ⟨hbw2, haw2⟩ := hwfstep hwf
                              refine ⟨?_, haw2⟩
                              intro kl hkl
                              rcases List.mem_cons.mp hkl with rfl | h2
                              · exact hbw2 _ (by rw [hb2bids]; exact List.mem_cons_self _ _)
                              · exact hbw2 kl (by rw [hb2bids]; exact List.mem_cons_of_mem _ h2)
                            · intro hnd
                              have hnd2 : (sideKeys ((p, PriceLevel.update_volume
                                  { level with orders :=
                                      maker.fill (min t.remaining_quantity
                                        maker.remaining_quantity) :: qtail }
                                  (min t.remaining_quantity maker.remaining_quantity))
                                    :: rest)).Nodup := by
                                rw [sideKeys_cons] at hnd ⊢
                                exact hnd
                              obtain ⟨ihfc, ihtr⟩ := ihnodup hnd2
                              rw [sideKeys_cons] at hnd
                              have hpnotin : p ∉ sideKeys rest := (List.nodup_cons.mp hnd).1
                              refine ⟨?_, ?_⟩
                              · intro p' q hqq
                                by_cases hp' : p' = p
                                · subst hp'
                                  have hq' : q = maker :: qtail := by
                                    unfold levelOrdersAt at hqq
                                    rw [assocGet_cons_self] at hqq
                                    simp at hqq
                                    rw [← hqq, hlo]
                                  have hstep : FrontConsumed q
                                      (maker.fill (min t.remaining_quantity
                                        maker.remaining_quantity) :: qtail) := by
                                    rw [hq']
                                    exact .reduce _ _ _ hsbr
                                  have hih := ihfc p' (maker.fill (min t.remaining_quantity
                                      maker.remaining_quantity) :: qtail) (by
                                    unfold levelOrdersAt
                                    rw [assocGet_cons_self]
                                    rfl)
                                  exact frontConsumed_trans hstep hih
                                · have hq2 : levelOrdersAt ((p, PriceLevel.update_volume
                                      { level with orders :=
                                          maker.fill (min t.remaining_quantity
                                            maker.remaining_quantity) :: qtail }
                                      (min t.remaining_quantity maker.remaining_quantity))
                                        :: rest) p' = some q := by
                                    unfold levelOrdersAt at hqq ⊢
                                    rw [assocGet_cons_ne _ _ _ _ hp'] at hqq
                                    rwa [assocGet_cons_ne _ _ _ _ hp']
                                  exact ihfc p' q hq2
                              · intro ts hts tr htr
                                rcases ihtr ts hts tr htr with hin | hphi
                                · rcases List.mem_append.mp hin with h | h
                                  · exact Or.inl h
                                  · right
                                    exact hstep_trades tr (List.mem_singleton.mp h)
                                · right
                                  obtain ⟨p', L', maker0, hgL, hmL, hid, huid, hpr⟩ := hphi
                                  by_cases hp' : p' = p
                                  · subst hp'
                                    rw [assocGet_cons_self] at hgL
                                    injection hgL with hgL
                                    refine ⟨p', level, ?_⟩
                                    rw [← hgL] at hmL
                                    simp only [PriceLevel.update_volume] at hmL
                                    have hmL2 : maker0 ∈ maker.fill (min t.remaining_quantity
                                        maker.remaining_quantity) :: qtail := hmL
                                    rcases List.mem_cons.mp hmL2 with rfl | h2
                                    · exact ⟨maker, by rw [hbids]; exact assocGet_cons_self _ _ _,
                                        by rw [hlo]; exact List.mem_cons_self _ _, hid, huid, hpr⟩
                                    · exact ⟨maker0, by rw [hbids]; exact assocGet_cons_self _ _ _,
                                        by rw [hlo]; exact List.mem_cons_of_mem _ h2,
                                        hid, huid, hpr⟩
                                  · rw [assocGet_cons_ne _ _ _ _ hp'] at hgL
                                    refine ⟨p', L', maker0, ?_, hmL, hid, huid, hpr⟩
                                    rw [hbids]
                                    rwa [assocGet_cons_ne _ _ _ _ hp']
theorem mem_assocSet {α : Type} : ∀ (m : List (Nat × α)) (k : Nat) (v : α) (kl : Nat × α),
    kl ∈ assocSet m k v → kl = (k, v) ∨ kl ∈ m := by
  intro m
  induction m with
  | nil =>
      intro k v kl h
      simp only [assocSet, List.mem_singleton] at h
      exact Or.inl h
  | cons kw rest ih =>
      intro k v kl h
      obtain ⟨k0, w⟩ := kw
      unfold assocSet at h
      by_cases he : k0 = k
      · subst he
        rw [if_pos rfl] at h
        rcases List.mem_cons.mp h with rfl | h2
        · exact Or.inl rfl
        · exact Or.inr (List.mem_cons_of_mem _ h2)
      · rw [if_neg he] at h
        rcases List.mem_cons.mp h with rfl | h2
        · exact Or.inr (List.mem_cons_self _ _)
        · rcases ih k v kl h2 with h3 | h3
          · exact Or.inl h3
          · exact Or.inr (List.mem_cons_of_mem _ h3)

theorem mem_assocRemove {α : Type} : ∀ (m : List (Nat × α)) (k : Nat) (kl : Nat × α),
    kl ∈ assocRemove m k → kl ∈ m := by
  intro m
  induction m with
  | nil =>
      intro k kl h
      simp [assocRemove] at h
  | cons kw rest ih =>
      intro k kl h
      obtain ⟨k0, w⟩ := kw
      unfold assocRemove at h
      by_cases he : k0 = k
      · rw [if_pos he] at h
        exact List.mem_cons_of_mem _ h
      · rw [if_neg he] at h
        rcases List.mem_cons.mp h with rfl | h2
        · exact List.mem_cons_self _ _
        · exact List.mem_cons_of_mem _ (ih k kl h2)

theorem add_order_WF (b : OrderBook) (o : Order) (h : booksWF b) :
    booksWF (b.add_order o) := by
  unfold OrderBook.add_order
  cases hp : o.price with
  | none => exact h
  | some price =>
      cases hs : o.side with
      | Buy =>
          exact ⟨fun kl hkl => bidsEnqueue_WF b.bids price o h.1 kl hkl, h.2⟩
      | Sell =>
          exact ⟨h.1, fun kl hkl => asksEnqueue_WF b.asks price o h.2 kl hkl⟩

theorem cancel_order_WF (b : OrderBook) (id : Nat) (h : booksWF b) :
    booksWF (b.cancel_order id).1 := by
  obtain ⟨hb, ha⟩ := h
  unfold OrderBook.cancel_order
  cases hg : assocGet b.orders id with
  | none => exact ⟨hb, ha⟩
  | some o =>
      dsimp only
      cases hp : o.price with
      | none => exact ⟨hb, ha⟩
      | some price =>
          dsimp only
          cases hs : o.side with
          | Buy =>
              dsimp only
              cases hL : assocGet b.bids price with
              | none => exact ⟨hb, ha⟩
              | some L =>
                  dsimp only
                  have hLWF : levelWF L := hb (price, L) (assocGet_mem _ _ _ hL)
                  have hL' : levelWF (L.dequeue_order_by_id id).1 :=
                    levelWF_dequeue L id hLWF
                  cases he : (L.dequeue_order_by_id id).1.is_empty with
                  | true =>
                      rw [if_pos rfl]
                      exact ⟨fun kl hkl => hb kl (mem_assocRemove _ _ _ hkl), ha⟩
                  | false =>
                      rw [if_neg Bool.false_ne_true]
                      refine ⟨?_, ha⟩
                      intro kl hkl
                      rcases mem_assocSet _ _ _ _ hkl with rfl | h2
                      · exact hL'
                      · exact hb kl h2
          | Sell =>
              dsimp only
              cases hL : assocGet b.asks price with
              | none => exact ⟨hb, ha⟩
              | some L =>
                  dsimp only
                  have hLWF : levelWF L := ha (price, L) (assocGet_mem _ _ _ hL)
                  have hL' : levelWF (L.dequeue_order_by_id id).1 :=
                    levelWF_dequeue L id hLWF
                  cases he : (L.dequeue_order_by_id id).1.is_empty with
                  | true =>
                      rw [if_pos rfl]
                      exact ⟨hb, fun kl hkl => ha kl (mem_assocRemove _ _ _ hkl)⟩
                  | false =>
                      rw [if_neg Bool.false_ne_true]
                      refine ⟨hb, ?_⟩
                      intro kl hkl
                      rcases mem_assocSet _ _ _ _ hkl with rfl | h2
                      · exact hL'
                      · exact ha kl h2

theorem match_limit_order_WF (b : OrderBook) (o : Order) (b' : OrderBook) (o' : Order)
    (r : Except String (List Trade)) (hm : b.match_limit_order o = (b', o', r))
    (h : booksWF b) : booksWF b' := by
  unfold OrderBook.match_limit_order at hm
  cases hp : o.price with
  | none =>
      simp only [hp] at hm
      injection hm with h1 hm
      subst h1
      exact h
  | some tp =>
      simp only [hp] at hm
      cases hs : o.side with
      | Buy =>
          simp only [hs] at hm
          exact (limitBuyLoop_spec _ _ _ _ _ _ _ _ hm).2.2.1 h
      | Sell =>
          simp only [hs] at hm
          exact (limitSellLoop_spec _ _ _ _ _ _ _ _ hm).2.2.1 h

theorem match_order_WF (b : OrderBook) (o : Order) (h : booksWF b) :
    booksWF (b.match_order o).1 := by
  unfold OrderBook.match_order
  cases hot : o.order_type with
  | Limit =>
      rcases hm : b.match_limit_order o with ⟨b', o', r⟩
      have hwf' : booksWF b' := match_limit_order_WF b o b' o' r hm h
      cases r with
      | ok ts =>
          simp only [hm]
          cases hf : o'.is_fully_filled with
          | true => rw [if_pos rfl]; exact hwf'
          | false =>
              rw [if_neg Bool.false_ne_true]
              exact add_order_WF b' o' hwf'
      | error e =>
          simp only [hm]
          exact hwf'
  | Market =>
      rcases hm : b.match_market_order o with ⟨b', o', r⟩
      simp only [hm]
      unfold OrderBook.match_market_order at hm
      cases hs : o.side with
      | Buy =>
          simp only [hs] at hm
          unfold OrderBook.match_market_buy at hm
          exact (marketBuyLoop_spec _ _ _ _ _ _ _ hm).2.2.1 h
      | Sell =>
          simp only [hs] at hm
          unfold OrderBook.match_market_sell at hm
          exact (marketSellLoop_spec _ _ _ _ _ _ _ hm).2.2.1 h

/-- C6: after every book operation — enqueue into a level, removal by id,
fill of the level's front order, pop of a filled head, adding an order,
cancelling an order, and matching an order — each price level's cached
`total_volume` equals the sum of `remaining_quantity` over its queued
orders. -/
theorem c6_total_volume_invariant :
    (∀ (L : PriceLevel) (o : Order), levelWF L → levelWF (L.enqueue_order o)) ∧
    (∀ (L : PriceLevel) (id : Nat), levelWF L →
       levelWF (L.dequeue_order_by_id id).1) ∧
    (∀ (L : PriceLevel) (maker : Order) (qtail : List Order) (f : Nat),
       L.orders = maker :: qtail → f ≤ maker.remaining_quantity → levelWF L →
       levelWF (PriceLevel.update_volume { L with orders := maker.fill f :: qtail } f)) ∧
    (∀ L : PriceLevel, levelWF L → levelWF L.pop_if_filled.1) ∧
    (∀ (b : OrderBook) (o : Order), booksWF b → booksWF (b.add_order o)) ∧
    (∀ (b : OrderBook) (id : Nat), booksWF b → booksWF (b.cancel_order id).1) ∧
    (∀ (b : OrderBook) (o : Order), booksWF b → booksWF (b.match_order o).1) :=
  ⟨levelWF_enqueue, levelWF_dequeue,
   fun L maker qtail f h1 h2 h3 => levelWF_fill_front L maker qtail f h1 h2 h3,
   levelWF_pop, add_order_WF, cancel_order_WF, match_order_WF⟩

theorem c6_total_volume_invariant_witness :
    levelWF ((PriceLevel.new 50000000000).enqueue_order
      (Order.new_limit 0 1 OrderSide.Sell 50000000000 100000000)) :=
  c6_total_volume_invariant.1 (PriceLevel.new 50000000000)
    (Order.new_limit 0 1 OrderSide.Sell 50000000000 100000000) (by rfl)
def remainingOfId (q : List Order) (oid : Nat) : Option Nat :=
  (q.find? (fun o => o.id == oid)).map (·.remaining_quantity)

theorem frontConsumed_ids_sublist {q q' : List Order} (h : FrontConsumed q q') :
    List.Sublist (q'.map Order.id) (q.map Order.id) := by
  induction h with
  | refl q => exact List.Sublist.refl _
  | drop o q1 q2 h ih => exact ih.trans (List.sublist_cons_self _ _)
  | reduce o o' q1 hrel =>
      simp only [List.map_cons]
      rw [hrel.1]

theorem remainingOfId_get_of_nodup : ∀ (q : List Order), (q.map Order.id).Nodup →
    ∀ (j : Nat) (hj : j < q.length),
      remainingOfId q (q.get ⟨j, hj⟩).id = some (q.get ⟨j, hj⟩).remaining_quantity := by
  intro q
  induction q with
  | nil => intro _ j hj; exact absurd hj (Nat.not_lt_zero j)
  | cons o rest ih =>
      intro hnd j hj
      have hnd2 : o.id ∉ rest.map Order.id ∧ (rest.map Order.id).Nodup := by
        rw [List.map_cons, List.nodup_cons] at hnd; exact hnd
      cases j with
      | zero =>
          have hg : (o :: rest).get ⟨0, hj⟩ = o := rfl
          rw [hg]
          unfold remainingOfId
          rw [List.find?_cons_of_pos _ (by simp)]
          rfl
      | succ j1 =>
          have hjr : j1 < rest.length := Nat.lt_of_succ_lt_succ hj
          have hg : (o :: rest).get ⟨j1 + 1, hj⟩ = rest.get ⟨j1, hjr⟩ := rfl
          rw [hg]
          have hBin : (rest.get ⟨j1, hjr⟩).id ∈ rest.map Order.id :=
            List.mem_map_of_mem _ (List.get_mem _ _ _)
          have hne : (o.id == (rest.get ⟨j1, hjr⟩).id) = false := by
            rw [beq_eq_false_iff_ne]
            intro hc
            exact hnd2.1 (hc ▸ hBin)
          unfold remainingOfId
          rw [List.find?_cons_of_neg _ (by simp only [hne]; exact Bool.false_ne_true)]
          exact ih hnd2.2 j1 hjr

theorem find?_pred_true {p : Order → Bool} : ∀ {l : List Order} {o0 : Order},
    l.find? p = some o0 → p o0 = true := by
  intro l
  induction l with
  | nil => intro o0 h; simp [List.find?] at h
  | cons a rest ih =>
      intro o0 h
      cases hp : p a with
      | true =>
          rw [List.find?_cons_of_pos _ hp] at h
          injection h with h
          rw [← h]
          exact hp
      | false =>
          rw [List.find?_cons_of_neg _ (by simp only [hp]; exact Bool.false_ne_true)] at h
          exact ih h

theorem mem_ids_of_remainingOfId_ne_none (q : List Order) (x : Nat)
    (h : remainingOfId q x ≠ none) : x ∈ q.map Order.id := by
  unfold remainingOfId at h
  cases hf : q.find? (fun o => o.id == x) with
  | none => rw [hf] at h; simp at h
  | some o0 =>
      have h1 : o0 ∈ q := List.mem_of_find?_eq_some hf
      have h2 : (o0.id == x) = true := find?_pred_true hf
      have h3 : o0.id = x := by simpa using h2
      exact h3 ▸ List.mem_map_of_mem Order.id h1

theorem frontConsumed_fifo : ∀ {q q' : List Order}, FrontConsumed q q' →
    (q.map Order.id).Nodup →
    ∀ (i j : Nat) (hi : i < q.length) (hj : j < q.length), i < j →
      remainingOfId q' (q.get ⟨i, hi⟩).id ≠ none →
      remainingOfId q' (q.get ⟨j, hj⟩).id =
        some (q.get ⟨j, hj⟩).remaining_quantity := by
  intro q q' h
  induction h with
  | refl q =>
      intro hnd i j hi hj hij _
      exact remainingOfId_get_of_nodup q hnd j hj
  | drop o q1 q2 h ih =>
      intro hnd i j hi hj hij hpres
      have hnd2 : o.id ∉ q1.map Order.id ∧ (q1.map Order.id).Nodup := by
        rw [List.map_cons, List.nodup_cons] at hnd; exact hnd
      cases i with
      | zero =>
          exfalso
          have hA : (o :: q1).get ⟨0, hi⟩ = o := rfl
          rw [hA] at hpres
          have hmem := mem_ids_of_remainingOfId_ne_none _ _ hpres
          have hsub := frontConsumed_ids_sublist h
          exact hnd2.1 (hsub.subset hmem)
      | succ i1 =>
          cases j with
          | zero => exact absurd hij (by omega)
          | succ j1 =>
              have hi1 : i1 < q1.length := Nat.lt_of_succ_lt_succ hi
              have hj1 : j1 < q1.length := Nat.lt_of_succ_lt_succ hj
              exact ih hnd2.2 i1 j1 hi1 hj1 (Nat.lt_of_succ_lt_succ hij) hpres
  | reduce o o' q1 hrel =>
      intro hnd i j hi hj hij hpres
      cases j with
      | zero => exact absurd hij (Nat.not_lt_zero i)
      | succ j1 =>
          have hj1 : j1 < q1.length := Nat.lt_of_succ_lt_succ hj
          have hB : (o :: q1).get ⟨j1 + 1, hj⟩ = q1.get ⟨j1, hj1⟩ := rfl
          rw [hB]
          have hnd2 : o.id ∉ q1.map Order.id ∧ (q1.map Order.id).Nodup := by
            rw [List.map_cons, List.nodup_cons] at hnd; exact hnd
          have hBin : (q1.get ⟨j1, hj1⟩).id ∈ q1.map Order.id :=
            List.mem_map_of_mem _ (List.get_mem _ _ _)
          have hne : (o'.id == (q1.get ⟨j1, hj1⟩).id) = false := by
            rw [beq_eq_false_iff_ne]
            intro hc
            rw [hrel.1] at hc
            exact hnd2.1 (hc ▸ hBin)
          unfold remainingOfId
          rw [List.find?_cons_of_neg _ (by simp only [hne]; exact Bool.false_ne_true)]
          exact remainingOfId_get_of_nodup q1 hnd2.2 j1 hj1

theorem add_order_asks (b : OrderBook) (o : Order) (hs : o.side = OrderSide.Buy) :
    (b.add_order o).asks = b.asks := by
  unfold OrderBook.add_order
  cases hp : o.price with
  | none => rfl
  | some price =>
      rw [hs]

theorem add_order_bids (b : OrderBook) (o : Order) (hs : o.side = OrderSide.Sell) :
    (b.add_order o).bids = b.bids := by
  unfold OrderBook.add_order
  cases hp : o.price with
  | none => rfl
  | some price =>
      rw [hs]

theorem match_order_frontConsumed (b : OrderBook) (o : Order) (b' : OrderBook)
    (r : Except String (List Trade)) (hm : b.match_order o = (b', r)) :
    (o.side = OrderSide.Buy → (sideKeys b.asks).Nodup →
       ∀ p q, levelOrdersAt b.asks p = some q →
         FrontConsumed q (levelOrdersAtD b'.asks p)) ∧
    (o.side = OrderSide.Sell → (sideKeys b.bids).Nodup →
       ∀ p q, levelOrdersAt b.bids p = some q →
         FrontConsumed q (levelOrdersAtD b'.bids p)) := by
  constructor
  · intro hside hnd p q hq
    unfold OrderBook.match_order at hm
    cases hot : o.order_type with
    | Limit =>
        simp only [hot] at hm
        rcases hml : b.match_limit_order o with ⟨b1, o1, r1⟩
        simp only [hml] at hm
        have hkey : FrontConsumed q (levelOrdersAtD b1.asks p) ∧
            o1.side = OrderSide.Buy := by
          unfold OrderBook.match_limit_order at hml
          cases hp : o.price with
          | none =>
              simp only [hp] at hml
              injection hml with h1 hml
              injection hml with h2 h3
              subst h1; subst h2
              exact ⟨by rw [levelOrdersAtD_of_some _ _ _ hq]; exact .refl q, hside⟩
          | some tp =>
              simp only [hp, hside] at hml
              have hspec := limitBuyLoop_spec _ _ _ _ _ _ _ _ hml
              exact ⟨(hspec.2.2.2.2.2 hnd).1 p q hq,
                by rw [hspec.2.2.2.1.1]; exact hside⟩
        cases r1 with
        | ok ts =>
            dsimp only at hm
            cases hff : o1.is_fully_filled with
            | true =>
                rw [if_pos hff] at hm
                injection hm with h1 h2
                subst h1
                exact hkey.1
            | false =>
                rw [if_neg (by rw [hff]; exact Bool.false_ne_true)] at hm
                injection hm with h1 h2
                subst h1
                rw [add_order_asks b1 o1 hkey.2]
                exact hkey.1
        | error e =>
            dsimp only at hm
            injection hm with h1 h2
            subst h1
            exact hkey.1
    | Market =>
        simp only [hot] at hm
        unfold OrderBook.match_market_order at hm
        rw [hside] at hm
        unfold OrderBook.match_market_buy at hm
        rcases hml : matchMarketBuyLoop (o.remaining_quantity + sideSize b.asks + 1)
            b o [] with ⟨b1, o1, r1⟩
        rw [hml] at hm
        dsimp only at hm
        injection hm with h1 h2
        subst h1
        exact ((marketBuyLoop_spec _ _ _ _ _ _ _ hml).2.2.2 hnd).1 p q hq
  · intro hside hnd p q hq
    unfold OrderBook.match_order at hm
    cases hot : o.order_type with
    | Limit =>
        simp only [hot] at hm
        rcases hml : b.match_limit_order o with ⟨b1, o1, r1⟩
        simp only [hml] at hm
        have hkey : FrontConsumed q (levelOrdersAtD b1.bids p) ∧
            o1.side = OrderSide.Sell := by
          unfold OrderBook.match_limit_order at hml
          cases hp : o.price with
          | none =>
              simp only [hp] at hml
              injection hml with h1 hml
              injection hml with h2 h3
              subst h1; subst h2
              exact ⟨by rw [levelOrdersAtD_of_some _ _ _ hq]; exact .refl q, hside⟩
          | some tp =>
              simp only [hp, hside] at hml
              have hspec := limitSellLoop_spec _ _ _ _ _ _ _ _ hml
              exact ⟨(hspec.2.2.2.2.2 hnd).1 p q hq,
                by rw [hspec.2.2.2.1.1]; exact hside⟩
        cases r1 with
        | ok ts =>
            dsimp only at hm
            cases hff : o1.is_fully_filled with
            | true =>
                rw [if_pos hff] at hm
                injection hm with h1 h2
                subst h1
                exact hkey.1
            | false =>
                rw [if_neg (by rw [hff]; exact Bool.false_ne_true)] at hm
                injection hm with h1 h2
                subst h1
                rw [add_order_bids b1 o1 hkey.2]
                exact hkey.1
        | error e =>
            dsimp only at hm
            injection hm with h1 h2
            subst h1
            exact hkey.1
    | Market =>
        simp only [hot] at hm
        unfold OrderBook.match_market_order at hm
        rw [hside] at hm
        unfold OrderBook.match_market_sell at hm
        rcases hml : matchMarketSellLoop (o.remaining_quantity + sideSize b.bids + 1)
            b o [] with ⟨b1, o1, r1⟩
        rw [hml] at hm
        dsimp only at hm
        injection hm with h1 h2
        subst h1
        exact ((marketSellLoop_spec _ _ _ _ _ _ _ hml).2.2.2 hnd).1 p q hq

/-- C8: FIFO time priority inside a price level.  For any level of the side
`match_order` consumes, the queue after the call is a front-consumed form of
the queue before it (matching only ever fills the head), and consequently if
the order at position `i` is still present afterwards, then every order at a
later position `j` is completely untouched — its remainder is exactly what
it was before.  Equivalently, an order receives a fill only once every order
queued before it has been fully consumed and removed. -/
theorem c8_fifo_time_priority : ∀ (b : OrderBook) (o : Order) (b' : OrderBook)
    (r : Except String (List Trade)) (p : Nat) (q : List Order) (i j : Nat)
    (hi : i < q.length) (hj : j < q.length),
    b.match_order o = (b', r) → (q.map Order.id).Nodup → i < j →
    (o.side = OrderSide.Buy → (sideKeys b.asks).Nodup →
       levelOrdersAt b.asks p = some q →
       FrontConsumed q (levelOrdersAtD b'.asks p) ∧
       (remainingOfId (levelOrdersAtD b'.asks p) (q.get ⟨i, hi⟩).id ≠ none →
        remainingOfId (levelOrdersAtD b'.asks p) (q.get ⟨j, hj⟩).id =
          some (q.get ⟨j, hj⟩).remaining_quantity)) ∧
    (o.side = OrderSide.Sell → (sideKeys b.bids).Nodup →
       levelOrdersAt b.bids p = some q →
       FrontConsumed q (levelOrdersAtD b'.bids p) ∧
       (remainingOfId (levelOrdersAtD b'.bids p) (q.get ⟨i, hi⟩).id ≠ none →
        remainingOfId (levelOrdersAtD b'.bids p) (q.get ⟨j, hj⟩).id =
          some (q.get ⟨j, hj⟩).remaining_quantity)) := by
  intro b o b' r p q i j hi hj hm hnd hij
  have hd := match_order_frontConsumed b o b' r hm
  constructor
  · intro hside hka hq
    have hfc := hd.1 hside hka p q hq
    exact ⟨hfc, fun hpres => frontConsumed_fifo hfc hnd i j hi hj hij hpres⟩
  · intro hside hkb hq
    have hfc := hd.2 hside hkb p q hq
    exact ⟨hfc, fun hpres => frontConsumed_fifo hfc hnd i j hi hj hij hpres⟩

def c8makerA : Order := Order.new_limit 0 2 OrderSide.Sell 50000000000 100000000

def c8makerB : Order := Order.new_limit 1 2 OrderSide.Sell 50000000000 100000000

def c8book : OrderBook :=
  { bids := [],
    asks := [(50000000000,
      { price := 50000000000, orders := [c8makerA, c8makerB],
        total_volume := 200000000 })],
    orders := [(0, c8makerA), (1, c8makerB)],
    user_balances := [(1, { user_id := 1, balances := [("USD", 1000000)] }),
                      (2, { user_id := 2, balances := [("BTC", 10)] })] }

def c8taker : Order := Order.new_market 5 1 OrderSide.Buy 50000000

theorem c8_fifo_time_priority_witness :
    remainingOfId (levelOrdersAtD (c8book.match_order c8taker).1.asks 50000000000)
      (([c8makerA, c8makerB].get ⟨1, by decide⟩).id) =
      some (([c8makerA, c8makerB].get ⟨1, by decide⟩).remaining_quantity) := by
  have hval : remainingOfId (levelOrdersAtD (c8book.match_order c8taker).1.asks
      50000000000) (([c8makerA, c8makerB].get ⟨0, by decide⟩).id) = some 50000000 := by
    with_unfolding_all rfl
  exact ((c8_fifo_time_priority c8book c8taker (c8book.match_order c8taker).1
      (c8book.match_order c8taker).2 50000000000 [c8makerA, c8makerB] 0 1
      (by decide) (by decide) rfl (by decide) (by decide)).1 rfl (by decide)
      (by with_unfolding_all rfl)).2 (by rw [hval]; decide)
/-- C2: every trade returned by `match_order` carries the maker's resting
price: its maker fields name an order resting on the opposite side of the
pre-call book at the level whose key is the trade price, and for a limit
taker the trade price is on the taker-favourable side of the taker's own
limit (at most the limit for a buy, at least the limit for a sell), so the
price improvement accrues to the taker. -/
theorem c2_trades_at_maker_price :
    ∀ (b : OrderBook) (o : Order) (b' : OrderBook) (ts : List Trade) (tr : Trade),
    b.match_order o = (b', Except.ok ts) → tr ∈ ts →
    (o.side = OrderSide.Buy → (sideKeys b.asks).Nodup →
       MakerAskTriple b tr ∧
       (o.order_type = OrderType.Limit →
          ∀ tp, o.price = some tp → tr.price ≤ tp)) ∧
    (o.side = OrderSide.Sell → (sideKeys b.bids).Nodup →
       MakerBidTriple b tr ∧
       (o.order_type = OrderType.Limit →
          ∀ tp, o.price = some tp → tp ≤ tr.price)) := by
  intro b o b' ts tr hm htr
  constructor
  · intro hside hnd
    unfold OrderBook.match_order at hm
    cases hot : o.order_type with
    | Limit =>
        simp only [hot] at hm
        rcases hml : b.match_limit_order o with ⟨b1, o1, r1⟩
        simp only [hml] at hm
        cases r1 with
        | error e =>
            dsimp only at hm
            injection hm with h1 h2
            exact Except.noConfusion h2
        | ok ts1 =>
            dsimp only at hm
            have hts1 : ts1 = ts := by
              cases hff : o1.is_fully_filled with
              | true =>
                  rw [if_pos hff] at hm
                  injection hm with h1 h2
                  injection h2
              | false =>
                  rw [if_neg (by rw [hff]; exact Bool.false_ne_true)] at hm
                  injection hm with h1 h2
                  injection h2
            unfold OrderBook.match_limit_order at hml
            cases hp : o.price with
            | none =>
                simp only [hp] at hml
                injection hml with h1 hml
                injection hml with h2 h3
                exact Except.noConfusion h3
            | some tp =>
                simp only [hp, hside] at hml
                have hspec := limitBuyLoop_spec _ _ _ _ _ _ _ _ hml
                have hphi := ((hspec.2.2.2.2.2 hnd).2 ts1 rfl tr (hts1 ▸ htr))
                rcases hphi with hin | ⟨hmat, hble⟩
                · exact absurd hin (List.not_mem_nil tr)
                · refine ⟨hmat, ?_⟩
                  intro _ tp' htp'
                  injection htp' with htp'
                  rw [← htp']
                  exact hble
    | Market =>
        simp only [hot] at hm
        unfold OrderBook.match_market_order at hm
        rw [hside] at hm
        unfold OrderBook.match_market_buy at hm
        rcases hml : matchMarketBuyLoop (o.remaining_quantity + sideSize b.asks + 1)
            b o [] with ⟨b1, o1, r1⟩
        rw [hml] at hm
        dsimp only at hm
        injection hm with h1 h2
        have hphi := ((marketBuyLoop_spec _ _ _ _ _ _ _ hml).2.2.2 hnd).2 ts h2 tr htr
        rcases hphi with hin | hmat
        · exact absurd hin (List.not_mem_nil tr)
        · refine ⟨hmat, ?_⟩
          intro hlim
          exact OrderType.noConfusion hlim
  · intro hside hnd
    unfold OrderBook.match_order at hm
    cases hot : o.order_type with
    | Limit =>
        simp only [hot] at hm
        rcases hml : b.match_limit_order o with ⟨b1, o1, r1⟩
        simp only [hml] at hm
        cases r1 with
        | error e =>
            dsimp only at hm
            injection hm with h1 h2
            exact Except.noConfusion h2
        | ok ts1 =>
            dsimp only at hm
            have hts1 : ts1 = ts := by
              cases hff : o1.is_fully_filled with
              | true =>
                  rw [if_pos hff] at hm
                  injection hm with h1 h2
                  injection h2
              | false =>
                  rw [if_neg (by rw [hff]; exact Bool.false_ne_true)] at hm
                  injection hm with h1 h2
                  injection h2
            unfold OrderBook.match_limit_order at hml
            cases hp : o.price with
            | none =>
                simp only [hp] at hml
                injection hml with h1 hml
                injection hml with h2 h3
                exact Except.noConfusion h3
            | some tp =>
                simp only [hp, hside] at hml
                have hspec := limitSellLoop_spec _ _ _ _ _ _ _ _ hml
                have hphi := ((hspec.2.2.2.2.2 hnd).2 ts1 rfl tr (hts1 ▸ htr))
                rcases hphi with hin | ⟨hmat, hble⟩
                · exact absurd hin (List.not_mem_nil tr)
                · refine ⟨hmat, ?_⟩
                  intro _ tp' htp'
                  injection htp' with htp'
                  rw [← htp']
                  exact hble
    | Market =>
        simp only [hot] at hm
        unfold OrderBook.match_market_order at hm
        rw [hside] at hm
        unfold OrderBook.match_market_sell at hm
        rcases hml : matchMarketSellLoop (o.remaining_quantity + sideSize b.bids + 1)
            b o [] with ⟨b1, o1, r1⟩
        rw [hml] at hm
        dsimp only at hm
        injection hm with h1 h2
        have hphi := ((marketSellLoop_spec _ _ _ _ _ _ _ hml).2.2.2 hnd).2 ts h2 tr htr
        rcases hphi with hin | hmat
        · exact absurd hin (List.not_mem_nil tr)
        · refine ⟨hmat, ?_⟩
          intro hlim
          exact OrderType.noConfusion hlim

def c2maker : Order := Order.new_limit 0 2 OrderSide.Sell 50000000000 100000000

def c2book : OrderBook :=
  { bids := [],
    asks := [(50000000000,
      { price := 50000000000, orders := [c2maker], total_volume := 100000000 })],
    orders := [(0, c2maker)],
    user_balances := [(1, { user_id := 1, balances := [("USD", 100000)] }),
                      (2, { user_id := 2, balances := [("BTC", 10)] })] }

def c2taker : Order := Order.new_limit 5 1 OrderSide.Buy 60000000000 100000000

theorem c2_trades_at_maker_price_witness :
    MakerAskTriple c2book (Trade.new 0 5 2 1 50000000000 100000000) ∧
      (Trade.new 0 5 2 1 50000000000 100000000).price ≤ 60000000000 := by
  have h := (c2_trades_at_maker_price c2book c2taker
      (c2book.match_order c2taker).1 [Trade.new 0 5 2 1 50000000000 100000000]
      (Trade.new 0 5 2 1 50000000000 100000000)
      (by with_unfolding_all rfl) (by decide)).1 rfl (by decide)
  exact ⟨h.1, h.2 rfl 60000000000 rfl⟩
def booksOrdered (b : OrderBook) : Prop :=
  (sideKeys b.asks).Pairwise (· < ·) ∧
  (sideKeys b.bids).Pairwise (· > ·) ∧
  (∀ kb ∈ sideKeys b.bids, ∀ ka ∈ sideKeys b.asks, kb < ka)

theorem booksOrdered_of_eq (b b1 : OrderBook) (h : booksOrdered b)
    (ha : b1.asks = b.asks) (hb : b1.bids = b.bids) : booksOrdered b1 := by
  obtain ⟨hA, hB, hX⟩ := h
  refine ⟨by rw [ha]; exact hA, by rw [hb]; exact hB, ?_⟩
  intro kb hkb ka hka
  rw [hb] at hkb
  rw [ha] at hka
  exact hX kb hkb ka hka

theorem sideKeys_asksEnqueue_mem : ∀ (m : List (Nat × PriceLevel)) (p : Nat) (o : Order)
    (k : Nat), k ∈ sideKeys (asksEnqueue m p o) → k = p ∨ k ∈ sideKeys m := by
  intro m
  induction m with
  | nil =>
      intro p o k hk
      unfold asksEnqueue at hk
      rw [sideKeys_cons, sideKeys_nil] at hk
      exact Or.inl (List.mem_singleton.mp hk)
  | cons kv rest ih =>
      intro p o k hk
      obtain ⟨k0, L⟩ := kv
      unfold asksEnqueue at hk
      by_cases h1 : p < k0
      · rw [if_pos h1, sideKeys_cons, sideKeys_cons] at hk
        rcases List.mem_cons.mp hk with rfl | hk2
        · exact Or.inl rfl
        · exact Or.inr (by rw [sideKeys_cons]; exact hk2)
      · rw [if_neg h1] at hk
        by_cases h2 : p = k0
        · rw [if_pos h2, sideKeys_cons] at hk
          exact Or.inr (by rw [sideKeys_cons]; exact hk)
        · rw [if_neg h2, sideKeys_cons] at hk
          rcases List.mem_cons.mp hk with rfl | hk2
          · exact Or.inr (by rw [sideKeys_cons]; exact List.mem_cons_self _ _)
          · rcases ih p o k hk2 with h3 | h3
            · exact Or.inl h3
            · exact Or.inr (by rw [sideKeys_cons]; exact List.mem_cons_of_mem _ h3)

theorem sideKeys_bidsEnqueue_mem : ∀ (m : List (Nat × PriceLevel)) (p : Nat) (o : Order)
    (k : Nat), k ∈ sideKeys (bidsEnqueue m p o) → k = p ∨ k ∈ sideKeys m := by
  intro m
  induction m with
  | nil =>
      intro p o k hk
      unfold bidsEnqueue at hk
      rw [sideKeys_cons, sideKeys_nil] at hk
      exact Or.inl (List.mem_singleton.mp hk)
  | cons kv rest ih =>
      intro p o k hk
      obtain ⟨k0, L⟩ := kv
      unfold bidsEnqueue at hk
      by_cases h1 : k0 < p
      · rw [if_pos h1, sideKeys_cons, sideKeys_cons] at hk
        rcases List.mem_cons.mp hk with rfl | hk2
        · exact Or.inl rfl
        · exact Or.inr (by rw [sideKeys_cons]; exact hk2)
      · rw [if_neg h1] at hk
        by_cases h2 : p = k0
        · rw [if_pos h2, sideKeys_cons] at hk
          exact Or.inr (by rw [sideKeys_cons]; exact hk)
        · rw [if_neg h2, sideKeys_cons] at hk
          rcases List.mem_cons.mp hk with rfl | hk2
          · exact Or.inr (by rw [sideKeys_cons]; exact List.mem_cons_self _ _)
          · rcases ih p o k hk2 with h3 | h3
            · exact Or.inl h3
            · exact Or.inr (by rw [sideKeys_cons]; exact List.mem_cons_of_mem _ h3)

theorem asksEnqueue_sorted : ∀ (m : List (Nat × PriceLevel)) (p : Nat) (o : Order),
    (sideKeys m).Pairwise (· < ·) →
    (sideKeys (asksEnqueue m p o)).Pairwise (· < ·) := by
  intro m
  induction m with
  | nil =>
      intro p o _
      unfold asksEnqueue
      rw [sideKeys_cons, sideKeys_nil]
      exact List.Pairwise.cons (fun x hx => absurd hx (List.not_mem_nil x))
        List.Pairwise.nil
  | cons kv rest ih =>
      intro p o hs
      obtain ⟨k0, L⟩ := kv
      rw [sideKeys_cons] at hs
      obtain ⟨hhead, htail⟩ := List.pairwise_cons.mp hs
      unfold asksEnqueue
      by_cases h1 : p < k0
      · rw [if_pos h1, sideKeys_cons, sideKeys_cons]
        refine List.Pairwise.cons ?_ (List.Pairwise.cons hhead htail)
        intro x hx
        rcases List.mem_cons.mp hx with rfl | hx2
        · exact h1
        · exact Nat.lt_trans h1 (hhead x hx2)
      · rw [if_neg h1]
        by_cases h2 : p = k0
        · rw [if_pos h2, sideKeys_cons]
          exact List.Pairwise.cons hhead htail
        · rw [if_neg h2, sideKeys_cons]
          refine List.Pairwise.cons ?_ (ih p o htail)
          intro x hx
          rcases sideKeys_asksEnqueue_mem rest p o x hx with rfl | hx2
          · omega
          · exact hhead x hx2

theorem bidsEnqueue_sorted : ∀ (m : List (Nat × PriceLevel)) (p : Nat) (o : Order),
    (sideKeys m).Pairwise (· > ·) →
    (sideKeys (bidsEnqueue m p o)).Pairwise (· > ·) := by
  intro m
  induction m with
  | nil =>
      intro p o _
      unfold bidsEnqueue
      rw [sideKeys_cons, sideKeys_nil]
      exact List.Pairwise.cons (fun x hx => absurd hx (List.not_mem_nil x))
        List.Pairwise.nil
  | cons kv rest ih =>
      intro p o hs
      obtain ⟨k0, L⟩ := kv
      rw [sideKeys_cons] at hs
      obtain ⟨hhead, htail⟩ := List.pairwise_cons.mp hs
      unfold bidsEnqueue
      by_cases h1 : k0 < p
      · rw [if_pos h1, sideKeys_cons, sideKeys_cons]
        refine List.Pairwise.cons ?_ (List.Pairwise.cons hhead htail)
        intro x hx
        rcases List.mem_cons.mp hx with rfl | hx2
        · exact h1
        · exact Nat.lt_trans (hhead x hx2) h1
      · rw [if_neg h1]
        by_cases h2 : p = k0
        · rw [if_pos h2, sideKeys_cons]
          exact List.Pairwise.cons hhead htail
        · rw [if_neg h2, sideKeys_cons]
          refine List.Pairwise.cons ?_ (ih p o htail)
          intro x hx
          rcases sideKeys_bidsEnqueue_mem rest p o x hx with rfl | hx2
          · omega
          · exact hhead x hx2

theorem sideKeys_assocSet : ∀ (m : List (Nat × PriceLevel)) (k : Nat) (v L0 : PriceLevel),
    assocGet m k = some L0 → sideKeys (assocSet m k v) = sideKeys m := by
  intro m
  induction m with
  | nil => intro k v L0 h; simp [assocGet] at h
  | cons kw rest ih =>
      intro k v L0 h
      obtain ⟨k0, w⟩ := kw
      unfold assocSet
      by_cases he : k0 = k
      · rw [if_pos he, sideKeys_cons, sideKeys_cons]
      · rw [if_neg he, sideKeys_cons, sideKeys_cons]
        unfold assocGet at h
        rw [if_neg he] at h
        rw [ih k v L0 h]

theorem sideKeys_assocRemove_sublist : ∀ (m : List (Nat × PriceLevel)) (k : Nat),
    List.Sublist (sideKeys (assocRemove m k)) (sideKeys m) := by
  intro m
  induction m with
  | nil => intro k; exact List.Sublist.refl _
  | cons kw rest ih =>
      intro k
      obtain ⟨k0, w⟩ := kw
      unfold assocRemove
      by_cases he : k0 = k
      · rw [if_pos he, sideKeys_cons]
        exact List.sublist_cons_self _ _
      · rw [if_neg he, sideKeys_cons, sideKeys_cons]
        exact List.Sublist.cons₂ _ (ih k)

theorem booksOrdered_shrink_asks (b b1 : OrderBook) (h : booksOrdered b)
    (hbids : b1.bids = b.bids) (hsuf : sideKeys b1.asks <:+ sideKeys b.asks) :
    booksOrdered b1 := by
  obtain ⟨hA, hB, hX⟩ := h
  refine ⟨hA.sublist hsuf.sublist, by rw [hbids]; exact hB, ?_⟩
  intro kb hkb ka hka
  rw [hbids] at hkb
  exact hX kb hkb ka (hsuf.sublist.subset hka)

theorem booksOrdered_shrink_bids (b b1 : OrderBook) (h : booksOrdered b)
    (hasks : b1.asks = b.asks) (hsuf : sideKeys b1.bids <:+ sideKeys b.bids) :
    booksOrdered b1 := by
  obtain ⟨hA, hB, hX⟩ := h
  refine ⟨by rw [hasks]; exact hA, hB.sublist hsuf.sublist, ?_⟩
  intro kb hkb ka hka
  rw [hasks] at hka
  exact hX kb (hsuf.sublist.subset hkb) ka hka

theorem add_order_bids_buy (b : OrderBook) (o : Order) (tp : Nat)
    (hs : o.side = OrderSide.Buy) (hp : o.price = some tp) :
    (b.add_order o).bids = bidsEnqueue b.bids tp o := by
  unfold OrderBook.add_order
  rw [hp, hs]

theorem add_order_asks_sell (b : OrderBook) (o : Order) (tp : Nat)
    (hs : o.side = OrderSide.Sell) (hp : o.price = some tp) :
    (b.add_order o).asks = asksEnqueue b.asks tp o := by
  unfold OrderBook.add_order
  rw [hp, hs]

theorem match_limit_order_sides (b : OrderBook) (o : Order) (b1 : OrderBook) (o1 : Order)
    (r1 : Except String (List Trade)) (hml : b.match_limit_order o = (b1, o1, r1)) :
    (o.side = OrderSide.Buy →
       b1.bids = b.bids ∧ sideKeys b1.asks <:+ sideKeys b.asks ∧
       o1.side = o.side ∧ o1.price = o.price ∧
       (∀ ts, r1 = Except.ok ts → o1.remaining_quantity ≠ 0 →
          ∀ k L rest2, b1.asks = (k, L) :: rest2 →
            ∀ tp, o.price = some tp → tp < k)) ∧
    (o.side = OrderSide.Sell →
       b1.asks = b.asks ∧ sideKeys b1.bids <:+ sideKeys b.bids ∧
       o1.side = o.side ∧ o1.price = o.price ∧
       (∀ ts, r1 = Except.ok ts → o1.remaining_quantity ≠ 0 →
          ∀ k L rest2, b1.bids = (k, L) :: rest2 →
            ∀ tp, o.price = some tp → k < tp)) := by
  constructor
  · intro hside
    unfold OrderBook.match_limit_order at hml
    cases hp : o.price with
    | none =>
        simp only [hp] at hml
        injection hml with h1 hml
        injection hml with h2 h3
        subst h1; subst h2; subst h3
        exact ⟨rfl, List.suffix_refl _, rfl, hp,
          fun ts hr => Except.noConfusion hr⟩
    | some tp0 =>
        simp only [hp, hside] at hml
        have hspec := limitBuyLoop_spec _ _ _ _ _ _ _ _ hml
        refine ⟨hspec.1, hspec.2.1, hspec.2.2.2.1.1,
          by rw [hspec.2.2.2.1.2.2.1]; exact hp, ?_⟩
        intro ts hr hrem k L rest2 hasks tp htp
        injection htp with htp
        subst htp
        exact hspec.2.2.2.2.1 ts hr hrem k L rest2 hasks
  · intro hside
    unfold OrderBook.match_limit_order at hml
    cases hp : o.price with
    | none =>
        simp only [hp] at hml
        injection hml with h1 hml
        injection hml with h2 h3
        subst h1; subst h2; subst h3
        exact ⟨rfl, List.suffix_refl _, rfl, hp,
          fun ts hr => Except.noConfusion hr⟩
    | some tp0 =>
        simp only [hp, hside] at hml
        have hspec := limitSellLoop_spec _ _ _ _ _ _ _ _ hml
        refine ⟨hspec.1, hspec.2.1, hspec.2.2.2.1.1,
          by rw [hspec.2.2.2.1.2.2.1]; exact hp, ?_⟩
        intro ts hr hrem k L rest2 hbids tp htp
        injection htp with htp
        subst htp
        exact hspec.2.2.2.2.1 ts hr hrem k L rest2 hbids

theorem match_order_ordered (b : OrderBook) (o : Order) (h : booksOrdered b) :
    booksOrdered (b.match_order o).1 := by
  unfold OrderBook.match_order
  cases hot : o.order_type with
  | Limit =>
      rcases hml : b.match_limit_order o with ⟨b1, o1, r1⟩
      simp only [hml]
      have hsides := match_limit_order_sides b o b1 o1 r1 hml
      cases r1 with
      | error e =>
          dsimp only
          cases hside : o.side with
          | Buy =>
              obtain ⟨hb1, hsuf, _, _, _⟩ := hsides.1 hside
              exact booksOrdered_shrink_asks b b1 h hb1 hsuf
          | Sell =>
              obtain ⟨ha1, hsuf, _, _, _⟩ := hsides.2 hside
              exact booksOrdered_shrink_bids b b1 h ha1 hsuf
      | ok ts =>
          dsimp only
          cases hff : o1.is_fully_filled with
          | true =>
              rw [if_pos rfl]
              cases hside : o.side with
              | Buy =>
                  obtain ⟨hb1, hsuf, _, _, _⟩ := hsides.1 hside
                  exact booksOrdered_shrink_asks b b1 h hb1 hsuf
              | Sell =>
                  obtain ⟨ha1, hsuf, _, _, _⟩ := hsides.2 hside
                  exact booksOrdered_shrink_bids b b1 h ha1 hsuf
          | false =>
              rw [if_neg Bool.false_ne_true]
              have hrem : o1.remaining_quantity ≠ 0 := by
                simpa [Order.is_fully_filled] using hff
              cases hside : o.side with
              | Buy =>
                  obtain ⟨hb1, hsuf, hs1, hp1, hbreak⟩ := hsides.1 hside
                  have hs1' : o1.side = OrderSide.Buy := by rw [hs1]; exact hside
                  have h1 : booksOrdered b1 := booksOrdered_shrink_asks b b1 h hb1 hsuf
                  obtain ⟨hA1, hB1, hX1⟩ := h1
                  cases hp : o1.price with
                  | none =>
                      rw [show b1.add_order o1 = b1 from by
                        unfold OrderBook.add_order; rw [hp]]
                      exact ⟨hA1, hB1, hX1⟩
                  | some tp1 =>
                      have hb2 : (b1.add_order o1).bids = bidsEnqueue b1.bids tp1 o1 :=
                        add_order_bids_buy b1 o1 tp1 hs1' hp
                      have ha2 : (b1.add_order o1).asks = b1.asks :=
                        add_order_asks b1 o1 hs1'
                      have hop : o.price = some tp1 := by rw [← hp1]; exact hp
                      refine ⟨by rw [ha2]; exact hA1,
                        by rw [hb2, hb1]; exact bidsEnqueue_sorted _ _ _ h.2.1, ?_⟩
                      intro kb hkb ka hka
                      rw [hb2, hb1] at hkb
                      rw [ha2] at hka
                      rcases sideKeys_bidsEnqueue_mem b.bids tp1 o1 kb hkb with rfl | hkb2
                      · cases hasks1 : b1.asks with
                        | nil =>
                            rw [hasks1, sideKeys_nil] at hka
                            exact absurd hka (List.not_mem_nil ka)
                        | cons hd rest2 =>
                            obtain ⟨k0, L0⟩ := hd
                            have htpk := hbreak ts rfl hrem k0 L0 rest2 hasks1 kb hop
                            rw [hasks1, sideKeys_cons] at hka
                            rw [hasks1, sideKeys_cons] at hA1
                            rcases List.mem_cons.mp hka with rfl | h2
                            · exact htpk
                            · exact Nat.lt_trans htpk
                                ((List.pairwise_cons.mp hA1).1 ka h2)
                      · exact hX1 kb (by rw [hb1]; exact hkb2) ka hka
              | Sell =>
                  obtain ⟨ha1, hsuf, hs1, hp1, hbreak⟩ := hsides.2 hside
                  have hs1' : o1.side = OrderSide.Sell := by rw [hs1]; exact hside
                  have h1 : booksOrdered b1 := booksOrdered_shrink_bids b b1 h ha1 hsuf
                  obtain ⟨hA1, hB1, hX1⟩ := h1
                  cases hp : o1.price with
                  | none =>
                      rw [show b1.add_order o1 = b1 from by
                        unfold OrderBook.add_order; rw [hp]]
                      exact ⟨hA1, hB1, hX1⟩
                  | some tp1 =>
                      have ha2 : (b1.add_order o1).asks = asksEnqueue b1.asks tp1 o1 :=
                        add_order_asks_sell b1 o1 tp1 hs1' hp
                      have hb2 : (b1.add_order o1).bids = b1.bids :=
                        add_order_bids b1 o1 hs1'
                      have hop : o.price = some tp1 := by rw [← hp1]; exact hp
                      refine ⟨by rw [ha2, ha1]; exact asksEnqueue_sorted _ _ _ h.1,
                        by rw [hb2]; exact hB1, ?_⟩
                      intro kb hkb ka hka
                      rw [ha2, ha1] at hka
                      rw [hb2] at hkb
                      rcases sideKeys_asksEnqueue_mem b.asks tp1 o1 ka hka with rfl | hka2
                      · cases hbids1 : b1.bids with
                        | nil =>
                            rw [hbids1, sideKeys_nil] at hkb
                            exact absurd hkb (List.not_mem_nil kb)
                        | cons hd rest2 =>
                            obtain ⟨k0, L0⟩ := hd
                            have htpk := hbreak ts rfl hrem k0 L0 rest2 hbids1 ka hop
                            rw [hbids1, sideKeys_cons] at hkb
                            rw [hbids1, sideKeys_cons] at hB1
                            rcases List.mem_cons.mp hkb with rfl | h2
                            · exact htpk
                            · exact Nat.lt_trans
                                ((List.pairwise_cons.mp hB1).1 kb h2) htpk
                      · exact hX1 kb hkb ka (by rw [ha1]; exact hka2)
  | Market =>
      rcases hmm : b.match_market_order o with ⟨b1, o1, r1⟩
      simp only [hmm]
      unfold OrderBook.match_market_order at hmm
      cases hside : o.side with
      | Buy =>
          simp only [hside] at hmm
          unfold OrderBook.match_market_buy at hmm
          have hspec := marketBuyLoop_spec _ _ _ _ _ _ _ hmm
          exact booksOrdered_shrink_asks b b1 h hspec.1 hspec.2.1
      | Sell =>
          simp only [hside] at hmm
          unfold OrderBook.match_market_sell at hmm
          have hspec := marketSellLoop_spec _ _ _ _ _ _ _ hmm
          exact booksOrdered_shrink_bids b b1 h hspec.1 hspec.2.1

theorem cancel_order_ordered (b : OrderBook) (id : Nat) (h : booksOrdered b) :
    booksOrdered (b.cancel_order id).1 := by
  obtain ⟨hA, hB, hX⟩ := h
  unfold OrderBook.cancel_order
  cases hg : assocGet b.orders id with
  | none => exact ⟨hA, hB, hX⟩
  | some o =>
      dsimp only
      cases hp : o.price with
      | none => exact ⟨hA, hB, hX⟩
      | some price =>
          dsimp only
          cases hs : o.side with
          | Buy =>
              dsimp only
              cases hL : assocGet b.bids price with
              | none => exact ⟨hA, hB, hX⟩
              | some L =>
                  dsimp only
                  cases he : (L.dequeue_order_by_id id).1.is_empty with
                  | true =>
                      rw [if_pos rfl]
                      refine ⟨hA, hB.sublist (sideKeys_assocRemove_sublist b.bids price),
                        ?_⟩
                      intro kb hkb ka hka
                      exact hX kb
                        ((sideKeys_assocRemove_sublist b.bids price).subset hkb) ka hka
                  | false =>
                      rw [if_neg Bool.false_ne_true]
                      have hkeq := sideKeys_assocSet b.bids price
                        (L.dequeue_order_by_id id).1 L hL
                      refine ⟨hA, by rw [hkeq]; exact hB, ?_⟩
                      intro kb hkb ka hka
                      rw [hkeq] at hkb
                      exact hX kb hkb ka hka
          | Sell =>
              dsimp only
              cases hL : assocGet b.asks price with
              | none => exact ⟨hA, hB, hX⟩
              | some L =>
                  dsimp only
                  cases he : (L.dequeue_order_by_id id).1.is_empty with
                  | true =>
                      rw [if_pos rfl]
                      refine ⟨hA.sublist (sideKeys_assocRemove_sublist b.asks price),
                        hB, ?_⟩
                      intro kb hkb ka hka
                      exact hX kb hkb ka
                        ((sideKeys_assocRemove_sublist b.asks price).subset hka)
                  | false =>
                      rw [if_neg Bool.false_ne_true]
                      have hkeq := sideKeys_assocSet b.asks price
                        (L.dequeue_order_by_id id).1 L hL
                      refine ⟨by rw [hkeq]; exact hA, hB, ?_⟩
                      intro kb hkb ka hka
                      rw [hkeq] at hka
                      exact hX kb hkb ka hka

theorem add_funds_asks (b : OrderBook) (u : Nat) (c : String) (a : ℚ) :
    (b.add_funds u c a).asks = b.asks := rfl

theorem add_funds_bids (b : OrderBook) (u : Nat) (c : String) (a : ℚ) :
    (b.add_funds u c a).bids = b.bids := rfl

theorem placeAfterReserve_ordered (s : EngineState) (o : Order)
    (h : booksOrdered s.book) : booksOrdered (placeAfterReserve s o).1.book := by
  unfold placeAfterReserve
  rcases hmo : s.book.match_order o with ⟨b3, r3⟩
  simp only [hmo]
  have h3 : booksOrdered b3 := by
    have := match_order_ordered s.book o h
    rw [hmo] at this
    exact this
  cases r3 with
  | ok ts => dsimp only; exact h3
  | error e => dsimp only; exact h3

theorem engineStep_ordered (s : EngineState) (c : OrderBookCommand)
    (h : booksOrdered s.book) : booksOrdered (engineStep s c).1.book := by
  cases c with
  | PlaceLimitOrder user_id side price quantity =>
      cases side with
      | Buy =>
          simp only [engineStep]
          split
          · exact h
          · rcases hd : s.book.deduct_balance user_id "USD"
                (priceToRat price * qtyToRat quantity) with ⟨b2, oe⟩
            have h2 : booksOrdered b2 := by
              refine booksOrdered_of_eq _ _ h ?_ ?_
              · have := deduct_balance_asks s.book user_id "USD"
                  (priceToRat price * qtyToRat quantity)
                rw [hd] at this
                exact this
              · have := deduct_balance_bids s.book user_id "USD"
                  (priceToRat price * qtyToRat quantity)
                rw [hd] at this
                exact this
            cases oe with
            | some e => dsimp only; exact h2
            | none => exact placeAfterReserve_ordered _ _ h2
      | Sell =>
          simp only [engineStep]
          split
          · exact h
          · rcases hd : s.book.deduct_balance user_id "BTC" (qtyToRat quantity)
                with ⟨b2, oe⟩
            have h2 : booksOrdered b2 := by
              refine booksOrdered_of_eq _ _ h ?_ ?_
              · have := deduct_balance_asks s.book user_id "BTC" (qtyToRat quantity)
                rw [hd] at this
                exact this
              · have := deduct_balance_bids s.book user_id "BTC" (qtyToRat quantity)
                rw [hd] at this
                exact this
            cases oe with
            | some e => dsimp only; exact h2
            | none => exact placeAfterReserve_ordered _ _ h2
  | PlaceMarketOrder user_id side quantity =>
      simp only [engineStep]
      rcases hmo : s.book.match_order (Order.new_market s.next_id user_id side quantity)
          with ⟨b3, r3⟩
      have h3 : booksOrdered b3 := by
        have := match_order_ordered s.book
          (Order.new_market s.next_id user_id side quantity) h
        rw [hmo] at this
        exact this
      cases r3 with
      | ok ts => dsimp only; exact h3
      | error e => dsimp only; exact h3
  | CancelOrder user_id order_id =>
      simp only [engineStep]
      rcases hc : s.book.cancel_order order_id with ⟨b2, rc⟩
      have h2 : booksOrdered b2 := by
        have := cancel_order_ordered s.book order_id h
        rw [hc] at this
        exact this
      cases rc with
      | ok co =>
          dsimp only
          split
          · exact h2
          · cases hcs : co.side with
            | Buy =>
                cases hcp : co.price with
                | some pr =>
                    dsimp only
                    exact booksOrdered_of_eq _ _ h2
                      (credit_balance_asks _ _ _ _) (credit_balance_bids _ _ _ _)
                | none => dsimp only; exact h2
            | Sell =>
                dsimp only
                exact booksOrdered_of_eq _ _ h2
                  (credit_balance_asks _ _ _ _) (credit_balance_bids _ _ _ _)
      | error e => dsimp only; exact h2
  | GetOrderBook depth =>
      simp only [engineStep]
      exact h
  | GetUserBalance user_id =>
      simp only [engineStep]
      cases hu : s.book.get_user_balance user_id with
      | some balance => exact h
      | none => exact h
  | AddFunds user_id currency amount =>
      simp only [engineStep]
      exact booksOrdered_of_eq _ _ h (add_funds_asks _ _ _ _) (add_funds_bids _ _ _ _)

theorem engineFoldl_ordered : ∀ (cmds : List OrderBookCommand) (s : EngineState)
    (rs : List OrderBookResponse), booksOrdered s.book →
    booksOrdered (cmds.foldl
      (fun acc c =>
        let r := engineStep acc.1 c
        (r.1, acc.2 ++ [r.2])) (s, rs)).1.book := by
  intro cmds
  induction cmds with
  | nil => intro s rs h; exact h
  | cons c rest ih =>
      intro s rs h
      rw [List.foldl_cons]
      exact ih _ _ (engineStep_ordered s c h)

theorem engineRun_ordered (cmds : List OrderBookCommand) :
    booksOrdered (engineRun cmds).1.book := by
  unfold engineRun
  apply engineFoldl_ordered
  exact ⟨List.Pairwise.nil, List.Pairwise.nil,
    fun kb hkb => absurd hkb (List.not_mem_nil kb)⟩

/-- C7: in every state the engine reaches from the empty book by any command
sequence, whenever both sides of the book are non-empty the best bid price is
strictly below the best ask price — the book is never crossed after a command
completes. -/
theorem c7_book_never_crossed (cmds : List OrderBookCommand) (pb pa : Nat)
    (hb : (engineRun cmds).1.book.best_bid = some pb)
    (ha : (engineRun cmds).1.book.best_ask = some pa) : pb < pa := by
  have hInv := engineRun_ordered cmds
  unfold OrderBook.best_bid at hb
  unfold OrderBook.best_ask at ha
  cases hbs : (engineRun cmds).1.book.bids with
  | nil => rw [hbs] at hb; simp at hb
  | cons hdb restb =>
      cases has : (engineRun cmds).1.book.asks with
      | nil => rw [has] at ha; simp at ha
      | cons hda resta =>
          rw [hbs] at hb
          rw [has] at ha
          simp only [List.head?_cons, Option.map_some] at hb ha
          have hpb : pb ∈ sideKeys (engineRun cmds).1.book.bids := by
            rw [hbs]
            obtain ⟨k, L⟩ := hdb
            rw [sideKeys_cons]
            injection hb with hb
            rw [← hb]
            exact List.mem_cons_self _ _
          have hpa : pa ∈ sideKeys (engineRun cmds).1.book.asks := by
            rw [has]
            obtain ⟨k, L⟩ := hda
            rw [sideKeys_cons]
            injection ha with ha
            rw [← ha]
            exact List.mem_cons_self _ _
          exact hInv.2.2 pb hpb pa hpa

def c7cmds : List OrderBookCommand :=
  [.AddFunds 1 "USD" 1000000, .AddFunds 2 "BTC" 10,
   .PlaceLimitOrder 1 .Buy 40000000000 100000000,
   .PlaceLimitOrder 2 .Sell 50000000000 100000000]

theorem c7_book_never_crossed_witness : (40000000000 : Nat) < 50000000000 :=
  c7_book_never_crossed c7cmds 40000000000 50000000000
    (by with_unfolding_all rfl) (by with_unfolding_all rfl)
